import Mathlib

/-! # The dynamic data dependence graph builder of ALADDIN

A shallow embedding of `src/common/DDDG.cpp`.  The builder consumes the
records of an execution trace one by one; every handler of the C++ class
`DDDG` becomes a function on an explicit builder state.

Conventions of the embedding.

* A handler returns `none` where the C++ code has no defined result: a failed
  `assert`, a dereference of a `curr_node` that was never set, an access past
  the end of a vector, the read of a variable that was never written.
* Records are given by their parsed fields (what `sscanf` extracts from the
  text of the line); buffers are assumed large enough for the fields.
* Node ids, counters and edge endpoints are unbounded integers: the model
  covers traces whose counts stay below the range of the C++ integer types.
* The downstream `BaseDatapath` is represented by the log of the calls that
  the builder makes on it and on the nodes it hands out.
* Constants, macros and node predicates that are declared outside
  `DDDG.cpp` are collected in `Env` and are parameters of every handler.
-/

namespace ALADDIN

/-! ## Associative containers -/

/-- The lookup `m.find(k)` of a `std::unordered_map`. -/
def find {κ ν : Type} [DecidableEq κ] (k : κ) : List (κ × ν) → Option ν
  | [] => none
  | (k', v) :: m => if k' = k then some v else find k m

/-- The assignment `it->second = v` through the iterator returned by `find`. -/
def assign {κ ν : Type} [DecidableEq κ] (k : κ) (v : ν) : List (κ × ν) → List (κ × ν)
  | [] => []
  | (k', v') :: m => if k' = k then (k', v) :: m else (k', v') :: assign k v m

/-- The statement `m[k] = v`: overwrite the entry of `k`, or create it. -/
def upsert {κ ν : Type} [DecidableEq κ] (k : κ) (v : ν) (m : List (κ × ν)) : List (κ × ν) :=
  match find k m with
  | some _ => assign k v m
  | none => m ++ [(k, v)]

/-! ## Environment: what `DDDG.cpp` uses but does not define -/

/-- Byte addresses (`Addr`), unsigned 64-bit values. -/
abbrev Addr := Nat

/-- Constants, macros and node predicates used by `DDDG.cpp` and defined in
headers outside it.  The `LLVM_IR_*` fields are the opcode macros, the
`is_*_op` fields are the predicates of `ExecNode` as functions of the
micro-op the node was created with, `isReadyMode` is the mode of the
datapath. -/
structure Env where
  LLVM_IR_Ret : Int
  LLVM_IR_Load : Int
  LLVM_IR_Store : Int
  LLVM_IR_GetElementPtr : Int
  LLVM_IR_Alloca : Int
  LLVM_IR_PHI : Int
  LLVM_IR_Call : Int
  LLVM_IR_DMALoad : Int
  ADDR_MASK : Nat
  BYTE_SIZE : Nat
  is_fp_op : Int → Bool
  is_dma_op : Int → Bool
  is_dma_load : Int → Bool
  is_call_op : Int → Bool
  is_trig_op : Int → Bool
  isReadyMode : Bool

/-- The opcode macros that `DDDG.cpp` compares micro-ops with. -/
def Env.opcodes (env : Env) : List Int :=
  [env.LLVM_IR_Ret, env.LLVM_IR_Load, env.LLVM_IR_Store, env.LLVM_IR_GetElementPtr,
   env.LLVM_IR_Alloca, env.LLVM_IR_PHI, env.LLVM_IR_Call, env.LLVM_IR_DMALoad]

/-- The opcode macros are pairwise distinct and fit the `uint8_t` members
`curr_microop` and `prev_microop`. -/
def Env.WellFormed (env : Env) : Prop :=
  env.opcodes.Nodup ∧ ∀ c ∈ env.opcodes, 0 ≤ c ∧ c < 256

instance (env : Env) : Decidable env.WellFormed := by
  unfold Env.WellFormed
  infer_instance

/-! ## Trace records -/

/-- The numeric field of a record (`char_value`), given by the views of it
that the builder takes: whether the text contains a `.`, the cast
`(Addr)value` of the parsed double, and its bit patterns as a `float` and as
a `double` (`FP2BitsConverter::toFloat`, `toDouble`). -/
structure TraceValue where
  is_float : Bool
  as_addr : Addr
  float_bits : Nat
  double_bits : Nat
  deriving DecidableEq, Repr

/-- Fields of an instruction header line (tag `0`). -/
structure InstructionLine where
  line_num : Int
  curr_static_function : String
  bblockid : String
  instid : String
  microop : Int
  dyn_inst_count : Int
  deriving DecidableEq, Repr

/-- Fields of a parameter line; `prev_bbid` is read only for a Phi. -/
structure ParameterLine where
  size : Int
  value : TraceValue
  is_reg : Int
  label : String
  prev_bbid : String
  deriving DecidableEq, Repr

/-- Fields of a result line (tag `r`). -/
structure ResultLine where
  size : Int
  value : TraceValue
  is_reg : Int
  label : String
  deriving DecidableEq, Repr

/-- Fields of a forward line (tag `f`). -/
structure ForwardLine where
  size : Int
  value : TraceValue
  is_reg : Int
  label : String
  deriving DecidableEq, Repr

/-- A classified trace line: the dispatch of `build_initial_dddg` on the tag. -/
inductive Record where
  | header (h : InstructionLine)
  | result (r : ResultLine)
  | forward (f : ForwardLine)
  | parameter (param_tag : Int) (p : ParameterLine)
  deriving DecidableEq, Repr

/-! ## The downstream sink -/

/-- Calls made on the datapath and on the node handles it returns; node
setters carry the id of the node they are applied to. -/
inductive SinkCall where
  | insertNode (nid : Int) (microop : Int)
  | set_line_num (nid : Int) (line_num : Int)
  | set_inst_id (nid : Int) (instid : String)
  | set_static_method (nid : Int) (f : String)
  | addFunctionName (f : String)
  | set_dynamic_invocation (nid : Int) (count : Nat)
  | set_array_label (nid : Int) (label : String)
  | addArrayBaseAddress (label : String) (base : Addr)
  | set_mem_access (nid : Int) (addr : Addr) (offset : Nat) (size : Nat)
      (is_float : Bool) (bits : Nat)
  | set_mem_access_dma (nid : Int) (addr : Addr) (offset : Nat) (size : Nat)
  | set_double_precision (nid : Int) (b : Bool)
  | addCallArgumentMapping (callee_reg : String) (caller_reg : String)
  | addDddgEdge (src : Int) (sink : Int) (par_id : Int)
  deriving DecidableEq, Repr

/-- A node handle: the id and the micro-op given to `insertNode`. -/
structure Node where
  id : Int
  microop : Int
  deriving DecidableEq, Repr

/-- Modelled from the spec: `BaseDatapath::getNodeFromNodeId` (the datapath is
not part of `DDDG.cpp`) looks up an already-inserted node, here the node of
the `insertNode` call with that id. -/
def getNodeFromNodeId (calls : List SinkCall) (nid : Int) : Option Node :=
  calls.findSome? fun c =>
    match c with
    | .insertNode i m => if i = nid then some ⟨i, m⟩ else none
    | _ => none

/-! ## Builder state -/

/-- The value of an edge multimap entry. -/
structure edge_node_info where
  sink_node : Int
  par_id : Int
  deriving DecidableEq, Repr

/-- An edge multimap: entries `(source, (sink, par_id))` in insertion order. -/
abbrev multi_uint_to_node_info := List (Int × edge_node_info)

/-- The members of the class `DDDG`.  `calls` stands for the datapath.
`curr_microop`, `prev_microop`, `curr_node`, `num_of_parameters` and
`last_call_source` are not initialised by the constructor: `none` is the
indeterminate value.  The stack `active_method` has its top at the head. -/
structure DDDG where
  calls : List SinkCall
  num_of_reg_dep : Int
  num_of_mem_dep : Int
  num_of_instructions : Int
  last_parameter : Bool
  prev_bblock : String
  curr_bblock : String
  curr_dynamic_function : String
  curr_microop : Option Int
  prev_microop : Option Int
  curr_node : Option Node
  curr_instid : String
  callee_function : String
  callee_dynamic_function : String
  num_of_parameters : Option Int
  last_call_source : Option Int
  unique_reg_in_caller_func : String
  parameter_value_per_inst : List Addr
  parameter_size_per_inst : List Nat
  parameter_label_per_inst : List String
  register_edge_table : multi_uint_to_node_info
  memory_edge_table : multi_uint_to_node_info
  active_method : List String
  function_counter : List (String × Nat)
  register_last_written : List (String × Int)
  address_last_written : List (Addr × Int)
  labelmap : List (Int × String × String)
  deriving DecidableEq, Repr

/-- The constructor `DDDG::DDDG` (lines 61-68). -/
def DDDG.init : DDDG where
  calls := []
  num_of_reg_dep := 0
  num_of_mem_dep := 0
  num_of_instructions := -1
  last_parameter := false
  prev_bblock := "-1"
  curr_bblock := "-1"
  curr_dynamic_function := ""
  curr_microop := none
  prev_microop := none
  curr_node := none
  curr_instid := ""
  callee_function := ""
  callee_dynamic_function := ""
  num_of_parameters := none
  last_call_source := none
  unique_reg_in_caller_func := ""
  parameter_value_per_inst := []
  parameter_size_per_inst := []
  parameter_label_per_inst := []
  register_edge_table := []
  memory_edge_table := []
  active_method := []
  function_counter := []
  register_last_written := []
  address_last_written := []
  labelmap := []

/-- The method `num_edges` (lines 70-72). -/
def DDDG.num_edges (s : DDDG) : Int :=
  s.register_edge_table.length + s.memory_edge_table.length

/-- The method `num_nodes` (line 74). -/
def DDDG.num_nodes (s : DDDG) : Int := s.num_of_instructions + 1

/-- The method `output_dddg` (lines 77-89): push every register edge, then
every memory edge, to the datapath. -/
def output_dddg (s : DDDG) : DDDG :=
  { s with
    calls := s.calls
      ++ s.register_edge_table.map (fun e => .addDddgEdge e.1 e.2.sink_node e.2.par_id)
      ++ s.memory_edge_table.map (fun e => .addDddgEdge e.1 e.2.sink_node e.2.par_id) }

/-- The method `handle_post_write_dependency` (lines 91-118). -/
def handle_post_write_dependency (addr : Addr) (s : DDDG) : DDDG :=
  match find addr s.address_last_written with
  | none => s
  | some source_inst =>
    let same_source_inst := s.memory_edge_table.filter fun e => decide (e.1 = source_inst)
    let edge_existed :=
      same_source_inst.any fun e => decide (e.2.sink_node = s.num_of_instructions)
    if edge_existed then s
    else
      { s with
        memory_edge_table :=
          s.memory_edge_table ++ [(source_inst, ⟨s.num_of_instructions, -1⟩)]
        num_of_mem_dep := s.num_of_mem_dep + 1 }

/-! ## Instruction headers -/

/-- The C predicate `isspace`. -/
def isspace (c : Char) : Bool :=
  c = ' ' || c = '\t' || c = '\n' || c = '\x0b' || c = '\x0c' || c = '\r'

/-- The value of a run of decimal digits. -/
def digits_value (ds : List Char) : Nat :=
  ds.foldl (fun v c => 10 * v + (c.toNat - '0'.toNat)) 0

/-- The conversion `%u` of `sscanf`: skip white space, read an optional sign
and a non-empty run of decimal digits.  A negative input is reduced modulo
`2^32`; an input without `-` is taken at its value, which the model assumes
to be below `2^32`. -/
def scan_unsigned (cs : List Char) : Option Nat :=
  let cs := cs.dropWhile isspace
  let neg := cs.head? = some '-'
  let cs := if cs.head? = some '-' ∨ cs.head? = some '+' then cs.tail else cs
  let ds := cs.takeWhile Char.isDigit
  if ds = [] then none
  else if neg then some ((2 ^ 32 - digits_value ds % 2 ^ 32) % 2 ^ 32)
  else some (digits_value ds)

/-- The call `sscanf(top, "%[^-]-%u", prev_static_function, &prev_counts)`
(lines 163-166): the text before the first `-`, which must be non-empty, and
the number after that `-`.  A component is `none` when it is not assigned. -/
def sscanf_top (top : String) : Option String × Option Nat :=
  let name := top.data.takeWhile fun c => c != '-'
  if name = [] then (none, none)
  else
    match top.data.dropWhile fun c => c != '-' with
    | '-' :: rest => (some (String.mk name), scan_unsigned rest)
    | _ => (some (String.mk name), none)

/-- The local variables of `parse_instruction_line` that the resolution of
the dynamic function assigns, together with the members it updates. -/
structure Resolution where
  func_invocation_count : Nat
  curr_func_found : Bool
  function_counter : List (String × Nat)
  curr_dynamic_function : String
  active_method : List String
  deriving DecidableEq, Repr

/-- Lines 160-187 of `parse_instruction_line`: the case analysis on the top of
the stack of active functions. -/
def resolve_active (env : Env) (h : InstructionLine) (prev_microop : Option Int)
    (s : DDDG) : Option Resolution :=
  match s.active_method with
  | [] => some ⟨0, false, s.function_counter, s.curr_dynamic_function, []⟩
  | top :: rest =>
    match sscanf_top top with
    | (none, _) => none
    | (some prev_static_function, prev_counts) =>
      let r : Option Resolution :=
        if h.curr_static_function = prev_static_function then
          if prev_microop = some env.LLVM_IR_Call ∧
              s.callee_function = h.curr_static_function then
            match find h.curr_static_function s.function_counter with
            | none => none
            | some c =>
              let func_invocation_count := c + 1
              let curr_dynamic_function :=
                h.curr_static_function ++ "-" ++ Nat.repr func_invocation_count
              some ⟨func_invocation_count, true,
                assign h.curr_static_function func_invocation_count s.function_counter,
                curr_dynamic_function, curr_dynamic_function :: top :: rest⟩
          else
            match prev_counts with
            | none => none
            | some c => some ⟨c, true, s.function_counter, top, top :: rest⟩
        else some ⟨0, false, s.function_counter, s.curr_dynamic_function, top :: rest⟩
      r.map fun r =>
        if h.microop = env.LLVM_IR_Ret then { r with active_method := r.active_method.tail }
        else r

/-- Lines 188-201 of `parse_instruction_line`: a function that is not the one
on top of the stack gets a fresh invocation. -/
def resolve_new (h : InstructionLine) (r : Resolution) : Resolution :=
  if r.curr_func_found then r
  else
    let func_invocation_count :=
      match find h.curr_static_function r.function_counter with
      | none => 0
      | some c => c + 1
    let function_counter :=
      match find h.curr_static_function r.function_counter with
      | none => r.function_counter ++ [(h.curr_static_function, 0)]
      | some c => assign h.curr_static_function (c + 1) r.function_counter
    let curr_dynamic_function :=
      h.curr_static_function ++ "-" ++ Nat.repr func_invocation_count
    { func_invocation_count := func_invocation_count
      curr_func_found := false
      function_counter := function_counter
      curr_dynamic_function := curr_dynamic_function
      active_method := curr_dynamic_function :: r.active_method }

/-- The method `parse_instruction_line` (lines 131-210). -/
def parse_instruction_line (env : Env) (h : InstructionLine) (s : DDDG) : Option DDDG :=
  let num_of_instructions := s.num_of_instructions + 1
  let prev_microop := s.curr_microop
  let curr_microop : Int := h.microop % 256
  match resolve_active env h prev_microop s with
  | none => none
  | some r0 =>
    let r := resolve_new h r0
    some
      { s with
        num_of_instructions := num_of_instructions
        prev_microop := prev_microop
        curr_microop := some curr_microop
        curr_instid := h.instid
        curr_node := some ⟨num_of_instructions, h.microop⟩
        calls := s.calls ++
          [.insertNode num_of_instructions h.microop,
           .set_line_num num_of_instructions h.line_num,
           .set_inst_id num_of_instructions h.instid,
           .set_static_method num_of_instructions h.curr_static_function,
           .addFunctionName h.curr_static_function,
           .set_dynamic_invocation num_of_instructions r.func_invocation_count]
        function_counter := r.function_counter
        curr_dynamic_function := r.curr_dynamic_function
        active_method := r.active_method
        prev_bblock :=
          if h.microop = env.LLVM_IR_PHI ∧ prev_microop ≠ some env.LLVM_IR_PHI then
            s.curr_bblock
          else s.prev_bblock
        curr_bblock := h.bblockid
        last_parameter := false
        parameter_value_per_inst := []
        parameter_size_per_inst := []
        parameter_label_per_inst := [] }

/-! ## Parameters -/

/-- The function `FP2BitsConverter::Convert` (lines 26-36); `none` is the
failed `assert` on the size. -/
def Convert (value : TraceValue) (size : Nat) (is_float : Bool) : Option Nat :=
  if !is_float then some value.as_addr
  else if size = 4 then some value.float_bits
  else if size = 8 then some value.double_bits
  else none

/-- Lines 241-254 of `parse_parameter`: what the first parameter of an
instruction latches, and the reset of `last_call_source`. -/
def parse_parameter_latch (env : Env) (param_tag : Int) (p : ParameterLine)
    (s : DDDG) : DDDG :=
  let s1 :=
    if s.last_parameter then s
    else
      let callee_function :=
        if s.curr_microop = some env.LLVM_IR_Call then p.label else s.callee_function
      { s with
        num_of_parameters := some param_tag
        callee_function := callee_function
        callee_dynamic_function :=
          match find callee_function s.function_counter with
          | some c => callee_function ++ "-" ++ Nat.repr (c + 1)
          | none => callee_function ++ "-0" }
  { s1 with last_parameter := true, last_call_source := some (-1) }

/-- Lines 255-279 of `parse_parameter`: the register operand. -/
def parse_parameter_reg (env : Env) (param_tag : Int) (p : ParameterLine)
    (s : DDDG) : DDDG :=
  if p.is_reg = 0 then s
  else
    let unique_reg_id := s.curr_dynamic_function ++ "-" ++ p.label
    let s1 :=
      if s.curr_microop = some env.LLVM_IR_Call then
        { s with unique_reg_in_caller_func := unique_reg_id }
      else s
    match find unique_reg_id s1.register_last_written with
    | some writer =>
      { s1 with
        register_edge_table :=
          s1.register_edge_table ++ [(writer, ⟨s1.num_of_instructions, param_tag⟩)]
        num_of_reg_dep := s1.num_of_reg_dep + 1
        last_call_source :=
          if s1.curr_microop = some env.LLVM_IR_Call then some writer
          else s1.last_call_source }
    | none =>
      if (s1.curr_microop = some env.LLVM_IR_Store ∧ param_tag = 2) ∨
          (s1.curr_microop = some env.LLVM_IR_Load ∧ param_tag = 1) then
        { s1 with
          register_last_written :=
            upsert unique_reg_id s1.num_of_instructions s1.register_last_written }
      else s1

/-- Lines 282-331 of `parse_parameter`: the body of the branch for memory
operations, entered for a Load, a Store, a GetElementPtr or a DMA node. -/
def parse_parameter_mem_body (env : Env) (param_tag : Int) (p : ParameterLine)
    (s : DDDG) : Option DDDG :=
  let s1 :=
    { s with
      parameter_value_per_inst :=
        s.parameter_value_per_inst ++ [p.value.as_addr &&& env.ADDR_MASK]
      parameter_size_per_inst :=
        s.parameter_size_per_inst ++ [(p.size % 2 ^ 32).toNat]
      parameter_label_per_inst := s.parameter_label_per_inst ++ [p.label] }
  if param_tag = 1 ∧ s1.curr_microop = some env.LLVM_IR_Load then
    match s1.parameter_value_per_inst.getLast?, s1.parameter_label_per_inst.getLast?,
        s1.curr_node with
    | some mem_address, some base_label, some node =>
      let s2 := handle_post_write_dependency mem_address s1
      some
        { s2 with
          calls := s2.calls ++
            [.set_array_label node.id base_label,
             .addArrayBaseAddress base_label mem_address] }
    | _, _, _ => none
  else if param_tag = 2 ∧ s1.curr_microop = some env.LLVM_IR_Store then
    match s1.parameter_value_per_inst.head?, s1.parameter_label_per_inst.head?,
        s1.curr_node with
    | some mem_address, some base_label, some node =>
      let s3 : Option DDDG :=
        match find mem_address s1.address_last_written with
        | some last_node_to_write =>
          match getNodeFromNodeId s1.calls last_node_to_write with
          | none => none
          | some writer =>
            let s2 :=
              if env.is_dma_load writer.microop then
                handle_post_write_dependency mem_address s1
              else s1
            some
              { s2 with
                address_last_written :=
                  assign mem_address s2.num_of_instructions s2.address_last_written }
        | none =>
          some
            { s1 with
              address_last_written :=
                s1.address_last_written ++ [(mem_address, s1.num_of_instructions)] }
      s3.map fun s3 =>
        { s3 with
          calls := s3.calls ++
            [.set_array_label node.id base_label,
             .addArrayBaseAddress base_label mem_address] }
    | _, _, _ => none
  else if param_tag = 1 ∧ s1.curr_microop = some env.LLVM_IR_Store then
    match s1.parameter_value_per_inst.head?, s1.parameter_size_per_inst.getLast?,
        s1.curr_node with
    | some mem_address, some size, some node =>
      let mem_size := size / env.BYTE_SIZE
      match Convert p.value mem_size p.value.is_float with
      | none => none
      | some bits =>
        some
          { s1 with
            calls := s1.calls ++
              [.set_mem_access node.id mem_address 0 mem_size p.value.is_float bits] }
    | _, _, _ => none
  else if param_tag = 1 ∧ s1.curr_microop = some env.LLVM_IR_GetElementPtr then
    match s1.parameter_value_per_inst.getLast?, s1.parameter_label_per_inst.getLast?,
        s1.curr_node with
    | some base_address, some base_label, some node =>
      some
        { s1 with
          calls := s1.calls ++
            [.set_array_label node.id base_label,
             .addArrayBaseAddress base_label base_address] }
    | _, _, _ => none
  else if param_tag = 1 then
    match s1.parameter_label_per_inst.getLast?, s1.curr_node with
    | some base_label, some node =>
      if env.is_dma_op node.microop then
        some { s1 with calls := s1.calls ++ [.set_array_label node.id base_label] }
      else some s1
    | _, _ => none
  else some s1

/-- Lines 280-331 of `parse_parameter`: the test that guards the branch for
memory operations; `curr_node` is consulted only when the micro-op is none of
Load, Store and GetElementPtr. -/
def parse_parameter_mem (env : Env) (param_tag : Int) (p : ParameterLine)
    (s : DDDG) : Option DDDG :=
  if s.curr_microop = some env.LLVM_IR_Load ∨ s.curr_microop = some env.LLVM_IR_Store ∨
      s.curr_microop = some env.LLVM_IR_GetElementPtr then
    parse_parameter_mem_body env param_tag p s
  else
    match s.curr_node with
    | none => none
    | some node =>
      if env.is_dma_op node.microop then parse_parameter_mem_body env param_tag p s
      else some s

/-- The method `parse_parameter` (lines 212-332). -/
def parse_parameter (env : Env) (param_tag : Int) (p : ParameterLine)
    (s : DDDG) : Option DDDG :=
  if s.curr_microop = some env.LLVM_IR_PHI ∧ s.prev_bblock ≠ p.prev_bbid then some s
  else
    parse_parameter_mem env param_tag p
      (parse_parameter_reg env param_tag p (parse_parameter_latch env param_tag p s))

/-! ## Results and forwards -/

/-- The byte addresses visited by the loops of lines 380-382 and 395-397:
from `mem_address + mem_offset` up to, and excluding,
`mem_address + mem_offset + mem_size`, in 64-bit unsigned arithmetic. -/
def dma_range (mem_address : Addr) (mem_offset mem_size : Nat) : List Addr :=
  let first := (mem_address + mem_offset) % 2 ^ 64
  let bound := (mem_address + mem_offset + mem_size) % 2 ^ 64
  List.range' first (bound - first)

/-- Lines 384-389 of `parse_result`: the node becomes the last writer of one
byte. -/
def dma_load_write (addr : Addr) (s : DDDG) : DDDG :=
  match find addr s.address_last_written with
  | some _ =>
    { s with
      address_last_written := assign addr s.num_of_instructions s.address_last_written }
  | none =>
    { s with
      address_last_written := s.address_last_written ++ [(addr, s.num_of_instructions)] }

/-- Lines 366-401 of `parse_result`: the result of a DMA node. -/
def parse_result_dma (env : Env) (node : Node) (s : DDDG) : Option DDDG :=
  match s.parameter_value_per_inst with
  | _ :: mem_address :: v2 :: v3 :: _ =>
    let mem_offset := v2 % 2 ^ 32
    let mem_size := v3 % 2 ^ 32
    let s1 :=
      { s with
        calls := s.calls ++ [.set_mem_access_dma node.id mem_address mem_offset mem_size] }
    if s1.curr_microop = some env.LLVM_IR_DMALoad then
      if !env.isReadyMode then
        some ((dma_range mem_address mem_offset mem_size).foldl
          (fun st addr => dma_load_write addr st) s1)
      else some s1
    else
      some ((dma_range mem_address mem_offset mem_size).foldl
        (fun st addr => handle_post_write_dependency addr st) s1)
  | _ => none

/-- The method `parse_result` (lines 334-402). -/
def parse_result (env : Env) (r : ResultLine) (s : DDDG) : Option DDDG :=
  match s.curr_node with
  | none => none
  | some node =>
    let s1 :=
      if env.is_fp_op node.microop ∧ r.size = 64 then
        { s with calls := s.calls ++ [.set_double_precision node.id true] }
      else s
    if r.is_reg = 0 then none
    else
      let unique_reg_id := s1.curr_dynamic_function ++ "-" ++ r.label
      let s2 :=
        { s1 with
          register_last_written :=
            match find unique_reg_id s1.register_last_written with
            | some _ => assign unique_reg_id s1.num_of_instructions s1.register_last_written
            | none => upsert unique_reg_id s1.num_of_instructions s1.register_last_written }
      if s2.curr_microop = some env.LLVM_IR_Alloca then
        some
          { s2 with
            calls := s2.calls ++
              [.set_array_label node.id r.label,
               .addArrayBaseAddress r.label (r.value.as_addr &&& env.ADDR_MASK)] }
      else if s2.curr_microop = some env.LLVM_IR_Load then
        match s2.parameter_value_per_inst.getLast? with
        | none => none
        | some mem_address =>
          let mem_size := (Int.tdiv r.size env.BYTE_SIZE % 2 ^ 64).toNat
          match Convert r.value mem_size r.value.is_float with
          | none => none
          | some bits =>
            some
              { s2 with
                calls := s2.calls ++
                  [.set_mem_access node.id mem_address 0 mem_size r.value.is_float bits] }
      else if env.is_dma_op node.microop then parse_result_dma env node s2
      else some s2

/-- The method `parse_forward` (lines 404-429). -/
def parse_forward (env : Env) (f : ForwardLine) (s : DDDG) : Option DDDG :=
  if f.is_reg = 0 then none
  else
    match s.curr_node with
    | none => none
    | some node =>
      if !(env.is_call_op node.microop || env.is_dma_op node.microop ||
          env.is_trig_op node.microop) then none
      else
        let unique_reg_id := s.callee_dynamic_function ++ "-" ++ f.label
        let s1 :=
          if s.unique_reg_in_caller_func ≠ "" then
            { s with
              calls := s.calls ++
                [.addCallArgumentMapping unique_reg_id s.unique_reg_in_caller_func]
              unique_reg_in_caller_func := "" }
          else s
        match s1.last_call_source with
        | none => none
        | some last_call_source =>
          let tmp_written_inst :=
            if last_call_source ≠ -1 then last_call_source else s1.num_of_instructions
          some
            { s1 with
              register_last_written :=
                match find unique_reg_id s1.register_last_written with
                | some _ => assign unique_reg_id tmp_written_inst s1.register_last_written
                | none => upsert unique_reg_id tmp_written_inst s1.register_last_written }

/-! ## Processing a trace -/

/-- The dispatch on the tag in `build_initial_dddg` (lines 513-526). -/
def dispatch (env : Env) (s : DDDG) : Record → Option DDDG
  | .header h => parse_instruction_line env h s
  | .result r => parse_result env r s
  | .forward f => parse_forward env f s
  | .parameter param_tag p => parse_parameter env param_tag p s

/-- The records of a trace handled one after the other. -/
def run (env : Env) (s : DDDG) : List Record → Option DDDG
  | [] => some s
  | r :: rs =>
    match dispatch env s r with
    | none => none
    | some s1 => run env s1 rs

/-- A sample environment: the opcode numbering of LLVM 3.4 with the two DMA
pseudo-opcodes, a 32-bit address mask and 8-bit bytes.  It is used to
evaluate the handlers on concrete traces. -/
def sample_env : Env where
  LLVM_IR_Ret := 1
  LLVM_IR_Load := 27
  LLVM_IR_Store := 28
  LLVM_IR_GetElementPtr := 29
  LLVM_IR_Alloca := 26
  LLVM_IR_PHI := 48
  LLVM_IR_Call := 49
  LLVM_IR_DMALoad := 99
  ADDR_MASK := 0xffffffff
  BYTE_SIZE := 8
  is_fp_op := fun m => m = 9 || m = 11 || m = 13 || m = 16 || m = 19
  is_dma_op := fun m => m = 98 || m = 99
  is_dma_load := fun m => m = 99
  is_call_op := fun m => m = 49
  is_trig_op := fun m => m = 102 || m = 103
  isReadyMode := false

/-- An integer-valued numeric field. -/
def int_value (a : Nat) : TraceValue := ⟨false, a, 0, 0⟩

/-- Scenario S1 up to the header of the Load: a GetElementPtr defines `r1`. -/
def S1_start : List Record :=
  [.header ⟨10, "f", "bb0", "i1", 29, 0⟩,
   .parameter 1 ⟨64, int_value 0x1000, 1, "r1", ""⟩,
   .result ⟨64, int_value 0x1000, 1, "r1"⟩,
   .header ⟨11, "f", "bb0", "i2", 27, 1⟩]

/-- The builder state reached after `S1_start`. -/
def S1_state : DDDG := (run sample_env DDDG.init S1_start).getD DDDG.init

/-- The address operand of the Load of scenario S1. -/
def S1_param : ParameterLine := ⟨64, int_value 0x1000, 1, "r1", ""⟩

/-- A Store whose pointer operand and value operand name the same register,
which no earlier record defined. -/
def self_edge_trace : List Record :=
  [.header ⟨10, "f", "bb0", "i1", 28, 0⟩,
   .parameter 2 ⟨64, int_value 0x2000, 1, "p", ""⟩,
   .parameter 1 ⟨64, int_value 0x2000, 1, "p", ""⟩]

/-- Scenario S2: the header of the Store. -/
def S2_store : InstructionLine := ⟨10, "f", "bb0", "i1", 28, 0⟩

/-- Scenario S2: the pointer operand of the Store, address `0x2000`. -/
def S2_store_pointer : ParameterLine := ⟨64, int_value 0x2000, 1, "p", ""⟩

/-- Scenario S2: the value operand of the Store. -/
def S2_store_value : ParameterLine := ⟨32, int_value 7, 0, "v", ""⟩

/-- Scenario S2: the header of the Load. -/
def S2_load : InstructionLine := ⟨11, "f", "bb0", "i2", 27, 1⟩

/-- Scenario S2: the address operand of the Load, address `0x2000`. -/
def S2_load_address : ParameterLine := ⟨64, int_value 0x2000, 1, "q", ""⟩

/-- Scenario S2: a Store to `0x2000` followed by a Load from `0x2000`. -/
def S2_trace : List Record :=
  [.header S2_store, .parameter 2 S2_store_pointer, .parameter 1 S2_store_value,
   .header S2_load, .parameter 1 S2_load_address, .result ⟨32, int_value 7, 1, "x"⟩]

/-- Scenario S2: the state in which the Load receives its address operand. -/
def S2_state : DDDG :=
  (run sample_env DDDG.init
    [.header S2_store, .parameter 2 S2_store_pointer, .parameter 1 S2_store_value,
     .header S2_load]).getD DDDG.init

/-- Scenario S4 up to the first operand of the Call, which names the callee:
`%r5` is defined in `caller`, then `caller` calls `foo`. -/
def S4_start : List Record :=
  [.header ⟨20, "caller", "bb0", "i1", 8, 0⟩,
   .result ⟨64, int_value 3, 1, "%r5"⟩,
   .header ⟨21, "caller", "bb0", "i2", 49, 1⟩,
   .parameter 2 ⟨64, int_value 0, 1, "foo", ""⟩]

/-- Scenario S4: the state in which the Call receives its argument operand. -/
def S4_state : DDDG := (run sample_env DDDG.init S4_start).getD DDDG.init

/-- Scenario S4: the argument operand `%r5` of the Call. -/
def S4_argument : ParameterLine := ⟨64, int_value 3, 1, "%r5", ""⟩

/-- Scenario S4: the forward record naming the parameter `%p0` of `foo`. -/
def S4_forward : ForwardLine := ⟨64, int_value 3, 1, "%p0"⟩

/-- Scenario S6 up to the recursive entry: `foo` runs, calls `foo`. -/
def S6_start : List Record :=
  [.header ⟨30, "foo", "bb0", "i1", 8, 0⟩,
   .header ⟨31, "foo", "bb0", "i2", 49, 1⟩,
   .parameter 1 ⟨64, int_value 0, 1, "foo", ""⟩]

/-- Scenario S6: the state in which the first header of the callee arrives. -/
def S6_state : DDDG := (run sample_env DDDG.init S6_start).getD DDDG.init

/-- Scenario S6: the first header of the recursive invocation of `foo`. -/
def S6_entry : InstructionLine := ⟨30, "foo", "bb0", "i1", 8, 2⟩

/-- The parameter record is one that the Phi filter of `parse_parameter`
(lines 216-226) drops when it is processed in state `s`. -/
def is_filtered (env : Env) (s : DDDG) : Record → Bool
  | .parameter _ p =>
    decide (s.curr_microop = some env.LLVM_IR_PHI ∧ s.prev_bblock ≠ p.prev_bbid)
  | _ => false

/-- The trace with every record deleted that the Phi filter drops when the
trace is processed from state `s`. -/
def drop_filtered (env : Env) : DDDG → List Record → List Record
  | _, [] => []
  | s, r :: rs =>
    if is_filtered env s r then drop_filtered env s rs
    else
      match dispatch env s r with
      | some s1 => r :: drop_filtered env s1 rs
      | none => r :: rs

/-- Scenario S3 up to the header of the Phi: `b` is defined in `bb0`, `a` in
`bbA`, then control enters `bbC`, which starts with a Phi. -/
def S3_start : List Record :=
  [.header ⟨40, "f", "bb0", "i1", 8, 0⟩,
   .result ⟨64, int_value 1, 1, "b"⟩,
   .header ⟨41, "f", "bbA", "i2", 8, 1⟩,
   .result ⟨64, int_value 2, 1, "a"⟩]

/-- Scenario S3: the header of the Phi. -/
def S3_phi : InstructionLine := ⟨42, "f", "bbC", "i3", 48, 2⟩

/-- Scenario S3: the state in which the Phi receives its operands. -/
def S3_state : DDDG :=
  (run sample_env DDDG.init (S3_start ++ [.header S3_phi])).getD DDDG.init

/-- Scenario S3: the operand of the Phi that comes from `bbA`. -/
def S3_taken : ParameterLine := ⟨64, int_value 2, 1, "a", "bbA"⟩

/-- Scenario S3: the operand of the Phi that comes from `bbB`. -/
def S3_not_taken : ParameterLine := ⟨64, int_value 1, 1, "b", "bbB"⟩

/-! ## Scopes of registers -/

/-- The string `"<name>-<count>"` with a static function name that contains no
`-`: the form of a dynamic function id. -/
def is_dynamic_id (x : String) : Prop :=
  ∃ (name : String) (count : Nat), '-' ∉ name.data ∧ x = name ++ "-" ++ Nat.repr count

/-- The dynamic function ids held by the builder have the form
`<name>-<count>`. -/
def ids_ok (s : DDDG) : Prop :=
  (s.curr_node ≠ none → is_dynamic_id s.curr_dynamic_function) ∧
  ∀ x ∈ s.active_method, is_dynamic_id x

/-- The predicate `P` holds of every record of the trace together with the
state in which the record is processed, the trace being processed from `s`. -/
def along (env : Env) (P : DDDG → Record → Bool) : DDDG → List Record → Bool
  | _, [] => true
  | s, r :: rs =>
    P s r &&
      match dispatch env s r with
      | some s1 => along env P s1 rs
      | none => true

/-- The record, processed in state `st`, obeys the premises of scope
disjointness for the register `r` of the dynamic function `G`: a header names
a function without `-`; a result record for `r` is not processed under `G`; a
forward record does not write the key `G-r`. -/
def defined_elsewhere (G r : String) (st : DDDG) : Record → Bool
  | .header hd => decide ('-' ∉ hd.curr_static_function.data)
  | .result x => decide (st.curr_dynamic_function = G → x.label ≠ r)
  | .forward f => decide (st.callee_dynamic_function ++ "-" ++ f.label ≠ G ++ "-" ++ r)
  | .parameter _ _ => true

/-- The record, processed in state `st`, is not a register operand `r` in the
pointer slot of a Store or the address slot of a Load of the dynamic function
`G`: such an operand is the one for which `parse_parameter` (lines 273-278)
synthesizes a definition when `r` has no last writer. -/
def no_self_definition (env : Env) (G r : String) (st : DDDG) : Record → Bool
  | .parameter k p =>
    decide (((st.curr_microop = some env.LLVM_IR_Store ∧ k = 2) ∨
        (st.curr_microop = some env.LLVM_IR_Load ∧ k = 1)) →
      p.is_reg ≠ 0 → st.curr_dynamic_function = G → p.label ≠ r)
  | _ => true

/-- A trace in which `r` is defined by a result record in `foo-0` only; the
recursive invocation `foo-1` loads through `r` and then uses `r` again. -/
def scope_trace : List Record :=
  [.header ⟨50, "foo", "bb0", "i1", 8, 0⟩,
   .result ⟨64, int_value 0x3000, 1, "r"⟩,
   .header ⟨51, "foo", "bb0", "i2", 49, 1⟩,
   .parameter 1 ⟨64, int_value 0, 1, "foo", ""⟩,
   .header ⟨52, "foo", "bb0", "i3", 27, 2⟩,
   .parameter 1 ⟨64, int_value 0x3000, 1, "r", ""⟩,
   .result ⟨32, int_value 5, 1, "x"⟩,
   .header ⟨53, "foo", "bb0", "i4", 8, 3⟩]

/-- A trace in which `r` is defined in `foo-0` and the recursive invocation
`foo-1` has just been entered. -/
def scope_entry_trace : List Record :=
  [.header ⟨50, "foo", "bb0", "i1", 8, 0⟩,
   .result ⟨64, int_value 0x3000, 1, "r"⟩,
   .header ⟨51, "foo", "bb0", "i2", 49, 1⟩,
   .parameter 1 ⟨64, int_value 0, 1, "foo", ""⟩,
   .header ⟨50, "foo", "bb0", "i1", 8, 2⟩]

/-- The use of `r` that follows `scope_trace`. -/
def scope_use : ParameterLine := ⟨64, int_value 0x3000, 1, "r", ""⟩

/-! ## Invariants of the reachable states -/

/-- The current node, once set, carries the id `num_of_instructions`, which
is then not negative; before the first header nothing is set. -/
def NodeOK (s : DDDG) : Prop :=
  -1 ≤ s.num_of_instructions ∧
  (s.curr_node = none → s.curr_microop = none) ∧
  (∀ node, s.curr_node = some node →
    0 ≤ s.num_of_instructions ∧ node.id = s.num_of_instructions)

/-- Register side: recorded writers are issued nodes and register edges lead
from an issued node to a node that is not older. -/
def RegOK (s : DDDG) : Prop :=
  (∀ k v, find k s.register_last_written = some v → 0 ≤ v ∧ v ≤ s.num_of_instructions) ∧
  (∀ v, s.last_call_source = some v → v = -1 ∨ (0 ≤ v ∧ v ≤ s.num_of_instructions)) ∧
  (∀ e ∈ s.register_edge_table,
    0 ≤ e.1 ∧ e.1 ≤ e.2.sink_node ∧ e.2.sink_node ≤ s.num_of_instructions)

/-- Memory side: recorded writers are issued nodes, memory edges lead from an
issued node to a node that is not older, carry `par_id = -1`, and no two of
them join the same pair of nodes. -/
def MemOK (s : DDDG) : Prop :=
  (∀ a v, find a s.address_last_written = some v → 0 ≤ v ∧ v ≤ s.num_of_instructions) ∧
  (∀ e ∈ s.memory_edge_table,
    0 ≤ e.1 ∧ e.1 ≤ e.2.sink_node ∧ e.2.sink_node ≤ s.num_of_instructions ∧
      e.2.par_id = -1) ∧
  (s.memory_edge_table.map fun e => (e.1, e.2.sink_node)).Nodup

/-- At most one entry of an edge multimap joins any given source and sink. -/
def no_duplicate_edges (t : multi_uint_to_node_info) : Prop :=
  ∀ src sink : Int, t.countP (fun e => decide (e.1 = src ∧ e.2.sink_node = sink)) ≤ 1

/-- The sink calls that annotate nodes and registries: every call except
`insertNode` and `addDddgEdge`. -/
def is_annotating : SinkCall → Bool
  | .insertNode _ _ => false
  | .addDddgEdge _ _ _ => false
  | _ => true

/-- The ids passed to `insertNode`, in the order of the calls. -/
def inserted_ids (calls : List SinkCall) : List Int :=
  calls.filterMap fun c =>
    match c with
    | .insertNode i _ => some i
    | _ => none

/-- The number of instruction headers of a trace. -/
def count_headers (t : List Record) : Nat :=
  t.countP fun r =>
    match r with
    | .header _ => true
    | _ => false

/-- The handler called on `s` yielding `s1` made only annotating sink calls. -/
def annotates (s s1 : DDDG) : Prop :=
  ∃ extra, s1.calls = s.calls ++ extra ∧ ∀ c ∈ extra, is_annotating c = true

/-- The invariant maintained by every handler. -/
def Inv (s : DDDG) : Prop := NodeOK s ∧ RegOK s ∧ MemOK s

/-- The micro-ops, as the `uint8_t` member `curr_microop` holds them, of the
nodes that record themselves in `address_last_written`: a Store (lines
296-307) and, outside ready mode, a DMALoad (lines 371-391). -/
def is_writer (env : Env) (m : Int) : Prop :=
  m % 256 = env.LLVM_IR_Store ∨ (env.isReadyMode = false ∧ m % 256 = env.LLVM_IR_DMALoad)

/-- The datapath knows the nodes the builder refers to: inserted ids do not
exceed `num_of_instructions`, the current node is the one inserted under that
id and `curr_microop` is its micro-op as a byte, and every recorded last
writer of an address and every source of a memory edge is an inserted node
that is a writer. -/
def Registry (env : Env) (s : DDDG) : Prop :=
  (∀ i ∈ inserted_ids s.calls, i ≤ s.num_of_instructions) ∧
  (∀ node, s.curr_node = some node →
    getNodeFromNodeId s.calls s.num_of_instructions = some node ∧
      s.curr_microop = some (node.microop % 256)) ∧
  (∀ a v, find a s.address_last_written = some v →
    ∃ node, getNodeFromNodeId s.calls v = some node ∧ is_writer env node.microop) ∧
  (∀ e ∈ s.memory_edge_table,
    ∃ node, getNodeFromNodeId s.calls e.1 = some node ∧ is_writer env node.microop)

/-! ## Scenarios: stores, returns and DMA transfers -/

/-- Two Stores to `0x2000`, the second one issued with its parameters still to
come. -/
def S7_trace : List Record :=
  [.header S2_store, .parameter 2 S2_store_pointer, .parameter 1 S2_store_value,
   .header ⟨12, "f", "bb0", "i3", 28, 2⟩]

/-- The state after `S7_trace`. -/
def S7_state : DDDG := (run sample_env DDDG.init S7_trace).getD DDDG.init

/-- A parameter that names the register `q`, which nothing has defined. -/
def S7_pointer : ParameterLine := ⟨64, int_value 0x2000, 1, "q", ""⟩

/-- A Ret as the first header of the recursive invocation of `foo` in
scenario S6. -/
def S8_entry : InstructionLine := ⟨30, "foo", "bb0", "i1", 1, 2⟩

/-- Function `A` runs one instruction and calls `B`, `B` runs the headers
`callee`, and `A` runs one more instruction. -/
def S9_trace (callee : List Record) : List Record :=
  [.header ⟨1, "A", "bb0", "i1", 8, 0⟩,
   .header ⟨2, "A", "bb0", "i2", 49, 1⟩,
   .parameter 1 ⟨64, int_value 0, 0, "B", ""⟩] ++ callee ++
  [.header ⟨3, "A", "bb0", "i3", 8, 9⟩]

/-- A callee `B` whose body is a single Ret. -/
def S9_single : List Record := [.header ⟨7, "B", "bb0", "i1", 1, 2⟩]

/-- A callee `B` that runs one instruction and returns. -/
def S9_pair : List Record :=
  [.header ⟨7, "B", "bb0", "i1", 8, 2⟩, .header ⟨8, "B", "bb0", "i2", 1, 3⟩]

/-- Scenario S5, first part: a DMALoad (node 0) whose accumulated parameters
`[1]`, `[2]`, `[3]` are the base `0x1000`, the offset 0 and the size 16, with
its result record. -/
def S5_dma_load : List Record :=
  [.header ⟨20, "f", "bb0", "i1", 99, 0⟩,
   .parameter 4 ⟨64, int_value 0, 0, "dmaLoad", ""⟩,
   .parameter 3 ⟨64, int_value 0x1000, 0, "buf", ""⟩,
   .parameter 2 ⟨64, int_value 0, 0, "off", ""⟩,
   .parameter 1 ⟨64, int_value 16, 0, "len", ""⟩,
   .result ⟨32, int_value 0, 1, "t1"⟩]

/-- The state after the DMALoad. -/
def S5_loaded : DDDG := (run sample_env DDDG.init S5_dma_load).getD DDDG.init

/-- Scenario S5: the state in which the result record of the DMALoad
arrives. -/
def S5_issued : DDDG := (run sample_env DDDG.init S5_dma_load.dropLast).getD DDDG.init

/-- Scenario S5: the result record of the DMALoad. -/
def S5_dma_result : ResultLine := ⟨32, int_value 0, 1, "t1"⟩

/-- Scenario S5: the Load at `0x1004` that follows the DMALoad. -/
def S5_load : InstructionLine := ⟨22, "f", "bb0", "i2", 27, 1⟩

/-- Scenario S5: the address parameter of the Load. -/
def S5_load_address : ParameterLine := ⟨64, int_value 0x1004, 0, "p", ""⟩

/-- Scenario S5: the state in which the address parameter of the Load
arrives. -/
def S5_loading : DDDG := (run sample_env S5_loaded [.header S5_load]).getD DDDG.init

/-- Scenario S5 with an ordinary Store after the DMALoad. -/
def S5_store : InstructionLine := ⟨22, "f", "bb0", "i2", 28, 1⟩

/-- The sample environment in ready mode. -/
def ready_env : Env := { sample_env with isReadyMode := true }

/-- Scenario S5: the header of the DMALoad. -/
def S5_dma_header : InstructionLine := ⟨20, "f", "bb0", "i1", 99, 0⟩

/-- The state in which the pointer parameter of the Store arrives, in the
environment `env`. -/
def S5_stored (env : Env) : DDDG :=
  (run env DDDG.init (.header S5_dma_header :: S5_dma_load.tail ++ [.header S5_store])).getD
    DDDG.init

/-! ## Reading the trace line by line -/

/-- The conversions of the C library (`sscanf`, `strtod`) that the handlers
apply to the text of a line after its tag, taken as given: the fields read
from an instruction header (lines 140-147, 437-444, 454-461), from a parameter
line (lines 227-234), from a result line (line 339), from a forward line (line
410) and from a line of the label map (line 124), this last one as
`(line_number, function, label_name)`. -/
structure Scanner where
  scan_instruction : String → InstructionLine
  scan_parameter : String → ParameterLine
  scan_result : String → ResultLine
  scan_forward : String → ForwardLine
  scan_labelmap : String → Int × String × String

/-- The C function `atoi` on a character sequence: white space, an optional
sign, and the value of the decimal digits that follow (0 when there are
none).  Values are assumed to fit an `int`. -/
def atoi_chars (cs : List Char) : Int :=
  let cs := cs.dropWhile isspace
  let neg := cs.head? = some '-'
  let cs := if cs.head? = some '-' ∨ cs.head? = some '+' then cs.tail else cs
  let v : Int := (digits_value (cs.takeWhile Char.isDigit) : Nat)
  if neg then -v else v

/-- The call `atoi(tag.c_str())` of line 524. -/
def atoi (tag : String) : Int := atoi_chars tag.data

/-- The test `wholeline.find(text) != std::string::npos`. -/
def contains_text (wholeline text : String) : Bool :=
  wholeline.data.tails.any fun t => text.data.isPrefixOf t

/-- The marker that opens the label map (line 492). -/
def LABEL_MAP_START : String := "%%%% LABEL MAP START %%%%"

/-- The marker that closes the label map (line 497). -/
def LABEL_MAP_END : String := "%%%% LABEL MAP END %%%%"

/-- The tag of a line: the text before its first comma (line 512). -/
def tag_of (wholeline : String) : String :=
  String.mk (wholeline.data.takeWhile fun c => c != ',')

/-- The rest of a line: the text after its first comma (line 513). -/
def line_left_of (wholeline : String) : String :=
  String.mk (wholeline.data.dropWhile fun c => c != ',').tail

/-- The method `parse_labelmap_line` (lines 121-129); `labelmap` lists the
pairs passed to `labelmap.insert` in the order of the calls. -/
def parse_labelmap_line (sc : Scanner) (line : String) (s : DDDG) : DDDG :=
  { s with labelmap := s.labelmap ++ [sc.scan_labelmap line] }

/-- The method `parse_function_name` (lines 431-446). -/
def parse_function_name (sc : Scanner) (line : String) : String :=
  (sc.scan_instruction line).curr_static_function

/-- The method `is_function_returned` (lines 448-466). -/
def is_function_returned (env : Env) (sc : Scanner) (line target_function : String) : Bool :=
  decide ((sc.scan_instruction line).microop = env.LLVM_IR_Ret ∧
    target_function = (sc.scan_instruction line).curr_static_function)

/-- The record that a line with tag `tag` stands for (lines 514-525). -/
def classify (sc : Scanner) (tag line_left : String) : Record :=
  if tag = "0" then .header (sc.scan_instruction line_left)
  else if tag = "r" then .result (sc.scan_result line_left)
  else if tag = "f" then .forward (sc.scan_forward line_left)
  else .parameter (atoi tag) (sc.scan_parameter line_left)

/-- The builder together with the local variables of `build_initial_dddg`
(lines 475-479). -/
structure BuildState where
  dddg : DDDG
  first_function : String
  seen_first_line : Bool
  first_function_returned : Bool
  in_labelmap_section : Bool
  labelmap_parsed_or_not_present : Bool
  deriving DecidableEq, Repr

/-- The local variables as `build_initial_dddg` declares them, around the
builder `s`. -/
def BuildState.start (s : DDDG) : BuildState :=
  ⟨s, "", false, false, false, false⟩

/-- Lines 488-503 of `build_initial_dddg`: the scan for the label map.  The
second component tells whether the line ends here (`continue`). -/
def labelmap_scan (sc : Scanner) (b : BuildState) (wholeline : String) : BuildState × Bool :=
  if !b.labelmap_parsed_or_not_present then
    if !b.in_labelmap_section then
      if contains_text wholeline LABEL_MAP_START then
        ({ b with in_labelmap_section := true }, true)
      else (b, false)
    else
      if contains_text wholeline LABEL_MAP_END then
        ({ b with labelmap_parsed_or_not_present := true, in_labelmap_section := false }, true)
      else ({ b with dddg := parse_labelmap_line sc wholeline b.dddg }, false)
  else (b, false)

/-- The body of the loop of `build_initial_dddg` (lines 481-527) for one line
that `gzgets` has read.  The second component tells whether the loop is left
(`break`). -/
def build_line (env : Env) (sc : Scanner) (b : BuildState) (wholeline : String) :
    Option (BuildState × Bool) :=
  let scanned := labelmap_scan sc b wholeline
  if scanned.2 then some (scanned.1, false)
  else
    let b := scanned.1
    if ',' ∉ wholeline.data then
      if b.first_function_returned then some (b, true) else some (b, false)
    else
      let b := { b with labelmap_parsed_or_not_present := true }
      let tag := tag_of wholeline
      let line_left := line_left_of wholeline
      let b :=
        if tag = "0" then
          let b :=
            if !b.seen_first_line then
              { b with seen_first_line := true
                       first_function := parse_function_name sc line_left }
            else b
          { b with
            first_function_returned := is_function_returned env sc line_left b.first_function }
        else b
      (dispatch env b.dddg (classify sc tag line_left)).map fun d =>
        ({ b with dddg := d }, false)

/-- The loop of `build_initial_dddg` over the lines of the trace. -/
def build_loop (env : Env) (sc : Scanner) : BuildState → List String → Option BuildState
  | b, [] => some b
  | b, wholeline :: trace =>
    match build_line env sc b wholeline with
    | none => none
    | some (b1, true) => some b1
    | some (b1, false) => build_loop env sc b1 trace

/-- The method `build_initial_dddg` (lines 468-540) called on the builder `s`,
the trace being the list of the lines that `gzgets` reads. -/
def build_initial_dddg (env : Env) (sc : Scanner) (s : DDDG) (trace : List String) :
    Option DDDG :=
  (build_loop env sc (BuildState.start s) trace).map fun b => output_dddg b.dddg

/-- The fields of a line that commas separate. -/
def split_commas : List Char → List (List Char)
  | [] => [[]]
  | c :: cs =>
    if c = ',' then [] :: split_commas cs
    else
      match split_commas cs with
      | f :: fs => (c :: f) :: fs
      | [] => [[c]]

/-- The numeric field `char_value` with a non-negative decimal text: whether
it contains a `.`, and its integer part; the bit patterns are left at 0. -/
def scan_value (text : List Char) : TraceValue :=
  ⟨decide ('.' ∈ text), digits_value (text.takeWhile Char.isDigit), 0, 0⟩

/-- A sample scanner for lines whose fields are separated by commas, with
integers in decimal.  It is used to evaluate the builder on concrete traces. -/
def sample_scanner : Scanner where
  scan_instruction := fun l =>
    let fs := split_commas l.data
    ⟨atoi_chars (fs.getD 0 []), String.mk (fs.getD 1 []), String.mk (fs.getD 2 []),
      String.mk (fs.getD 3 []), atoi_chars (fs.getD 4 []), atoi_chars (fs.getD 5 [])⟩
  scan_parameter := fun l =>
    let fs := split_commas l.data
    ⟨atoi_chars (fs.getD 0 []), scan_value (fs.getD 1 []), atoi_chars (fs.getD 2 []),
      String.mk (fs.getD 3 []), String.mk (fs.getD 4 [])⟩
  scan_result := fun l =>
    let fs := split_commas l.data
    ⟨atoi_chars (fs.getD 0 []), scan_value (fs.getD 1 []), atoi_chars (fs.getD 2 []),
      String.mk (fs.getD 3 [])⟩
  scan_forward := fun l =>
    let fs := split_commas l.data
    ⟨atoi_chars (fs.getD 0 []), scan_value (fs.getD 1 []), atoi_chars (fs.getD 2 []),
      String.mk (fs.getD 3 [])⟩
  scan_labelmap := fun l =>
    let function := l.data.takeWhile fun c => c != '/'
    let rest := (l.data.dropWhile fun c => c != '/').tail
    let label_name := rest.takeWhile fun c => !isspace c
    (atoi_chars (rest.dropWhile fun c => !isspace c), String.mk function,
      String.mk label_name)

/-- The lines of a trace after the first line that contains the START marker,
up to the next line that contains the END marker. -/
def label_map_section (trace : List String) : List String :=
  ((trace.dropWhile fun l => !contains_text l LABEL_MAP_START).drop 1).takeWhile
    fun l => !contains_text l LABEL_MAP_END

/-- A trace that holds a label map and nothing else. -/
def S10_labelmap : List String :=
  ["%%%% LABEL MAP START %%%%\n", "kernel/loop 12\n", "kernel/exit 20\n",
   "%%%% LABEL MAP END %%%%\n"]

/-- Two headers of `f`, the second one a Ret, followed at once by a header of
`g`. -/
def S10_headers : List String :=
  ["0,1,f,bb0,i1,8,0\n", "0,2,f,bb0,i2,1,1\n", "0,3,g,bb0,i3,8,2\n"]

/-- A Ret of `f` as the first header, its operand, an empty line and a header
of `g`. -/
def S10_return : List String :=
  ["0,2,f,bb0,i2,1,0\n", "1,32,0,0,v,\n", "\n", "0,3,g,bb0,i3,8,1\n"]

/-! ## Operand slots -/

/-- What a record latches as the operand count of the current instruction
when it is processed in state `s`: a parameter record that passes the Phi
filter and is the first of its instruction latches its tag (lines 241-243). -/
def latch_of (env : Env) (s : DDDG) : Record → List (Int × Int)
  | .parameter k p =>
    if is_filtered env s (.parameter k p) = false ∧ s.last_parameter = false then
      [(s.num_of_instructions, k)]
    else []
  | _ => []

/-- The operand counts latched along a trace processed from `s`, as pairs of
a node id and the value given to `num_of_parameters` for that node. -/
def latched_counts (env : Env) : DDDG → List Record → List (Int × Int)
  | _, [] => []
  | s, r :: rs =>
    match dispatch env s r with
    | none => []
    | some s1 => latch_of env s r ++ latched_counts env s1 rs

/-- The record, processed in state `st`, has a well-formed tag: a parameter
record that passes the Phi filter has a positive tag which, unless the record
is the first of its instruction, does not exceed the latched operand count. -/
def tags_descend (env : Env) (st : DDDG) : Record → Bool
  | .parameter k p =>
    is_filtered env st (.parameter k p) ||
      (decide (0 < k) &&
        (!st.last_parameter ||
          match st.num_of_parameters with
          | some m => decide (k ≤ m)
          | none => false))
  | _ => true

/-- Every register edge has a positive `par_id` that does not exceed the
operand count latched for its sink in `L`, and `L` agrees with the members
`last_parameter` and `num_of_parameters` on the current instruction. -/
def SlotsOK (s : DDDG) (L : List (Int × Int)) : Prop :=
  (∀ e ∈ s.register_edge_table,
    0 < e.2.par_id ∧ ∃ m, find e.2.sink_node L = some m ∧ e.2.par_id ≤ m) ∧
  (∀ x ∈ L, x.1 ≤ s.num_of_instructions) ∧
  (s.last_parameter = true →
    ∃ m, s.num_of_parameters = some m ∧ find s.num_of_instructions L = some m) ∧
  (s.last_parameter = false → find s.num_of_instructions L = none)

/-- An instruction defines `x`; the next one uses it as operands 2 and 1. -/
def S11_trace : List Record :=
  [.header ⟨1, "f", "bb0", "i1", 8, 0⟩,
   .result ⟨32, int_value 7, 1, "x"⟩,
   .header ⟨2, "f", "bb0", "i2", 8, 1⟩,
   .parameter 2 ⟨32, int_value 7, 1, "x", ""⟩,
   .parameter 1 ⟨32, int_value 7, 1, "x", ""⟩]

/-- The same two instructions as lines of a trace file, the operands of the
second one carrying the tags `1`, `2` and `x`. -/
def S11_lines : List String :=
  ["0,1,f,bb0,i1,8,0\n", "r,32,7,1,x,\n", "0,2,f,bb0,i2,8,1\n", "1,32,7,1,x,\n",
   "2,32,7,1,x,\n", "x,32,7,1,x,\n"]

/-! ## Callee ids -/

/-- Every function found on the stack has an invocation counter: the name that
`sscanf` reads from an entry of `active_method` is a key of
`function_counter`. -/
def CountersOK (s : DDDG) : Prop :=
  ∀ x ∈ s.active_method, ∀ name pc, sscanf_top x = (some name, pc) →
    find name s.function_counter ≠ none

/-! ## Strictly forward memory edges -/

/-- The DMA predicates of a node follow its micro-op: `is_dma_load` holds only
of a node whose micro-op is DMALoad, and `is_dma_op` does not hold of a node
whose micro-op is Store (in the datapath `is_dma_load` tests for DMALoad and
`is_dma_op` for DMALoad or DMAStore).  Micro-ops are compared as bytes, the way
`curr_microop` holds them. -/
def Env.dma_by_microop (env : Env) : Prop :=
  (∀ m, env.is_dma_load m = true → m % 256 = env.LLVM_IR_DMALoad) ∧
  (∀ m, env.is_dma_op m = true → m % 256 ≠ env.LLVM_IR_Store)

/-- The three places that call `handle_post_write_dependency` for an address
whose last writer is `w`, as conditions on the state `s` in which the record
is processed: the tag-1 parameter of a Load (line 288), the tag-2 parameter of
a Store when `w` is a DMA load (lines 302-303), and the result of a DMA node
that is not a DMALoad (lines 395-399). -/
def reads_writer (env : Env) (s : DDDG) (w : Int) : Prop :=
  s.curr_microop = some env.LLVM_IR_Load ∨
  (s.curr_microop = some env.LLVM_IR_Store ∧
    ∃ writer, getNodeFromNodeId s.calls w = some writer ∧
      env.is_dma_load writer.microop = true) ∨
  (∃ node, s.curr_node = some node ∧ env.is_dma_op node.microop = true ∧
    s.curr_microop ≠ some env.LLVM_IR_DMALoad)

/-- Memory edges lead strictly forward, and the current node is a recorded
last writer only when it is a Store or a DMALoad. -/
def StrictOK (env : Env) (s : DDDG) : Prop :=
  (∀ e ∈ s.memory_edge_table, e.1 < e.2.sink_node) ∧
  (∀ a, find a s.address_last_written = some s.num_of_instructions →
    s.curr_microop = some env.LLVM_IR_Store ∨ s.curr_microop = some env.LLVM_IR_DMALoad)

/-- Scenario S5 with the Load at `0x1004` and its address parameter. -/
def S5_trace : List Record :=
  S5_dma_load ++ [.header S5_load, .parameter 1 S5_load_address]

/-! ## Writes to an address -/

/-- The record, processed in state `st`, makes the current node the last
writer of the address `a`: it is the tag-2 parameter of a Store whose
`parameter_value_per_inst[0]` is `a` (lines 295-307), or the result of a DMA
node whose micro-op is DMALoad, outside ready mode, whose byte range contains
`a` (lines 371-390). -/
def writes_address (env : Env) (a : Addr) (st : DDDG) : Record → Bool
  | .parameter k p =>
    decide (k = 2 ∧ st.curr_microop = some env.LLVM_IR_Store ∧
      (st.parameter_value_per_inst ++ [p.value.as_addr &&& env.ADDR_MASK]).head? = some a)
  | .result _ =>
    decide (st.curr_microop = some env.LLVM_IR_DMALoad ∧ env.isReadyMode = false) &&
      (match st.curr_node with
        | some node => env.is_dma_op node.microop
        | none => false) &&
      (match st.parameter_value_per_inst with
        | _ :: base :: v2 :: v3 :: _ =>
          decide (a ∈ dma_range base (v2 % 2 ^ 32) (v3 % 2 ^ 32))
        | _ => false)
  | _ => false

/-- The record, processed in state `st`, is no Store and no DMALoad that
writes the address `a`. -/
def no_write (env : Env) (a : Addr) (st : DDDG) (r : Record) : Bool :=
  !writes_address env a st r

/-- Scenario S2: the state after the pointer operand of the Store. -/
def S2_stored : DDDG :=
  (run sample_env DDDG.init [.header S2_store, .parameter 2 S2_store_pointer]).getD DDDG.init

/-- Scenario S5 continued: an ordinary Store to `0x3000`, an address outside
the bytes of the DMALoad, between the DMALoad and the Load. -/
def S5_other_store : List Record :=
  [.header ⟨21, "f", "bb0", "i3", 28, 1⟩,
   .parameter 2 ⟨64, int_value 0x3000, 1, "q", ""⟩,
   .parameter 1 ⟨32, int_value 7, 0, "v", ""⟩]

/-- Scenario S5 continued: the state in which the address parameter of the
Load arrives, the Store to `0x3000` lying between the DMALoad and the Load. -/
def S5_loading_later : DDDG :=
  (run sample_env S5_loaded (S5_other_store ++ [.header S5_load])).getD DDDG.init

/-- Scenario S5: the state in which the result record of the DMALoad arrives,
in the environment `env`. -/
def S5_issued_in (env : Env) : DDDG :=
  (run env DDDG.init S5_dma_load.dropLast).getD DDDG.init

/-- Scenario S5: the state after the DMALoad, in the environment `env`. -/
def S5_loaded_in (env : Env) : DDDG := (run env DDDG.init S5_dma_load).getD DDDG.init

/-! ## Lemmas on the containers -/

theorem find_assign_self {κ ν : Type} [DecidableEq κ] (k : κ) (v : ν) (m : List (κ × ν))
    (h : find k m ≠ none) : find k (assign k v m) = some v := by
  induction m with
  | nil => simp [find] at h
  | cons a m ih =>
    obtain ⟨k', v'⟩ := a
    by_cases hk : k' = k
    · simp [assign, find, hk]
    · simp [find, hk] at h
      simp [assign, find, hk, ih h]

theorem find_assign_other {κ ν : Type} [DecidableEq κ] (k k2 : κ) (v : ν)
    (m : List (κ × ν)) (h : k2 ≠ k) : find k2 (assign k v m) = find k2 m := by
  induction m with
  | nil => simp [assign]
  | cons a m ih =>
    obtain ⟨k', v'⟩ := a
    by_cases hk : k' = k
    · subst hk
      have : ¬ k' = k2 := fun e => h e.symm
      simp [assign, find, this]
    · by_cases hk2 : k' = k2
      · subst hk2
        simp [assign, find, hk]
      · simp [assign, find, hk, hk2, ih]

theorem find_append {κ ν : Type} [DecidableEq κ] (k : κ) (m m2 : List (κ × ν)) :
    find k (m ++ m2) = (find k m).orElse fun _ => find k m2 := by
  induction m with
  | nil => simp [find]
  | cons a m ih =>
    obtain ⟨k', v'⟩ := a
    by_cases hk : k' = k
    · simp [find, hk]
    · simp [find, hk, ih]

theorem find_upsert_self {κ ν : Type} [DecidableEq κ] (k : κ) (v : ν) (m : List (κ × ν)) :
    find k (upsert k v m) = some v := by
  unfold upsert
  cases h : find k m with
  | none => simp [find_append, h, find]
  | some x => simp [find_assign_self k v m (by simp [h])]

theorem find_upsert_other {κ ν : Type} [DecidableEq κ] (k k2 : κ) (v : ν)
    (m : List (κ × ν)) (h : k2 ≠ k) : find k2 (upsert k v m) = find k2 m := by
  unfold upsert
  have hk : ¬ k = k2 := fun e => h e.symm
  cases hf : find k m with
  | none =>
    cases h2 : find k2 m <;> simp [find_append, h2, find, hk]
  | some x => simp [find_assign_other k k2 v m h]

/-- Every value stored by `assign` is the new value or an old one. -/
theorem find_assign_cases {κ ν : Type} [DecidableEq κ] (k k2 : κ) (v x : ν)
    (m : List (κ × ν)) (h : find k2 (assign k v m) = some x) :
    x = v ∨ find k2 m = some x := by
  by_cases hk : k2 = k
  · subst hk
    by_cases hn : find k2 m = none
    · right
      have : assign k2 v m = m := by
        clear h
        induction m with
        | nil => rfl
        | cons a m ih =>
          obtain ⟨k', v'⟩ := a
          by_cases hk : k' = k2
          · simp [find, hk] at hn
          · simp [find, hk] at hn
            simp [assign, hk, ih hn]
      rw [this] at h
      exact h
    · left
      rw [find_assign_self k2 v m hn] at h
      exact (Option.some.inj h).symm
  · right
    rw [find_assign_other k k2 v m hk] at h
    exact h

theorem find_upsert_cases {κ ν : Type} [DecidableEq κ] (k k2 : κ) (v x : ν)
    (m : List (κ × ν)) (h : find k2 (upsert k v m) = some x) :
    x = v ∨ find k2 m = some x := by
  by_cases hk : k2 = k
  · subst hk
    rw [find_upsert_self] at h
    exact Or.inl (Option.some.inj h).symm
  · rw [find_upsert_other k k2 v m hk] at h
    exact Or.inr h

/-! ## Frame lemmas: which members a handler can write -/

theorem handle_post_write_dependency_frame (addr : Addr) (s : DDDG) :
    ∃ t n, handle_post_write_dependency addr s =
      { s with memory_edge_table := t, num_of_mem_dep := n } := by
  unfold handle_post_write_dependency
  cases find addr s.address_last_written with
  | none => exact ⟨_, _, rfl⟩
  | some w =>
    simp only
    split_ifs
    · exact ⟨_, _, rfl⟩
    · exact ⟨_, _, rfl⟩

theorem parse_parameter_mem_body_frame (env : Env) (k : Int) (p : ParameterLine)
    (s s1 : DDDG) (h : parse_parameter_mem_body env k p s = some s1) :
    ∃ c pv ps pl t n a, s1 =
      { s with calls := c, parameter_value_per_inst := pv, parameter_size_per_inst := ps,
               parameter_label_per_inst := pl, memory_edge_table := t,
               num_of_mem_dep := n, address_last_written := a } := by
  unfold parse_parameter_mem_body at h
  simp only at h
  split_ifs at h
  · split at h
    · rename_i mem_address base_label node _ _ _
      obtain ⟨t, n, ht⟩ := handle_post_write_dependency_frame mem_address
        { s with
          parameter_value_per_inst :=
            s.parameter_value_per_inst ++ [p.value.as_addr &&& env.ADDR_MASK]
          parameter_size_per_inst :=
            s.parameter_size_per_inst ++ [(p.size % 2 ^ 32).toNat]
          parameter_label_per_inst := s.parameter_label_per_inst ++ [p.label] }
      rw [ht] at h
      simp only [Option.some.injEq] at h
      exact ⟨_, _, _, _, _, _, _, h.symm⟩
    · exact absurd h (by simp)
  · split at h
    · rename_i mem_address base_label node _ _ _
      split at h
      · split at h
        · simp at h
        · rename_i writer _
          obtain ⟨t, n, ht⟩ := handle_post_write_dependency_frame mem_address
            { s with
              parameter_value_per_inst :=
                s.parameter_value_per_inst ++ [p.value.as_addr &&& env.ADDR_MASK]
              parameter_size_per_inst :=
                s.parameter_size_per_inst ++ [(p.size % 2 ^ 32).toNat]
              parameter_label_per_inst := s.parameter_label_per_inst ++ [p.label] }
          split_ifs at h
          · rw [ht] at h
            simp only [Option.map_some', Option.some.injEq] at h
            exact ⟨_, _, _, _, _, _, _, h.symm⟩
          · simp only [Option.map_some', Option.some.injEq] at h
            exact ⟨_, _, _, _, _, _, _, h.symm⟩
      · simp only [Option.map_some', Option.some.injEq] at h
        exact ⟨_, _, _, _, _, _, _, h.symm⟩
    · exact absurd h (by simp)
  · split at h
    · split at h
      · simp at h
      · simp only [Option.some.injEq] at h
        exact ⟨_, _, _, _, _, _, _, h.symm⟩
    · exact absurd h (by simp)
  · split at h
    · simp only [Option.some.injEq] at h
      exact ⟨_, _, _, _, _, _, _, h.symm⟩
    · exact absurd h (by simp)
  · split at h
    · split_ifs at h
      · simp only [Option.some.injEq] at h
        exact ⟨_, _, _, _, _, _, _, h.symm⟩
      · simp only [Option.some.injEq] at h
        exact ⟨_, _, _, _, _, _, _, h.symm⟩
    · exact absurd h (by simp)
  · simp only [Option.some.injEq] at h
    exact ⟨_, _, _, _, _, _, _, h.symm⟩

theorem parse_parameter_mem_frame (env : Env) (k : Int) (p : ParameterLine)
    (s s1 : DDDG) (h : parse_parameter_mem env k p s = some s1) :
    ∃ c pv ps pl t n a, s1 =
      { s with calls := c, parameter_value_per_inst := pv, parameter_size_per_inst := ps,
               parameter_label_per_inst := pl, memory_edge_table := t,
               num_of_mem_dep := n, address_last_written := a } := by
  unfold parse_parameter_mem at h
  split_ifs at h
  · exact parse_parameter_mem_body_frame env k p s s1 h
  · split at h
    · simp at h
    · split_ifs at h
      · exact parse_parameter_mem_body_frame env k p s s1 h
      · simp only [Option.some.injEq] at h
        exact ⟨_, _, _, _, _, _, _, h.symm⟩

theorem parse_parameter_latch_frame (env : Env) (k : Int) (p : ParameterLine) (s : DDDG) :
    ∃ np cf cdf, parse_parameter_latch env k p s =
      { s with num_of_parameters := np, callee_function := cf,
               callee_dynamic_function := cdf, last_parameter := true,
               last_call_source := some (-1) } := by
  unfold parse_parameter_latch
  by_cases h : s.last_parameter = true
  · rw [if_pos h]
    exact ⟨s.num_of_parameters, s.callee_function, s.callee_dynamic_function, rfl⟩
  · rw [if_neg h]
    exact ⟨_, _, _, rfl⟩

theorem parse_parameter_reg_frame (env : Env) (k : Int) (p : ParameterLine) (s : DDDG) :
    ∃ u t n l w, parse_parameter_reg env k p s =
      { s with unique_reg_in_caller_func := u, register_edge_table := t,
               num_of_reg_dep := n, last_call_source := l,
               register_last_written := w } := by
  unfold parse_parameter_reg
  by_cases hreg : p.is_reg = 0
  · rw [if_pos hreg]
    exact ⟨s.unique_reg_in_caller_func, s.register_edge_table, s.num_of_reg_dep,
      s.last_call_source, s.register_last_written, rfl⟩
  · rw [if_neg hreg]
    dsimp only
    by_cases hc : s.curr_microop = some env.LLVM_IR_Call
    · simp only [hc, if_true]
      cases find (s.curr_dynamic_function ++ "-" ++ p.label) s.register_last_written with
      | some w => exact ⟨_, _, _, _, s.register_last_written, rfl⟩
      | none =>
        dsimp only
        split_ifs
        · exact ⟨_, s.register_edge_table, s.num_of_reg_dep, s.last_call_source, _, rfl⟩
        · exact ⟨_, s.register_edge_table, s.num_of_reg_dep, s.last_call_source,
            s.register_last_written, rfl⟩
    · simp only [hc, if_false]
      cases find (s.curr_dynamic_function ++ "-" ++ p.label) s.register_last_written with
      | some w => exact ⟨s.unique_reg_in_caller_func, _, _, _, s.register_last_written, rfl⟩
      | none =>
        dsimp only
        split_ifs
        · exact ⟨s.unique_reg_in_caller_func, s.register_edge_table, s.num_of_reg_dep,
            s.last_call_source, _, rfl⟩
        · exact ⟨s.unique_reg_in_caller_func, s.register_edge_table, s.num_of_reg_dep,
            s.last_call_source, s.register_last_written, rfl⟩

/-- The register part emits the edge from the last writer of the scoped
register. -/
theorem parse_parameter_reg_found (env : Env) (k : Int) (p : ParameterLine) (s : DDDG)
    (w : Int) (hreg : p.is_reg ≠ 0)
    (hw : find (s.curr_dynamic_function ++ "-" ++ p.label) s.register_last_written = some w) :
    parse_parameter_reg env k p s =
      { s with
        unique_reg_in_caller_func :=
          if s.curr_microop = some env.LLVM_IR_Call then
            s.curr_dynamic_function ++ "-" ++ p.label
          else s.unique_reg_in_caller_func
        register_edge_table := s.register_edge_table ++ [(w, ⟨s.num_of_instructions, k⟩)]
        num_of_reg_dep := s.num_of_reg_dep + 1
        last_call_source :=
          if s.curr_microop = some env.LLVM_IR_Call then some w else s.last_call_source } := by
  unfold parse_parameter_reg
  rw [if_neg hreg]
  by_cases hc : s.curr_microop = some env.LLVM_IR_Call
  · simp [hc, hw]
  · simp [hc, hw]

/-- Without a last writer no edge is emitted; a Store pointer or a Load
address becomes its own definition. -/
theorem parse_parameter_reg_missing (env : Env) (k : Int) (p : ParameterLine) (s : DDDG)
    (hreg : p.is_reg ≠ 0)
    (hw : find (s.curr_dynamic_function ++ "-" ++ p.label) s.register_last_written = none) :
    parse_parameter_reg env k p s =
      { s with
        unique_reg_in_caller_func :=
          if s.curr_microop = some env.LLVM_IR_Call then
            s.curr_dynamic_function ++ "-" ++ p.label
          else s.unique_reg_in_caller_func
        register_last_written :=
          if (s.curr_microop = some env.LLVM_IR_Store ∧ k = 2) ∨
              (s.curr_microop = some env.LLVM_IR_Load ∧ k = 1) then
            upsert (s.curr_dynamic_function ++ "-" ++ p.label) s.num_of_instructions
              s.register_last_written
          else s.register_last_written } := by
  unfold parse_parameter_reg
  rw [if_neg hreg]
  by_cases hc : s.curr_microop = some env.LLVM_IR_Call
  · by_cases hd : (s.curr_microop = some env.LLVM_IR_Store ∧ k = 2) ∨
        (s.curr_microop = some env.LLVM_IR_Load ∧ k = 1)
    · simp only [if_pos hc, hw, if_pos hd]
    · simp only [if_pos hc, hw, if_neg hd]
  · by_cases hd : (s.curr_microop = some env.LLVM_IR_Store ∧ k = 2) ∨
        (s.curr_microop = some env.LLVM_IR_Load ∧ k = 1)
    · simp only [if_neg hc, hw, if_pos hd]
    · simp only [if_neg hc, hw, if_neg hd]

theorem getLast?_snoc {α : Type} (l : List α) (a : α) : (l ++ [a]).getLast? = some a := by
  simp [List.getLast?_append]

theorem parse_parameter_mem_body_returns (env : Env) (k : Int) (p : ParameterLine)
    (s : DDDG) (node : Node) (hn : s.curr_node = some node)
    (hs : s.curr_microop ≠ some env.LLVM_IR_Store) :
    ∃ s1, parse_parameter_mem_body env k p s = some s1 := by
  unfold parse_parameter_mem_body
  simp only [hn, hs, and_false, if_false, getLast?_snoc]
  split_ifs <;> exact ⟨_, rfl⟩

theorem parse_parameter_mem_returns (env : Env) (k : Int) (p : ParameterLine)
    (s : DDDG) (node : Node) (hn : s.curr_node = some node)
    (hs : s.curr_microop ≠ some env.LLVM_IR_Store) :
    ∃ s1, parse_parameter_mem env k p s = some s1 := by
  unfold parse_parameter_mem
  simp only [hn]
  split_ifs
  · exact parse_parameter_mem_body_returns env k p s node hn hs
  · exact parse_parameter_mem_body_returns env k p s node hn hs
  · exact ⟨_, rfl⟩

/-- A parameter of a node that is not a Store is always processed. -/
theorem parse_parameter_returns (env : Env) (k : Int) (p : ParameterLine)
    (s : DDDG) (node : Node) (hn : s.curr_node = some node)
    (hs : s.curr_microop ≠ some env.LLVM_IR_Store) :
    ∃ s1, parse_parameter env k p s = some s1 := by
  unfold parse_parameter
  split_ifs
  · exact ⟨_, rfl⟩
  · obtain ⟨np, cf, cdf, hl⟩ := parse_parameter_latch_frame env k p s
    obtain ⟨u, t, n, l, w, hr⟩ := parse_parameter_reg_frame env k p
      (parse_parameter_latch env k p s)
    apply parse_parameter_mem_returns env k p _ node
    · rw [hr, hl]; exact hn
    · rw [hr, hl]; exact hs

theorem dma_load_write_frame (addr : Addr) (s : DDDG) :
    ∃ a, dma_load_write addr s = { s with address_last_written := a } := by
  unfold dma_load_write
  cases find addr s.address_last_written <;> exact ⟨_, rfl⟩

theorem foldl_dma_load_write_frame (l : List Addr) (s : DDDG) :
    ∃ a, l.foldl (fun st addr => dma_load_write addr st) s =
      { s with address_last_written := a } := by
  induction l generalizing s with
  | nil => exact ⟨s.address_last_written, rfl⟩
  | cons x l ih =>
    obtain ⟨a, ha⟩ := dma_load_write_frame x s
    obtain ⟨b, hb⟩ := ih (dma_load_write x s)
    rw [List.foldl_cons, hb, ha]
    exact ⟨_, rfl⟩

theorem foldl_handle_post_write_dependency_frame (l : List Addr) (s : DDDG) :
    ∃ t n, l.foldl (fun st addr => handle_post_write_dependency addr st) s =
      { s with memory_edge_table := t, num_of_mem_dep := n } := by
  induction l generalizing s with
  | nil => exact ⟨s.memory_edge_table, s.num_of_mem_dep, rfl⟩
  | cons x l ih =>
    obtain ⟨t, n, ha⟩ := handle_post_write_dependency_frame x s
    obtain ⟨t2, n2, hb⟩ := ih (handle_post_write_dependency x s)
    rw [List.foldl_cons, hb, ha]
    exact ⟨_, _, rfl⟩

theorem parse_result_dma_frame (env : Env) (node : Node) (s s1 : DDDG)
    (h : parse_result_dma env node s = some s1) :
    ∃ c t n a, s1 =
      { s with calls := c, memory_edge_table := t, num_of_mem_dep := n,
               address_last_written := a } := by
  unfold parse_result_dma at h
  split at h
  · rename_i mem_address v2 v3 _ _
    dsimp only at h
    split_ifs at h
    · obtain ⟨a, ha⟩ := foldl_dma_load_write_frame
        (dma_range mem_address (v2 % 2 ^ 32) (v3 % 2 ^ 32))
        { s with calls := s.calls ++
            [.set_mem_access_dma node.id mem_address (v2 % 2 ^ 32) (v3 % 2 ^ 32)] }
      rw [ha] at h
      simp only [Option.some.injEq] at h
      exact ⟨_, s.memory_edge_table, s.num_of_mem_dep, _, h.symm⟩
    · simp only [Option.some.injEq] at h
      exact ⟨_, s.memory_edge_table, s.num_of_mem_dep, s.address_last_written, h.symm⟩
    · obtain ⟨t, n, ha⟩ := foldl_handle_post_write_dependency_frame
        (dma_range mem_address (v2 % 2 ^ 32) (v3 % 2 ^ 32))
        { s with calls := s.calls ++
            [.set_mem_access_dma node.id mem_address (v2 % 2 ^ 32) (v3 % 2 ^ 32)] }
      rw [ha] at h
      simp only [Option.some.injEq] at h
      exact ⟨_, _, _, s.address_last_written, h.symm⟩
  · simp at h

/-- The two ways a result record is processed: only the register table and
the call log change, or the node is a DMA node and `parse_result_dma` runs
after the register table has been updated. -/
theorem parse_result_cases (env : Env) (r : ResultLine) (s s1 : DDDG)
    (h : parse_result env r s = some s1) :
    ∃ node c, s.curr_node = some node ∧ r.is_reg ≠ 0 ∧
      ((s1 = { s with
          calls := c
          register_last_written :=
            upsert (s.curr_dynamic_function ++ "-" ++ r.label) s.num_of_instructions
              s.register_last_written }) ∨
       (env.is_dma_op node.microop = true ∧
        parse_result_dma env node
          { s with
            calls := c
            register_last_written :=
              upsert (s.curr_dynamic_function ++ "-" ++ r.label) s.num_of_instructions
                s.register_last_written } = some s1)) := by
  unfold parse_result at h
  split at h
  · simp at h
  · rename_i node hnode
    have hup : ∀ (k : String) (v : Int) (m : List (String × Int)),
        (match find k m with
          | some _ => assign k v m
          | none => upsert k v m) = upsert k v m := by
      intro k v m
      unfold upsert
      cases find k m <;> rfl
    dsimp only at h
    rw [hup] at h
    by_cases hreg : r.is_reg = 0
    · simp [hreg] at h
    · rw [if_neg hreg] at h
      split_ifs at h
      all_goals first
        | (simp only [Option.some.injEq] at h
           exact ⟨node, _, hnode, hreg, Or.inl h.symm⟩)
        | exact ⟨node, _, hnode, hreg, Or.inr ⟨by assumption, h⟩⟩
        | (split at h
           · simp at h
           · split at h
             · simp at h
             · simp only [Option.some.injEq] at h
               exact ⟨node, _, hnode, hreg, Or.inl h.symm⟩)

/-- A result record makes the current node the last writer of its scoped
register and leaves the other registers alone. -/
theorem parse_result_frame (env : Env) (r : ResultLine) (s s1 : DDDG)
    (h : parse_result env r s = some s1) :
    ∃ c t n a, s1 =
      { s with calls := c, memory_edge_table := t, num_of_mem_dep := n,
               address_last_written := a,
               register_last_written :=
                 upsert (s.curr_dynamic_function ++ "-" ++ r.label) s.num_of_instructions
                   s.register_last_written } := by
  obtain ⟨node, c, _, _, h1 | ⟨_, h1⟩⟩ := parse_result_cases env r s s1 h
  · exact ⟨c, s.memory_edge_table, s.num_of_mem_dep, s.address_last_written, h1⟩
  · obtain ⟨c2, t, n, a, hd⟩ := parse_result_dma_frame env node _ s1 h1
    rw [hd]
    exact ⟨_, _, _, _, rfl⟩

/-! ## Register flow edges -/

/-- C1. In every builder state in which the scoped key
`<curr_dynamic_function>-<label>` has last writer `w`, a parameter record that
is not dropped by the Phi filter, with tag `k` and a non-zero `is_reg` (in
particular `is_reg = 1`), appends exactly the entry `(w → n, k)` to
`register_edge_table`, `n` being the current node, and adds one to
`num_of_reg_dep`; the record is processed whenever the current node is set
and is not a Store; and a result record makes the node that is current when
it is processed the last writer of its scoped key, replacing any earlier
writer, so `w` is the most recent definer. -/
theorem register_flow_edge (env : Env) (s : DDDG) (k : Int) (p : ParameterLine) (w : Int)
    (hphi : s.curr_microop ≠ some env.LLVM_IR_PHI)
    (hreg : p.is_reg ≠ 0)
    (hw : find (s.curr_dynamic_function ++ "-" ++ p.label) s.register_last_written = some w) :
    (∀ s1, parse_parameter env k p s = some s1 →
      s1.register_edge_table = s.register_edge_table ++ [(w, ⟨s.num_of_instructions, k⟩)] ∧
      s1.num_of_reg_dep = s.num_of_reg_dep + 1) ∧
    (∀ node, s.curr_node = some node → s.curr_microop ≠ some env.LLVM_IR_Store →
      ∃ s1, parse_parameter env k p s = some s1) ∧
    (∀ (r : ResultLine) (s0 s2 : DDDG), parse_result env r s0 = some s2 →
      find (s0.curr_dynamic_function ++ "-" ++ r.label) s2.register_last_written =
        some s0.num_of_instructions) := by
  refine ⟨?_, ?_, ?_⟩
  · intro s1 h
    unfold parse_parameter at h
    rw [if_neg (fun hc => hphi hc.1)] at h
    obtain ⟨np, cf, cdf, hl⟩ := parse_parameter_latch_frame env k p s
    have hr := parse_parameter_reg_found env k p (parse_parameter_latch env k p s) w hreg
      (by rw [hl]; exact hw)
    obtain ⟨c, pv, ps, pl, t, n, a, hm⟩ := parse_parameter_mem_frame env k p _ s1 h
    rw [hm, hr, hl]
    exact ⟨rfl, rfl⟩
  · intro node hn hs
    exact parse_parameter_returns env k p s node hn hs
  · intro r s0 s2 h
    obtain ⟨c, t, n, a, hf⟩ := parse_result_frame env r s0 s2 h
    rw [hf]
    exact find_upsert_self _ _ _

/-- Scenario S1: the Load of `r1` gets the register edge `(0 → 1, 1)`. -/
theorem register_flow_edge_witness :
    ∃ s1, parse_parameter sample_env 1 S1_param S1_state = some s1 ∧
      s1.register_edge_table = [(0, ⟨1, 1⟩)] ∧ s1.num_of_reg_dep = 1 := by
  have h := register_flow_edge sample_env S1_state 1 S1_param 0 (by decide) (by decide)
    (by decide)
  obtain ⟨s1, hs1⟩ := h.2.1 ⟨1, 27⟩ (by decide) (by decide)
  exact ⟨s1, hs1, h.1 s1 hs1⟩

/-! ## Preservation of the invariants -/

theorem find_snoc_cases {κ ν : Type} [DecidableEq κ] (k k2 : κ) (v x : ν)
    (m : List (κ × ν)) (h : find k2 (m ++ [(k, v)]) = some x) :
    x = v ∨ find k2 m = some x := by
  rw [find_append] at h
  cases hf : find k2 m with
  | some y =>
    rw [hf] at h
    exact Or.inr h
  | none =>
    rw [hf] at h
    simp only [Option.orElse, find] at h
    split_ifs at h
    exact Or.inl (Option.some.inj h).symm

theorem MemOK_handle_post_write_dependency (addr : Addr) (s : DDDG) (h : MemOK s) :
    MemOK (handle_post_write_dependency addr s) := by
  unfold handle_post_write_dependency
  cases hf : find addr s.address_last_written with
  | none => exact h
  | some w =>
    dsimp only
    split_ifs with he
    · exact h
    · obtain ⟨h1, h2, h3⟩ := h
      refine ⟨h1, ?_, ?_⟩
      · intro e hmem
        rcases List.mem_append.1 hmem with hmem | hmem
        · exact h2 e hmem
        · rw [List.mem_singleton] at hmem
          subst hmem
          exact ⟨(h1 addr w hf).1, (h1 addr w hf).2, le_refl _, rfl⟩
      · rw [List.map_append, List.nodup_append]
        refine ⟨h3, by simp, ?_⟩
        intro x hx hx2
        simp only [List.map_cons, List.map_nil, List.mem_singleton] at hx2
        subst hx2
        apply he
        obtain ⟨e, hmem, heq⟩ := List.mem_map.1 hx
        simp only [Prod.mk.injEq] at heq
        simp only [List.any_eq_true, List.mem_filter, decide_eq_true_eq]
        exact ⟨e, ⟨hmem, heq.1⟩, heq.2⟩

theorem foldl_MemOK_handle_post_write_dependency (l : List Addr) (s : DDDG) (h : MemOK s) :
    MemOK (l.foldl (fun st addr => handle_post_write_dependency addr st) s) := by
  induction l generalizing s with
  | nil => exact h
  | cons x l ih =>
    rw [List.foldl_cons]
    exact ih _ (MemOK_handle_post_write_dependency x s h)

theorem MemOK_assign (s : DDDG) (addr : Addr) (h : MemOK s)
    (hn : 0 ≤ s.num_of_instructions) :
    MemOK { s with
      address_last_written := assign addr s.num_of_instructions s.address_last_written } := by
  obtain ⟨h1, h2, h3⟩ := h
  refine ⟨?_, h2, h3⟩
  intro a v hv
  rcases find_assign_cases addr a _ v _ hv with hv | hv
  · subst hv
    exact ⟨hn, le_refl _⟩
  · exact h1 a v hv

theorem MemOK_snoc (s : DDDG) (addr : Addr) (h : MemOK s)
    (hn : 0 ≤ s.num_of_instructions) :
    MemOK { s with
      address_last_written := s.address_last_written ++ [(addr, s.num_of_instructions)] } := by
  obtain ⟨h1, h2, h3⟩ := h
  refine ⟨?_, h2, h3⟩
  intro a v hv
  rcases find_snoc_cases addr a _ v _ hv with hv | hv
  · subst hv
    exact ⟨hn, le_refl _⟩
  · exact h1 a v hv

theorem MemOK_dma_load_write (addr : Addr) (s : DDDG) (h : MemOK s)
    (hn : 0 ≤ s.num_of_instructions) : MemOK (dma_load_write addr s) := by
  unfold dma_load_write
  cases find addr s.address_last_written with
  | none => exact MemOK_snoc s addr h hn
  | some w => exact MemOK_assign s addr h hn

theorem foldl_MemOK_dma_load_write (l : List Addr) (s : DDDG) (h : MemOK s)
    (hn : 0 ≤ s.num_of_instructions) :
    MemOK (l.foldl (fun st addr => dma_load_write addr st) s) := by
  induction l generalizing s with
  | nil => exact h
  | cons x l ih =>
    rw [List.foldl_cons]
    apply ih _ (MemOK_dma_load_write x s h hn)
    obtain ⟨a, hf⟩ := dma_load_write_frame x s
    rw [hf]
    exact hn

@[simp] theorem handle_post_write_dependency_num (addr : Addr) (s : DDDG) :
    (handle_post_write_dependency addr s).num_of_instructions = s.num_of_instructions := by
  obtain ⟨t, n, h⟩ := handle_post_write_dependency_frame addr s
  rw [h]

@[simp] theorem handle_post_write_dependency_addr (addr : Addr) (s : DDDG) :
    (handle_post_write_dependency addr s).address_last_written = s.address_last_written := by
  obtain ⟨t, n, h⟩ := handle_post_write_dependency_frame addr s
  rw [h]

theorem MemOK_parse_parameter_mem_body (env : Env) (k : Int) (p : ParameterLine)
    (s s1 : DDDG) (hM : MemOK s) (hn : 0 ≤ s.num_of_instructions)
    (h : parse_parameter_mem_body env k p s = some s1) : MemOK s1 := by
  unfold parse_parameter_mem_body at h
  simp only at h
  split_ifs at h
  · split at h
    · simp only [Option.some.injEq] at h
      subst h
      exact MemOK_handle_post_write_dependency _ _ hM
    · exact absurd h (by simp)
  · split at h
    · rename_i mem_address base_label node _ _ _
      split at h
      · split at h
        · simp at h
        · split_ifs at h
          · simp only [Option.map_some', Option.some.injEq] at h
            subst h
            exact MemOK_assign _ mem_address
              (MemOK_handle_post_write_dependency mem_address _ hM) (by simpa using hn)
          · simp only [Option.map_some', Option.some.injEq] at h
            subst h
            exact MemOK_assign _ mem_address hM hn
      · simp only [Option.map_some', Option.some.injEq] at h
        subst h
        exact MemOK_snoc _ mem_address hM hn
    · exact absurd h (by simp)
  · split at h
    · split at h
      · simp at h
      · simp only [Option.some.injEq] at h
        subst h
        exact hM
    · exact absurd h (by simp)
  · split at h
    · simp only [Option.some.injEq] at h
      subst h
      exact hM
    · exact absurd h (by simp)
  · split at h
    · split_ifs at h
      · simp only [Option.some.injEq] at h
        subst h
        exact hM
      · simp only [Option.some.injEq] at h
        subst h
        exact hM
    · exact absurd h (by simp)
  · simp only [Option.some.injEq] at h
    subst h
    exact hM

theorem MemOK_parse_parameter_mem (env : Env) (k : Int) (p : ParameterLine)
    (s s1 : DDDG) (hM : MemOK s) (hn : 0 ≤ s.num_of_instructions)
    (h : parse_parameter_mem env k p s = some s1) : MemOK s1 := by
  unfold parse_parameter_mem at h
  split_ifs at h
  · exact MemOK_parse_parameter_mem_body env k p s s1 hM hn h
  · split at h
    · simp at h
    · split_ifs at h
      · exact MemOK_parse_parameter_mem_body env k p s s1 hM hn h
      · simp only [Option.some.injEq] at h
        subst h
        exact hM

/-- A parameter that is processed and not dropped by the Phi filter belongs to
a node that has been set. -/
theorem parse_parameter_mem_node (env : Env) (k : Int) (p : ParameterLine)
    (s s1 : DDDG) (hnone : s.curr_node = none → s.curr_microop = none)
    (h : parse_parameter_mem env k p s = some s1) : s.curr_node ≠ none := by
  intro hc
  have hm := hnone hc
  unfold parse_parameter_mem at h
  simp [hm, hc] at h

theorem MemOK_parse_result_dma (env : Env) (node : Node) (s s1 : DDDG) (hM : MemOK s)
    (hn : 0 ≤ s.num_of_instructions) (h : parse_result_dma env node s = some s1) :
    MemOK s1 := by
  unfold parse_result_dma at h
  split at h
  · dsimp only at h
    split_ifs at h
    · simp only [Option.some.injEq] at h
      subst h
      exact foldl_MemOK_dma_load_write _ _ hM hn
    · simp only [Option.some.injEq] at h
      subst h
      exact hM
    · simp only [Option.some.injEq] at h
      subst h
      exact foldl_MemOK_handle_post_write_dependency _ _ hM
  · simp at h

theorem RegOK_mono (s s1 : DDDG) (h : RegOK s)
    (h1 : s1.register_last_written = s.register_last_written)
    (h2 : s1.last_call_source = s.last_call_source)
    (h3 : s1.register_edge_table = s.register_edge_table)
    (hn : s.num_of_instructions ≤ s1.num_of_instructions) : RegOK s1 := by
  obtain ⟨a, b, c⟩ := h
  refine ⟨?_, ?_, ?_⟩
  · intro k v hv
    rw [h1] at hv
    exact ⟨(a k v hv).1, le_trans (a k v hv).2 hn⟩
  · intro v hv
    rw [h2] at hv
    rcases b v hv with hb | hb
    · exact Or.inl hb
    · exact Or.inr ⟨hb.1, le_trans hb.2 hn⟩
  · intro e he
    rw [h3] at he
    exact ⟨(c e he).1, (c e he).2.1, le_trans (c e he).2.2 hn⟩

theorem MemOK_mono (s s1 : DDDG) (h : MemOK s)
    (h1 : s1.address_last_written = s.address_last_written)
    (h3 : s1.memory_edge_table = s.memory_edge_table)
    (hn : s.num_of_instructions ≤ s1.num_of_instructions) : MemOK s1 := by
  obtain ⟨a, c, d⟩ := h
  refine ⟨?_, ?_, ?_⟩
  · intro k v hv
    rw [h1] at hv
    exact ⟨(a k v hv).1, le_trans (a k v hv).2 hn⟩
  · intro e he
    rw [h3] at he
    exact ⟨(c e he).1, (c e he).2.1, le_trans (c e he).2.2.1 hn, (c e he).2.2.2⟩
  · rw [h3]
    exact d

theorem RegOK_parse_parameter_latch (env : Env) (k : Int) (p : ParameterLine) (s : DDDG)
    (h : RegOK s) : RegOK (parse_parameter_latch env k p s) := by
  obtain ⟨np, cf, cdf, hl⟩ := parse_parameter_latch_frame env k p s
  rw [hl]
  obtain ⟨a, _, c⟩ := h
  exact ⟨a, fun v hv => Or.inl (Option.some.inj hv).symm, c⟩

theorem RegOK_parse_parameter_reg (env : Env) (k : Int) (p : ParameterLine) (s : DDDG)
    (h : RegOK s) (hn : 0 ≤ s.num_of_instructions) :
    RegOK (parse_parameter_reg env k p s) := by
  cases hw : find (s.curr_dynamic_function ++ "-" ++ p.label) s.register_last_written with
  | some w =>
    by_cases hreg : p.is_reg = 0
    · unfold parse_parameter_reg
      rw [if_pos hreg]
      exact h
    · rw [parse_parameter_reg_found env k p s w hreg hw]
      obtain ⟨a, b, c⟩ := h
      refine ⟨a, ?_, ?_⟩
      · intro v hv
        dsimp only at hv
        split_ifs at hv
        · rw [← Option.some.inj hv]
          exact Or.inr (a _ w hw)
        · exact b v hv
      · intro e he
        rcases List.mem_append.1 he with he | he
        · exact c e he
        · rw [List.mem_singleton] at he
          subst he
          exact ⟨(a _ w hw).1, (a _ w hw).2, le_refl _⟩
  | none =>
    by_cases hreg : p.is_reg = 0
    · unfold parse_parameter_reg
      rw [if_pos hreg]
      exact h
    · rw [parse_parameter_reg_missing env k p s hreg hw]
      obtain ⟨a, b, c⟩ := h
      refine ⟨?_, b, c⟩
      intro k2 v hv
      dsimp only at hv
      split_ifs at hv
      · rcases find_upsert_cases _ k2 _ v _ hv with hv | hv
        · subst hv
          exact ⟨hn, le_refl _⟩
        · exact a k2 v hv
      · exact a k2 v hv

theorem RegOK_upsert (s : DDDG) (key : String) (v : Int) (h : RegOK s)
    (hv : 0 ≤ v ∧ v ≤ s.num_of_instructions) :
    RegOK { s with register_last_written := upsert key v s.register_last_written } := by
  obtain ⟨a, b, c⟩ := h
  refine ⟨?_, b, c⟩
  intro k2 x hx
  rcases find_upsert_cases _ k2 _ x _ hx with hx | hx
  · subst hx
    exact hv
  · exact a k2 x hx

theorem RegOK_parse_result (env : Env) (r : ResultLine) (s s1 : DDDG) (h : RegOK s)
    (hn : 0 ≤ s.num_of_instructions) (hr : parse_result env r s = some s1) : RegOK s1 := by
  obtain ⟨c, t, n, a, hf⟩ := parse_result_frame env r s s1 hr
  rw [hf]
  exact RegOK_upsert s _ _ h ⟨hn, le_refl _⟩

theorem MemOK_parse_result (env : Env) (r : ResultLine) (s s1 : DDDG) (hM : MemOK s)
    (hn : 0 ≤ s.num_of_instructions) (h : parse_result env r s = some s1) : MemOK s1 := by
  obtain ⟨node, c, _, _, h1 | ⟨_, h1⟩⟩ := parse_result_cases env r s s1 h
  · rw [h1]
    exact hM
  · refine MemOK_parse_result_dma env node _ s1 ?_ ?_ h1
    · exact hM
    · exact hn

/-- The state after a header, given the resolution of the dynamic function. -/
theorem parse_instruction_line_eq (env : Env) (h : InstructionLine) (s s1 : DDDG)
    (hs : parse_instruction_line env h s = some s1) :
    ∃ r0, resolve_active env h s.curr_microop s = some r0 ∧
      s1 =
        { s with
          num_of_instructions := s.num_of_instructions + 1
          prev_microop := s.curr_microop
          curr_microop := some (h.microop % 256)
          curr_instid := h.instid
          curr_node := some ⟨s.num_of_instructions + 1, h.microop⟩
          calls := s.calls ++
            [.insertNode (s.num_of_instructions + 1) h.microop,
             .set_line_num (s.num_of_instructions + 1) h.line_num,
             .set_inst_id (s.num_of_instructions + 1) h.instid,
             .set_static_method (s.num_of_instructions + 1) h.curr_static_function,
             .addFunctionName h.curr_static_function,
             .set_dynamic_invocation (s.num_of_instructions + 1)
               (resolve_new h r0).func_invocation_count]
          function_counter := (resolve_new h r0).function_counter
          curr_dynamic_function := (resolve_new h r0).curr_dynamic_function
          active_method := (resolve_new h r0).active_method
          prev_bblock :=
            if h.microop = env.LLVM_IR_PHI ∧ s.curr_microop ≠ some env.LLVM_IR_PHI then
              s.curr_bblock
            else s.prev_bblock
          curr_bblock := h.bblockid
          last_parameter := false
          parameter_value_per_inst := []
          parameter_size_per_inst := []
          parameter_label_per_inst := [] } := by
  unfold parse_instruction_line at hs
  dsimp only at hs
  split at hs
  · simp at hs
  · rename_i r0 hr0
    simp only [Option.some.injEq] at hs
    exact ⟨r0, hr0, hs.symm⟩

/-- The state after a forward record. -/
theorem parse_forward_eq (env : Env) (f : ForwardLine) (s s1 : DDDG)
    (hs : parse_forward env f s = some s1) :
    ∃ node src, s.curr_node = some node ∧ f.is_reg ≠ 0 ∧
      (env.is_call_op node.microop || env.is_dma_op node.microop ||
        env.is_trig_op node.microop) = true ∧
      s.last_call_source = some src ∧
      s1 =
        { s with
          calls :=
            if s.unique_reg_in_caller_func ≠ "" then
              s.calls ++ [.addCallArgumentMapping (s.callee_dynamic_function ++ "-" ++ f.label)
                s.unique_reg_in_caller_func]
            else s.calls
          unique_reg_in_caller_func := ""
          register_last_written :=
            upsert (s.callee_dynamic_function ++ "-" ++ f.label)
              (if src ≠ -1 then src else s.num_of_instructions) s.register_last_written } := by
  unfold parse_forward at hs
  have hup : ∀ (k : String) (v : Int) (m : List (String × Int)),
      (match find k m with
        | some _ => assign k v m
        | none => upsert k v m) = upsert k v m := by
    intro k v m
    unfold upsert
    cases find k m <;> rfl
  by_cases hreg : f.is_reg = 0
  · simp [hreg] at hs
  · rw [if_neg hreg] at hs
    cases hnode : s.curr_node with
    | none => simp [hnode] at hs
    | some node =>
      simp only [hnode] at hs
      by_cases ha : (env.is_call_op node.microop || env.is_dma_op node.microop ||
          env.is_trig_op node.microop) = true
      · simp only [ha, Bool.not_true, Bool.false_eq_true, if_false] at hs
        by_cases hu : s.unique_reg_in_caller_func = ""
        · simp only [hu, ne_eq, not_true_eq_false, if_false] at hs
          cases hl : s.last_call_source with
          | none => simp [hl] at hs
          | some src =>
            simp only [hl, hup, Option.some.injEq] at hs
            refine ⟨node, src, rfl, hreg, ha, rfl, ?_⟩
            rw [← hs]
            simp only [hu, ne_eq, not_true_eq_false, if_false]
            cases s
            simp_all
        · simp only [hu, ne_eq, not_false_eq_true, if_true] at hs
          cases hl : s.last_call_source with
          | none => simp [hl] at hs
          | some src =>
            simp only [hl, hup, Option.some.injEq] at hs
            refine ⟨node, src, rfl, hreg, ha, rfl, ?_⟩
            rw [← hs]
            simp only [hu, ne_eq, not_false_eq_true, if_true]
      · simp [ha] at hs

theorem Inv_init : Inv DDDG.init := by
  refine ⟨⟨by decide, fun _ => rfl, ?_⟩, ⟨?_, ?_, ?_⟩, ⟨?_, ?_, ?_⟩⟩
  · intro node h
    exact absurd h (by simp [DDDG.init])
  · intro k v h
    exact absurd h (by simp [DDDG.init, find])
  · intro v h
    exact absurd h (by simp [DDDG.init])
  · intro e h
    exact absurd h (by simp [DDDG.init])
  · intro k v h
    exact absurd h (by simp [DDDG.init, find])
  · intro e h
    exact absurd h (by simp [DDDG.init])
  · simp [DDDG.init]

theorem Inv_parse_instruction_line (env : Env) (h : InstructionLine) (s s1 : DDDG)
    (hI : Inv s) (hs : parse_instruction_line env h s = some s1) : Inv s1 := by
  obtain ⟨r0, _, he⟩ := parse_instruction_line_eq env h s s1 hs
  obtain ⟨⟨hn, _, _⟩, hR, hM⟩ := hI
  have hle : s.num_of_instructions ≤ s1.num_of_instructions := by
    rw [he]
    exact le_of_lt (Int.lt_succ _)
  refine ⟨⟨?_, ?_, ?_⟩, ?_, ?_⟩
  · exact le_trans hn hle
  · intro hc
    rw [he] at hc
    exact absurd hc (by simp)
  · intro node hc
    rw [he] at hc
    simp only [Option.some.injEq] at hc
    rw [he, ← hc]
    dsimp only
    exact ⟨by omega, rfl⟩
  · exact RegOK_mono s s1 hR (by rw [he]) (by rw [he]) (by rw [he]) hle
  · exact MemOK_mono s s1 hM (by rw [he]) (by rw [he]) hle

theorem Inv_parse_result (env : Env) (r : ResultLine) (s s1 : DDDG)
    (hI : Inv s) (hs : parse_result env r s = some s1) : Inv s1 := by
  obtain ⟨node, c, hnode, _, _⟩ := parse_result_cases env r s s1 hs
  obtain ⟨hN, hR, hM⟩ := hI
  have hn : 0 ≤ s.num_of_instructions := (hN.2.2 node hnode).1
  refine ⟨?_, RegOK_parse_result env r s s1 hR hn hs, MemOK_parse_result env r s s1 hM hn hs⟩
  obtain ⟨c, t, n, a, hf⟩ := parse_result_frame env r s s1 hs
  rw [hf]
  exact hN

theorem Inv_parse_forward (env : Env) (f : ForwardLine) (s s1 : DDDG)
    (hI : Inv s) (hs : parse_forward env f s = some s1) : Inv s1 := by
  obtain ⟨node, src, hnode, _, _, hsrc, he⟩ := parse_forward_eq env f s s1 hs
  obtain ⟨hN, hR, hM⟩ := hI
  have hn : 0 ≤ s.num_of_instructions := (hN.2.2 node hnode).1
  rw [he]
  refine ⟨hN, ?_, hM⟩
  refine RegOK_upsert s _ _ hR ?_
  split_ifs with h1
  · rcases hR.2.1 src hsrc with h2 | h2
    · exact absurd h2 h1
    · exact h2
  · exact ⟨hn, le_refl _⟩

theorem Inv_parse_parameter (env : Env) (k : Int) (p : ParameterLine) (s s1 : DDDG)
    (hI : Inv s) (hs : parse_parameter env k p s = some s1) : Inv s1 := by
  unfold parse_parameter at hs
  split_ifs at hs
  · simp only [Option.some.injEq] at hs
    rw [← hs]
    exact hI
  · obtain ⟨hN, hR, hM⟩ := hI
    obtain ⟨np, cf, cdf, hl⟩ := parse_parameter_latch_frame env k p s
    obtain ⟨u, t, n, l, w, hr⟩ := parse_parameter_reg_frame env k p
      (parse_parameter_latch env k p s)
    have hnode : s.curr_node ≠ none := by
      have := parse_parameter_mem_node env k p _ s1
        (by rw [hr, hl]; exact hN.2.1) hs
      rw [hr, hl] at this
      exact this
    obtain ⟨node, hnode⟩ := Option.ne_none_iff_exists'.1 hnode
    have hn : 0 ≤ s.num_of_instructions := (hN.2.2 node hnode).1
    have hR1 := RegOK_parse_parameter_latch env k p s hR
    have hR2 := RegOK_parse_parameter_reg env k p _ hR1 (by rw [hl]; exact hn)
    have hM2 : MemOK (parse_parameter_reg env k p (parse_parameter_latch env k p s)) := by
      rw [hr, hl]
      exact hM
    have hn2 : 0 ≤ (parse_parameter_reg env k p
        (parse_parameter_latch env k p s)).num_of_instructions := by
      rw [hr, hl]
      exact hn
    refine ⟨?_, ?_, MemOK_parse_parameter_mem env k p _ s1 hM2 hn2 hs⟩
    · obtain ⟨c, pv, ps, pl, t2, n2, a, hm⟩ := parse_parameter_mem_frame env k p _ s1 hs
      rw [hm, hr, hl]
      exact hN
    · obtain ⟨c, pv, ps, pl, t2, n2, a, hm⟩ := parse_parameter_mem_frame env k p _ s1 hs
      rw [hm]
      exact hR2

theorem Inv_dispatch (env : Env) (s s1 : DDDG) (r : Record) (hI : Inv s)
    (hs : dispatch env s r = some s1) : Inv s1 := by
  cases r with
  | header h => exact Inv_parse_instruction_line env h s s1 hI hs
  | result r => exact Inv_parse_result env r s s1 hI hs
  | forward f => exact Inv_parse_forward env f s s1 hI hs
  | parameter k p => exact Inv_parse_parameter env k p s s1 hI hs

theorem Inv_run (env : Env) (t : List Record) (s s1 : DDDG) (hI : Inv s)
    (hs : run env s t = some s1) : Inv s1 := by
  induction t generalizing s with
  | nil =>
    simp only [run, Option.some.injEq] at hs
    rw [← hs]
    exact hI
  | cons r t ih =>
    simp only [run] at hs
    split at hs
    · simp at hs
    · rename_i s2 h2
      exact ih s2 (Inv_dispatch env s s2 r hI h2) hs

/-! ## Edges lead forward; memory edges are not duplicated -/

/-- C3, as amended. For every trace processed from the initial state, every
entry `(s, t, par_id)` of `register_edge_table` and of `memory_edge_table`
satisfies `0 ≤ s ≤ t`, with `t` at most the current node id, and
`output_dddg` pushes exactly these entries to the sink.  The bound `s < t` of
the claim is not met by register edges, as the trace `self_edge_trace` shows. -/
theorem edges_lead_forward (env : Env) (t : List Record) (s : DDDG)
    (h : run env DDDG.init t = some s) :
    (∀ e ∈ s.register_edge_table ++ s.memory_edge_table,
      0 ≤ e.1 ∧ e.1 ≤ e.2.sink_node ∧ e.2.sink_node ≤ s.num_of_instructions) ∧
    (output_dddg s).calls = s.calls ++
      (s.register_edge_table ++ s.memory_edge_table).map
        (fun e => SinkCall.addDddgEdge e.1 e.2.sink_node e.2.par_id) := by
  obtain ⟨_, hR, hM⟩ := Inv_run env t DDDG.init s Inv_init h
  refine ⟨?_, ?_⟩
  · intro e he
    rcases List.mem_append.1 he with he | he
    · exact hR.2.2 e he
    · exact ⟨(hM.2.1 e he).1, (hM.2.1 e he).2.1, (hM.2.1 e he).2.2.1⟩
  · simp [output_dddg, List.append_assoc]

/-- Scenario S2 satisfies the bound: its only edge is the memory edge
`(0 → 1, -1)`. -/
theorem edges_lead_forward_witness :
    ∃ s, run sample_env DDDG.init S2_trace = some s ∧
      s.register_edge_table ++ s.memory_edge_table = [(0, ⟨1, -1⟩)] ∧
      (∀ e ∈ s.register_edge_table ++ s.memory_edge_table,
        0 ≤ e.1 ∧ e.1 ≤ e.2.sink_node ∧ e.2.sink_node ≤ s.num_of_instructions) :=
  ⟨(run sample_env DDDG.init S2_trace).getD DDDG.init, by decide, by decide,
    (edges_lead_forward sample_env S2_trace _ (by decide)).1⟩

/-- C3 fails as stated: in `self_edge_trace` every record follows the header,
the pointer operand of the Store (tag 2) has no last writer and becomes its
own definition, and the value operand (tag 1) names the same register, so the
register edge `(0 → 0, 1)` is recorded: its source is not smaller than its
sink. -/
theorem acyclicity_counterexample :
    ∃ s, run sample_env DDDG.init self_edge_trace = some s ∧
      s.register_edge_table = [(0, ⟨0, 1⟩)] ∧
      ¬ ∀ e ∈ s.register_edge_table ++ s.memory_edge_table,
        0 ≤ e.1 ∧ e.1 < e.2.sink_node :=
  ⟨(run sample_env DDDG.init self_edge_trace).getD DDDG.init, by decide, by decide,
    by decide⟩

theorem nodup_handle_post_write_dependency (addr : Addr) (s : DDDG)
    (h : (s.memory_edge_table.map fun e => (e.1, e.2.sink_node)).Nodup) :
    ((handle_post_write_dependency addr s).memory_edge_table.map
      fun e => (e.1, e.2.sink_node)).Nodup := by
  unfold handle_post_write_dependency
  cases hf : find addr s.address_last_written with
  | none => exact h
  | some w =>
    dsimp only
    split_ifs with he
    · exact h
    · dsimp only
      rw [List.map_append, List.nodup_append]
      refine ⟨h, by simp, ?_⟩
      intro x hx hx2
      simp only [List.map_cons, List.map_nil, List.mem_singleton] at hx2
      subst hx2
      apply he
      obtain ⟨e, hmem, heq⟩ := List.mem_map.1 hx
      simp only [Prod.mk.injEq] at heq
      simp only [List.any_eq_true, List.mem_filter, decide_eq_true_eq]
      exact ⟨e, ⟨hmem, heq.1⟩, heq.2⟩

theorem no_duplicate_edges_iff (t : multi_uint_to_node_info) :
    no_duplicate_edges t ↔ (t.map fun e => (e.1, e.2.sink_node)).Nodup := by
  unfold no_duplicate_edges
  induction t with
  | nil => simp
  | cons e t ih =>
    rw [List.map_cons, List.nodup_cons, ← ih]
    constructor
    · intro h
      refine ⟨?_, ?_⟩
      · intro hmem
        obtain ⟨e2, he2, heq⟩ := List.mem_map.1 hmem
        simp only [Prod.mk.injEq] at heq
        have h1 := h e.1 e.2.sink_node
        rw [List.countP_cons_of_pos _ _ (by simp)] at h1
        have h2 : 0 < t.countP (fun x => decide (x.1 = e.1 ∧ x.2.sink_node = e.2.sink_node)) :=
          List.countP_pos_iff.2 ⟨e2, he2, by simp [heq.1, heq.2]⟩
        omega
      · intro src sink
        have h1 := h src sink
        rw [List.countP_cons] at h1
        omega
    · rintro ⟨hnot, h⟩ src sink
      rw [List.countP_cons]
      split_ifs with hc
      · simp only [decide_eq_true_eq] at hc
        have : t.countP (fun x => decide (x.1 = src ∧ x.2.sink_node = sink)) = 0 := by
          rw [List.countP_eq_zero]
          intro x hx hx2
          simp only [decide_eq_true_eq] at hx2
          apply hnot
          refine List.mem_map.2 ⟨x, hx, ?_⟩
          rw [hx2.1, hx2.2, hc.1, hc.2]
        omega
      · have := h src sink
        omega

/-- C4. In every state reached from the initial builder state by a sequence of
records, `memory_edge_table` holds at most one entry for each pair of a source
node and a sink node; and `handle_post_write_dependency` keeps this property
in any state that has it. -/
theorem no_duplicate_memory_edges (env : Env) (t : List Record) (s : DDDG)
    (h : run env DDDG.init t = some s) :
    no_duplicate_edges s.memory_edge_table ∧
    (∀ (addr : Addr) (s0 : DDDG), no_duplicate_edges s0.memory_edge_table →
      no_duplicate_edges (handle_post_write_dependency addr s0).memory_edge_table) := by
  obtain ⟨_, _, hM⟩ := Inv_run env t DDDG.init s Inv_init h
  refine ⟨(no_duplicate_edges_iff _).2 hM.2.2, ?_⟩
  intro addr s0 h0
  exact (no_duplicate_edges_iff _).2
    (nodup_handle_post_write_dependency addr s0 ((no_duplicate_edges_iff _).1 h0))

/-- In scenario S2 the nodes `0` and `1` are joined by one memory edge. -/
theorem no_duplicate_memory_edges_witness :
    ∃ s, run sample_env DDDG.init S2_trace = some s ∧
      s.memory_edge_table = [(0, ⟨1, -1⟩)] ∧ no_duplicate_edges s.memory_edge_table :=
  ⟨(run sample_env DDDG.init S2_trace).getD DDDG.init, by decide, by decide,
    (no_duplicate_memory_edges sample_env S2_trace _ (by decide)).1⟩

/-! ## Sink calls of the handlers -/

@[simp] theorem handle_post_write_dependency_calls (addr : Addr) (s : DDDG) :
    (handle_post_write_dependency addr s).calls = s.calls := by
  obtain ⟨t, n, h⟩ := handle_post_write_dependency_frame addr s
  rw [h]

@[simp] theorem foldl_handle_post_write_dependency_calls (l : List Addr) (s : DDDG) :
    (l.foldl (fun st addr => handle_post_write_dependency addr st) s).calls = s.calls := by
  obtain ⟨t, n, h⟩ := foldl_handle_post_write_dependency_frame l s
  rw [h]

@[simp] theorem foldl_dma_load_write_calls (l : List Addr) (s : DDDG) :
    (l.foldl (fun st addr => dma_load_write addr st) s).calls = s.calls := by
  obtain ⟨a, h⟩ := foldl_dma_load_write_frame l s
  rw [h]

theorem annotates_refl (s : DDDG) : annotates s s := ⟨[], by simp, by simp⟩

theorem annotates_trans (s s1 s2 : DDDG) (h1 : annotates s s1) (h2 : annotates s1 s2) :
    annotates s s2 := by
  obtain ⟨e1, h1, a1⟩ := h1
  obtain ⟨e2, h2, a2⟩ := h2
  refine ⟨e1 ++ e2, by rw [h2, h1, List.append_assoc], ?_⟩
  intro c hc
  rcases List.mem_append.1 hc with hc | hc
  · exact a1 c hc
  · exact a2 c hc

theorem annotates_of_calls (s s1 : DDDG) (extra : List SinkCall)
    (h : s1.calls = s.calls ++ extra) (ha : extra.all is_annotating = true) :
    annotates s s1 :=
  ⟨extra, h, fun c hc => List.all_eq_true.1 ha c hc⟩

theorem annotates_parse_parameter_mem_body (env : Env) (k : Int) (p : ParameterLine)
    (s s1 : DDDG) (h : parse_parameter_mem_body env k p s = some s1) : annotates s s1 := by
  unfold parse_parameter_mem_body at h
  simp only at h
  split_ifs at h
  · split at h
    · simp only [Option.some.injEq] at h
      subst h
      exact annotates_of_calls _ _ _ (by simp only [handle_post_write_dependency_calls, foldl_handle_post_write_dependency_calls, foldl_dma_load_write_calls]; rfl) (by rfl)
    · exact absurd h (by simp)
  · split at h
    · split at h
      · split at h
        · simp at h
        · split_ifs at h
          · simp only [Option.map_some', Option.some.injEq] at h
            subst h
            exact annotates_of_calls _ _ _ (by simp only [handle_post_write_dependency_calls, foldl_handle_post_write_dependency_calls, foldl_dma_load_write_calls]; rfl) (by rfl)
          · simp only [Option.map_some', Option.some.injEq] at h
            subst h
            exact annotates_of_calls _ _ _ rfl rfl
      · simp only [Option.map_some', Option.some.injEq] at h
        subst h
        exact annotates_of_calls _ _ _ rfl rfl
    · exact absurd h (by simp)
  · split at h
    · split at h
      · simp at h
      · simp only [Option.some.injEq] at h
        subst h
        exact annotates_of_calls _ _ _ rfl rfl
    · exact absurd h (by simp)
  · split at h
    · simp only [Option.some.injEq] at h
      subst h
      exact annotates_of_calls _ _ _ rfl rfl
    · exact absurd h (by simp)
  · split at h
    · split_ifs at h
      · simp only [Option.some.injEq] at h
        subst h
        exact annotates_of_calls _ _ _ rfl rfl
      · simp only [Option.some.injEq] at h
        subst h
        exact annotates_refl _
    · exact absurd h (by simp)
  · simp only [Option.some.injEq] at h
    subst h
    exact annotates_refl _

theorem annotates_parse_parameter_mem (env : Env) (k : Int) (p : ParameterLine)
    (s s1 : DDDG) (h : parse_parameter_mem env k p s = some s1) : annotates s s1 := by
  unfold parse_parameter_mem at h
  split_ifs at h
  · exact annotates_parse_parameter_mem_body env k p s s1 h
  · split at h
    · simp at h
    · split_ifs at h
      · exact annotates_parse_parameter_mem_body env k p s s1 h
      · simp only [Option.some.injEq] at h
        subst h
        exact annotates_refl _

theorem annotates_parse_parameter (env : Env) (k : Int) (p : ParameterLine)
    (s s1 : DDDG) (h : parse_parameter env k p s = some s1) : annotates s s1 := by
  unfold parse_parameter at h
  split_ifs at h
  · simp only [Option.some.injEq] at h
    subst h
    exact annotates_refl _
  · obtain ⟨np, cf, cdf, hl⟩ := parse_parameter_latch_frame env k p s
    obtain ⟨u, t, n, l, w, hr⟩ := parse_parameter_reg_frame env k p
      (parse_parameter_latch env k p s)
    have := annotates_parse_parameter_mem env k p _ s1 h
    rw [hr, hl] at this
    exact this

theorem annotates_parse_result_dma (env : Env) (node : Node) (s s1 : DDDG)
    (h : parse_result_dma env node s = some s1) : annotates s s1 := by
  unfold parse_result_dma at h
  split at h
  · dsimp only at h
    split_ifs at h
    all_goals
      simp only [Option.some.injEq] at h
      subst h
      exact annotates_of_calls _ _ _ (by simp only [handle_post_write_dependency_calls, foldl_handle_post_write_dependency_calls, foldl_dma_load_write_calls]; rfl) (by rfl)
  · simp at h

theorem annotates_parse_result (env : Env) (r : ResultLine) (s s1 : DDDG)
    (h : parse_result env r s = some s1) : annotates s s1 := by
  unfold parse_result at h
  split at h
  · simp at h
  · rename_i node hnode
    have hup : ∀ (k : String) (v : Int) (m : List (String × Int)),
        (match find k m with
          | some _ => assign k v m
          | none => upsert k v m) = upsert k v m := by
      intro k v m
      unfold upsert
      cases find k m <;> rfl
    dsimp only at h
    rw [hup] at h
    by_cases hreg : r.is_reg = 0
    · simp [hreg] at h
    · rw [if_neg hreg] at h
      by_cases hfp : env.is_fp_op node.microop = true ∧ r.size = 64
      · simp only [if_pos hfp] at h
        split_ifs at h
        all_goals first
          | (simp only [Option.some.injEq] at h
             subst h
             first
               | exact annotates_of_calls _ _ _ rfl (by rfl)
               | exact annotates_of_calls _ _ _ (by simp only [List.append_assoc]; rfl)
                   (by rfl))
          | (refine annotates_trans _ _ _ ?_ (annotates_parse_result_dma env node _ s1 h)
             exact annotates_of_calls _ _ _ rfl (by rfl))
          | (split at h
             · simp at h
             · split at h
               · simp at h
               · simp only [Option.some.injEq] at h
                 subst h
                 exact annotates_of_calls _ _ _ (by simp only [List.append_assoc]; rfl)
                   (by rfl))
      · simp only [if_neg hfp] at h
        split_ifs at h
        all_goals first
          | (simp only [Option.some.injEq] at h
             subst h
             first
               | exact annotates_refl _
               | exact annotates_of_calls _ _ _ rfl (by rfl))
          | (refine annotates_trans _ _ _ ?_ (annotates_parse_result_dma env node _ s1 h)
             exact annotates_refl _)
          | (split at h
             · simp at h
             · split at h
               · simp at h
               · simp only [Option.some.injEq] at h
                 subst h
                 exact annotates_of_calls _ _ _ rfl (by rfl))

theorem annotates_parse_forward (env : Env) (f : ForwardLine) (s s1 : DDDG)
    (h : parse_forward env f s = some s1) : annotates s s1 := by
  obtain ⟨node, src, _, _, _, _, he⟩ := parse_forward_eq env f s s1 h
  rw [he]
  by_cases hu : s.unique_reg_in_caller_func = ""
  · refine ⟨[], ?_, by simp⟩
    simp [hu]
  · refine ⟨[.addCallArgumentMapping (s.callee_dynamic_function ++ "-" ++ f.label)
      s.unique_reg_in_caller_func], ?_, by simp [is_annotating]⟩
    simp [hu]

theorem annotates_dispatch (env : Env) (s s1 : DDDG) (r : Record)
    (hr : ∀ h, r ≠ .header h) (hs : dispatch env s r = some s1) : annotates s s1 := by
  cases r with
  | header h => exact absurd rfl (hr h)
  | result r => exact annotates_parse_result env r s s1 hs
  | forward f => exact annotates_parse_forward env f s s1 hs
  | parameter k p => exact annotates_parse_parameter env k p s s1 hs

/-! ## Dense node ids -/

theorem inserted_ids_append (a b : List SinkCall) :
    inserted_ids (a ++ b) = inserted_ids a ++ inserted_ids b := by
  simp [inserted_ids, List.filterMap_append]

theorem inserted_ids_annotation (extra : List SinkCall)
    (h : ∀ c ∈ extra, is_annotating c = true) : inserted_ids extra = [] := by
  induction extra with
  | nil => rfl
  | cons c l ih =>
    have hc := h c (List.mem_cons_self _ _)
    have hl := ih fun x hx => h x (List.mem_cons_of_mem _ hx)
    cases c <;> simp_all [inserted_ids, is_annotating]

theorem inserted_ids_annotates (s s1 : DDDG) (h : annotates s s1) :
    inserted_ids s1.calls = inserted_ids s.calls := by
  obtain ⟨extra, he, ha⟩ := h
  rw [he, inserted_ids_append, inserted_ids_annotation extra ha, List.append_nil]

theorem dispatch_num_of_instructions (env : Env) (s s1 : DDDG) (r : Record)
    (hr : ∀ h, r ≠ .header h) (hs : dispatch env s r = some s1) :
    s1.num_of_instructions = s.num_of_instructions := by
  cases r with
  | header h => exact absurd rfl (hr h)
  | result r =>
    obtain ⟨c, t, n, a, hf⟩ := parse_result_frame env r s s1 hs
    rw [hf]
  | forward f =>
    obtain ⟨node, src, _, _, _, _, he⟩ := parse_forward_eq env f s s1 hs
    rw [he]
  | parameter k p =>
    simp only [dispatch] at hs
    unfold parse_parameter at hs
    split_ifs at hs
    · simp only [Option.some.injEq] at hs
      rw [← hs]
    · obtain ⟨np, cf, cdf, hl⟩ := parse_parameter_latch_frame env k p s
      obtain ⟨u, t, n, l, w, hr⟩ := parse_parameter_reg_frame env k p
        (parse_parameter_latch env k p s)
      obtain ⟨c, pv, ps, pl, t2, n2, a, hm⟩ := parse_parameter_mem_frame env k p _ s1 hs
      rw [hm, hr, hl]

theorem run_dense (env : Env) (t : List Record) (s s1 : DDDG)
    (h : run env s t = some s1) :
    s1.num_of_instructions = s.num_of_instructions + count_headers t ∧
    inserted_ids s1.calls = inserted_ids s.calls ++
      (List.range (count_headers t)).map fun (i : Nat) => s.num_of_instructions + 1 + (i : Int) := by
  induction t generalizing s with
  | nil =>
    simp only [run, Option.some.injEq] at h
    subst h
    simp [count_headers]
  | cons r t ih =>
    simp only [run] at h
    split at h
    · simp at h
    · rename_i s2 h2
      obtain ⟨ih1, ih2⟩ := ih s2 h
      cases r with
      | header hd =>
        obtain ⟨r0, _, he⟩ := parse_instruction_line_eq env hd s s2 h2
        have hn : s2.num_of_instructions = s.num_of_instructions + 1 := by rw [he]
        have hc : inserted_ids s2.calls = inserted_ids s.calls ++ [s.num_of_instructions + 1] := by
          rw [he]
          simp [inserted_ids, List.filterMap_append]
        have hcount : count_headers (Record.header hd :: t) = count_headers t + 1 := by
          simp [count_headers]
        rw [hcount, ih1, ih2, hn, hc]
        refine ⟨by push_cast; ring, ?_⟩
        rw [List.range_succ_eq_map, List.append_assoc]
        congr 1
        simp only [List.map_cons, List.map_map, List.singleton_append, Nat.cast_zero, add_zero,
          List.cons.injEq, true_and]
        apply List.map_congr_left
        intro i _
        simp only [Function.comp, Nat.succ_eq_add_one]
        push_cast
        ring
      | result x =>
        have hr : ∀ h, Record.result x ≠ .header h := fun _ hh => by cases hh
        have hcount : count_headers (Record.result x :: t) = count_headers t := by
          simp [count_headers]
        rw [hcount, ih1, ih2, dispatch_num_of_instructions env s s2 _ hr h2,
          inserted_ids_annotates s s2 (annotates_dispatch env s s2 _ hr h2)]
        exact ⟨rfl, rfl⟩
      | forward x =>
        have hr : ∀ h, Record.forward x ≠ .header h := fun _ hh => by cases hh
        have hcount : count_headers (Record.forward x :: t) = count_headers t := by
          simp [count_headers]
        rw [hcount, ih1, ih2, dispatch_num_of_instructions env s s2 _ hr h2,
          inserted_ids_annotates s s2 (annotates_dispatch env s s2 _ hr h2)]
        exact ⟨rfl, rfl⟩
      | parameter k x =>
        have hr : ∀ h, Record.parameter k x ≠ .header h := fun _ hh => by cases hh
        have hcount : count_headers (Record.parameter k x :: t) = count_headers t := by
          simp [count_headers]
        rw [hcount, ih1, ih2, dispatch_num_of_instructions env s s2 _ hr h2,
          inserted_ids_annotates s s2 (annotates_dispatch env s s2 _ hr h2)]
        exact ⟨rfl, rfl⟩

/-- C5. After a trace with `N` instruction headers has been processed from the
initial state, `num_nodes` returns `N` and `insertNode` has been called
exactly `N` times, with the ids `0, 1, ..., N-1` in this order; a record of
any other kind leaves `num_of_instructions` unchanged. -/
theorem dense_node_ids (env : Env) (t : List Record) (s : DDDG)
    (h : run env DDDG.init t = some s) :
    s.num_nodes = count_headers t ∧
    inserted_ids s.calls = (List.range (count_headers t)).map Int.ofNat ∧
    (∀ (s0 s1 : DDDG) (r : Record), (∀ hd, r ≠ .header hd) →
      dispatch env s0 r = some s1 → s1.num_of_instructions = s0.num_of_instructions) := by
  obtain ⟨h1, h2⟩ := run_dense env t DDDG.init s h
  refine ⟨?_, ?_, ?_⟩
  · rw [DDDG.num_nodes, h1]
    simp [DDDG.init]
  · rw [h2]
    simp only [DDDG.init, inserted_ids, List.filterMap_nil, List.nil_append]
    apply List.map_congr_left
    intro i _
    simp
  · intro s0 s1 r hr hs
    exact dispatch_num_of_instructions env s0 s1 r hr hs

/-- Scenario S2 has two headers: two nodes, inserted with the ids `0` and `1`. -/
theorem dense_node_ids_witness :
    ∃ s, run sample_env DDDG.init S2_trace = some s ∧ s.num_nodes = 2 ∧
      inserted_ids s.calls = [0, 1] :=
  ⟨(run sample_env DDDG.init S2_trace).getD DDDG.init, by decide,
    (dense_node_ids sample_env S2_trace _ (by decide)).1,
    (dense_node_ids sample_env S2_trace _ (by decide)).2.1⟩

/-! ## Store then Load -/

theorem run_append (env : Env) (t1 t2 : List Record) (s : DDDG) :
    run env s (t1 ++ t2) = (run env s t1).bind fun s1 => run env s1 t2 := by
  induction t1 generalizing s with
  | nil => rfl
  | cons r t ih =>
    simp only [List.cons_append, run]
    cases dispatch env s r with
    | none => rfl
    | some s1 => exact ih s1

theorem run_append_some (env : Env) (t1 t2 : List Record) (s s2 : DDDG)
    (h : run env s (t1 ++ t2) = some s2) :
    ∃ s1, run env s t1 = some s1 ∧ run env s1 t2 = some s2 := by
  rw [run_append] at h
  cases h1 : run env s t1 with
  | none => simp [h1] at h
  | some s1 =>
    rw [h1] at h
    exact ⟨s1, rfl, h⟩

theorem run_singleton (env : Env) (r : Record) (s s1 : DDDG)
    (h : run env s [r] = some s1) : dispatch env s r = some s1 := by
  simp only [run] at h
  cases hd : dispatch env s r with
  | none => simp [hd] at h
  | some s2 =>
    simp only [hd, Option.some.injEq] at h
    rw [h]

theorem handle_post_write_dependency_new (addr : Addr) (s : DDDG) (w : Int)
    (hf : find addr s.address_last_written = some w)
    (hnew : ∀ e ∈ s.memory_edge_table, e.1 = w → e.2.sink_node ≠ s.num_of_instructions) :
    handle_post_write_dependency addr s =
      { s with
        memory_edge_table := s.memory_edge_table ++ [(w, ⟨s.num_of_instructions, -1⟩)]
        num_of_mem_dep := s.num_of_mem_dep + 1 } := by
  unfold handle_post_write_dependency
  simp only [hf]
  rw [if_neg]
  simp only [List.any_eq_true, List.mem_filter, decide_eq_true_eq, not_exists, not_and,
    and_imp]
  intro e he h1
  exact hnew e he h1

theorem parse_parameter_mem_load (env : Env) (p : ParameterLine) (s : DDDG) (node : Node)
    (hm : s.curr_microop = some env.LLVM_IR_Load) (hn : s.curr_node = some node) :
    parse_parameter_mem env 1 p s =
      some
        { handle_post_write_dependency (p.value.as_addr &&& env.ADDR_MASK)
            { s with
              parameter_value_per_inst :=
                s.parameter_value_per_inst ++ [p.value.as_addr &&& env.ADDR_MASK]
              parameter_size_per_inst :=
                s.parameter_size_per_inst ++ [(p.size % 2 ^ 32).toNat]
              parameter_label_per_inst := s.parameter_label_per_inst ++ [p.label] } with
          calls := s.calls ++
            [.set_array_label node.id p.label,
             .addArrayBaseAddress p.label (p.value.as_addr &&& env.ADDR_MASK)] } := by
  unfold parse_parameter_mem
  simp only [hm, true_or, if_true]
  unfold parse_parameter_mem_body
  simp only [hm, hn, true_and, if_true, getLast?_snoc, handle_post_write_dependency_calls]

theorem parse_parameter_mem_store (env : Env) (p : ParameterLine) (s s1 : DDDG)
    (hm : s.curr_microop = some env.LLVM_IR_Store)
    (hpv : s.parameter_value_per_inst = [])
    (h : parse_parameter_mem env 2 p s = some s1) :
    find (p.value.as_addr &&& env.ADDR_MASK) s1.address_last_written =
      some s.num_of_instructions := by
  unfold parse_parameter_mem at h
  simp only [hm, true_or, or_true, if_true] at h
  unfold parse_parameter_mem_body at h
  have h21 : ¬ ((2 : Int) = 1) := by decide
  simp only [hm, hpv, List.nil_append, List.head?_cons, and_true, if_true, h21, false_and,
    if_false] at h
  split at h
  · rename_i mem_address base_label node hv hl hn
    simp only [Option.some.injEq] at hv
    subst hv
    split at h
    · rename_i w hw
      split at h
      · simp at h
      · split_ifs at h
        · simp only [Option.map_some', Option.some.injEq] at h
          subst h
          simp only [handle_post_write_dependency_num, handle_post_write_dependency_addr]
          exact find_assign_self _ _ _ (by rw [hw]; simp)
        · simp only [Option.map_some', Option.some.injEq] at h
          subst h
          exact find_assign_self _ _ _ (by rw [hw]; simp)
    · rename_i hw
      simp only [Option.map_some', Option.some.injEq] at h
      subst h
      simp only [find_append, hw, find, if_true, Option.orElse]
  · simp at h

theorem Env.WellFormed.byte {env : Env} (h : env.WellFormed) (c : Int)
    (hc : c ∈ env.opcodes) : c % 256 = c :=
  Int.emod_eq_of_lt (h.2 c hc).1 (h.2 c hc).2

theorem Env.WellFormed.store_ne_phi {env : Env} (h : env.WellFormed) :
    env.LLVM_IR_Store ≠ env.LLVM_IR_PHI := fun e => by
  have := h.1
  simp [Env.opcodes, e] at this

theorem Env.WellFormed.load_ne_phi {env : Env} (h : env.WellFormed) :
    env.LLVM_IR_Load ≠ env.LLVM_IR_PHI := fun e => by
  have := h.1
  simp [Env.opcodes, e] at this

theorem Env.WellFormed.call_ne_phi {env : Env} (h : env.WellFormed) :
    env.LLVM_IR_Call ≠ env.LLVM_IR_PHI := fun e => by
  have := h.1
  simp [Env.opcodes, e] at this

theorem Env.WellFormed.call_ne_store {env : Env} (h : env.WellFormed) :
    env.LLVM_IR_Call ≠ env.LLVM_IR_Store := fun e => by
  have := h.1
  simp [Env.opcodes, e] at this

theorem Env.WellFormed.call_ne_load {env : Env} (h : env.WellFormed) :
    env.LLVM_IR_Call ≠ env.LLVM_IR_Load := fun e => by
  have := h.1
  simp [Env.opcodes, e] at this

theorem Env.WellFormed.phi_ne_load {env : Env} (h : env.WellFormed) :
    env.LLVM_IR_PHI ≠ env.LLVM_IR_Load := fun e => h.load_ne_phi e.symm

/-! ## Call argument forwarding -/

theorem scoped_key_ne_empty (a b : String) : a ++ "-" ++ b ≠ "" := by
  intro h
  have := congrArg String.length h
  simp only [String.length_append] at this
  have h1 : "-".length = 1 := by decide
  rw [h1] at this
  have h0 : "".length = 0 := by decide
  rw [h0] at this
  omega

/-- A forward record whose assertions hold is processed. -/
theorem parse_forward_some (env : Env) (f : ForwardLine) (s : DDDG) (node : Node) (src : Int)
    (hreg : f.is_reg ≠ 0) (hnode : s.curr_node = some node)
    (hop : (env.is_call_op node.microop || env.is_dma_op node.microop ||
      env.is_trig_op node.microop) = true)
    (hsrc : s.last_call_source = some src) :
    ∃ s1, parse_forward env f s = some s1 := by
  unfold parse_forward
  rw [if_neg hreg]
  simp only [hnode, hop, Bool.not_true, Bool.false_eq_true, if_false]
  split_ifs
  · simp only [hsrc]
    exact ⟨_, rfl⟩
  · simp only [hsrc]
    exact ⟨_, rfl⟩

/-- C6. At a Call node `c` of a reachable state, in dynamic function `F`, a
register parameter with label `a` followed by a forward record with label `p`
is processed (the assertions of `parse_forward` holding) with this effect:
`addCallArgumentMapping("<callee_dynamic_function>-p", "F-a")` is the one sink
call of the forward record, `unique_reg_in_caller_func` is cleared, and
`register_last_written["<callee_dynamic_function>-p"]` becomes the last writer
`w` of `F-a` when there is one, and the Call node `c` itself otherwise. -/
theorem call_argument_forwarding (env : Env) (t : List Record) (s0 : DDDG) (k : Int)
    (p : ParameterLine) (f : ForwardLine) (node : Node) (hwf : env.WellFormed)
    (hreach : run env DDDG.init t = some s0)
    (hcall : s0.curr_microop = some env.LLVM_IR_Call)
    (hnode : s0.curr_node = some node)
    (hreg : p.is_reg ≠ 0) (hfreg : f.is_reg ≠ 0)
    (hop : (env.is_call_op node.microop || env.is_dma_op node.microop ||
      env.is_trig_op node.microop) = true) :
    ∃ s1 s2, parse_parameter env k p s0 = some s1 ∧ parse_forward env f s1 = some s2 ∧
      s2.calls = s1.calls ++
        [.addCallArgumentMapping (s1.callee_dynamic_function ++ "-" ++ f.label)
          (s0.curr_dynamic_function ++ "-" ++ p.label)] ∧
      s2.unique_reg_in_caller_func = "" ∧
      find (s1.callee_dynamic_function ++ "-" ++ f.label) s2.register_last_written =
        some
          (match find (s0.curr_dynamic_function ++ "-" ++ p.label)
              s0.register_last_written with
            | some w => w
            | none => s0.num_of_instructions) := by
  have hCP : env.LLVM_IR_Call ≠ env.LLVM_IR_PHI := hwf.call_ne_phi
  have hCS : env.LLVM_IR_Call ≠ env.LLVM_IR_Store := hwf.call_ne_store
  have hCL : env.LLVM_IR_Call ≠ env.LLVM_IR_Load := hwf.call_ne_load
  have hI := Inv_run env t DDDG.init s0 Inv_init hreach
  have hnotS : s0.curr_microop ≠ some env.LLVM_IR_Store := by
    rw [hcall]
    exact fun h => hCS (Option.some.inj h)
  obtain ⟨s1, h1⟩ := parse_parameter_returns env k p s0 node hnode hnotS
  -- the state after the parameter
  have hs1 : s1.unique_reg_in_caller_func = s0.curr_dynamic_function ++ "-" ++ p.label ∧
      s1.register_last_written = s0.register_last_written ∧
      s1.num_of_instructions = s0.num_of_instructions ∧
      s1.curr_node = some node ∧
      s1.last_call_source = some
        (match find (s0.curr_dynamic_function ++ "-" ++ p.label)
            s0.register_last_written with
          | some w => w
          | none => -1) := by
    have h1b := h1
    unfold parse_parameter at h1b
    rw [if_neg (fun hc => hCP (Option.some.inj (hcall.symm.trans hc.1)))] at h1b
    obtain ⟨np, cf, cdf, hl⟩ := parse_parameter_latch_frame env k p s0
    obtain ⟨c, pv, ps, pl, t2, n2, a, hm⟩ := parse_parameter_mem_frame env k p _ s1 h1b
    cases hw : find (s0.curr_dynamic_function ++ "-" ++ p.label) s0.register_last_written with
    | some w =>
      have hr := parse_parameter_reg_found env k p (parse_parameter_latch env k p s0) w hreg
        (by rw [hl]; exact hw)
      rw [hm, hr, hl]
      simp only [hcall, if_true]
      exact ⟨trivial, trivial, trivial, hnode, trivial⟩
    | none =>
      have hr := parse_parameter_reg_missing env k p (parse_parameter_latch env k p s0) hreg
        (by rw [hl]; exact hw)
      rw [hm, hr, hl]
      have hne : ¬ ((some env.LLVM_IR_Call = some env.LLVM_IR_Store ∧ k = 2) ∨
          (some env.LLVM_IR_Call = some env.LLVM_IR_Load ∧ k = 1)) := by
        rintro (⟨h, _⟩ | ⟨h, _⟩)
        · exact hCS (Option.some.inj h)
        · exact hCL (Option.some.inj h)
      simp only [hcall, if_true, hne, if_false]
      exact ⟨trivial, trivial, trivial, hnode, trivial⟩
  obtain ⟨hu, hrlw, hn, hnode1, hlcs⟩ := hs1
  obtain ⟨s2, h2⟩ := parse_forward_some env f s1 node _ hfreg hnode1 hop hlcs
  obtain ⟨node2, src, _, _, _, hsrc, he⟩ := parse_forward_eq env f s1 s2 h2
  refine ⟨s1, s2, h1, h2, ?_, ?_, ?_⟩
  · rw [he]
    simp only [hu, ne_eq, scoped_key_ne_empty, not_false_eq_true, if_true]
  · rw [he]
  · rw [he]
    simp only [find_upsert_self, Option.some.injEq]
    rw [hlcs] at hsrc
    have hsrc := (Option.some.inj hsrc).symm
    rw [hsrc, hn]
    cases hw : find (s0.curr_dynamic_function ++ "-" ++ p.label) s0.register_last_written with
    | some w =>
      have := (hI.2.1.1 _ w hw).1
      simp only
      rw [if_pos (by omega)]
    | none => simp

/-- Scenario S4: the forward record maps `foo-0-%p0` to `caller-0-%r5` and
makes node `0`, the definer of `%r5`, the last writer of `foo-0-%p0`. -/
theorem call_argument_forwarding_witness :
    ∃ s1 s2, parse_parameter sample_env 1 S4_argument S4_state = some s1 ∧
      parse_forward sample_env S4_forward s1 = some s2 ∧
      s2.calls = s1.calls ++ [.addCallArgumentMapping "foo-0-%p0" "caller-0-%r5"] ∧
      find "foo-0-%p0" s2.register_last_written = some 0 := by
  obtain ⟨s1, s2, h1, h2, h3, _, h5⟩ :=
    call_argument_forwarding sample_env S4_start S4_state 1 S4_argument S4_forward ⟨1, 49⟩
      (by decide) (by decide) (by decide) (by decide) (by decide) (by decide) (by decide)
  have e1 : parse_parameter sample_env 1 S4_argument S4_state =
      some ((parse_parameter sample_env 1 S4_argument S4_state).getD DDDG.init) := by decide
  have hs1 : s1 = (parse_parameter sample_env 1 S4_argument S4_state).getD DDDG.init :=
    Option.some.inj (h1.symm.trans e1)
  have hc : s1.callee_dynamic_function = "foo-0" := by rw [hs1]; decide
  rw [hc] at h3 h5
  exact ⟨s1, s2, h1, h2, h3, h5⟩

/-! ## Recursive entry -/

/-- The resolution of a header that re-enters the function on top of the
stack right after a Call to it. -/
theorem resolve_active_recursive (env : Env) (h : InstructionLine) (s : DDDG)
    (top : String) (rest : List String) (pc : Option Nat)
    (hstack : s.active_method = top :: rest)
    (htop : sscanf_top top = (some h.curr_static_function, pc))
    (hprev : s.curr_microop = some env.LLVM_IR_Call)
    (hcallee : s.callee_function = h.curr_static_function) :
    resolve_active env h s.curr_microop s =
      (find h.curr_static_function s.function_counter).map fun c =>
        { func_invocation_count := c + 1
          curr_func_found := true
          function_counter := assign h.curr_static_function (c + 1) s.function_counter
          curr_dynamic_function := h.curr_static_function ++ "-" ++ Nat.repr (c + 1)
          active_method :=
            if h.microop = env.LLVM_IR_Ret then top :: rest
            else (h.curr_static_function ++ "-" ++ Nat.repr (c + 1)) :: top :: rest } := by
  unfold resolve_active
  simp only [hstack, htop, hprev, hcallee, and_self, if_true]
  cases find h.curr_static_function s.function_counter with
  | none => rfl
  | some c =>
    simp only [Option.map_some']
    split_ifs <;> rfl

/-- C7. When a header with static function `f` is processed while the top of
the active-function stack parses to the static name `f`, the instruction
before it was a Call (`curr_microop`, which the header shifts into
`prev_microop`, is Call) and `callee_function` equals `f`, then the invocation
counter of `f` goes from its value `c` to `c + 1`, `curr_dynamic_function`
becomes `"f-<c+1>"`, that id is pushed on the stack (and popped again at once
when the header itself is a Ret), and `set_dynamic_invocation` records
`c + 1` on the new node.  The header is processed whenever `f` has a counter.
For the headers `foo`, `foo` (Call `foo`), `foo` of `S6_start` and `S6_entry`
the third header gets the index 1 and the id `foo-1`. -/
theorem recursive_entry (env : Env) (h : InstructionLine) (s : DDDG)
    (top : String) (rest : List String) (pc : Option Nat)
    (hstack : s.active_method = top :: rest)
    (htop : sscanf_top top = (some h.curr_static_function, pc))
    (hprev : s.curr_microop = some env.LLVM_IR_Call)
    (hcallee : s.callee_function = h.curr_static_function) :
    (∀ s1, parse_instruction_line env h s = some s1 →
      ∃ c, find h.curr_static_function s.function_counter = some c ∧
        find h.curr_static_function s1.function_counter = some (c + 1) ∧
        s1.curr_dynamic_function = h.curr_static_function ++ "-" ++ Nat.repr (c + 1) ∧
        s1.active_method =
          (if h.microop = env.LLVM_IR_Ret then
            ((h.curr_static_function ++ "-" ++ Nat.repr (c + 1)) :: s.active_method).tail
          else (h.curr_static_function ++ "-" ++ Nat.repr (c + 1)) :: s.active_method) ∧
        s1.calls.getLast? =
          some (.set_dynamic_invocation (s.num_of_instructions + 1) (c + 1)) ∧
        s1.prev_microop = some env.LLVM_IR_Call) ∧
    (∀ c, find h.curr_static_function s.function_counter = some c →
      ∃ s1, parse_instruction_line env h s = some s1) := by
  have hr := resolve_active_recursive env h s top rest pc hstack htop hprev hcallee
  refine ⟨?_, ?_⟩
  · intro s1 hs
    obtain ⟨r0, hr0, he⟩ := parse_instruction_line_eq env h s s1 hs
    rw [hr] at hr0
    cases hc : find h.curr_static_function s.function_counter with
    | none => simp [hc] at hr0
    | some c =>
      simp only [hc, Option.map_some', Option.some.injEq] at hr0
      subst hr0
      refine ⟨c, rfl, ?_, ?_, ?_, ?_, ?_⟩
      · rw [he]
        simp only [resolve_new, if_true]
        exact find_assign_self _ _ _ (by rw [hc]; simp)
      · rw [he]
        simp only [resolve_new, if_true]
      · rw [he, hstack]
        simp only [resolve_new, if_true, List.tail_cons]
      · rw [he]
        simp [resolve_new, List.getLast?_append]
      · rw [he]
        exact hprev
  · intro c hc
    unfold parse_instruction_line
    simp only [hr, hc, Option.map_some']
    exact ⟨_, rfl⟩

/-- Scenario S6: for the headers `foo`, `foo` (Call `foo`), `foo` the third
header gets the invocation index `1` and the dynamic id `foo-1`. -/
theorem recursive_entry_witness :
    ∃ s1, parse_instruction_line sample_env S6_entry S6_state = some s1 ∧
      s1.curr_dynamic_function = "foo-1" ∧
      s1.active_method = ["foo-1", "foo-0"] ∧
      s1.calls.getLast? = some (.set_dynamic_invocation 2 1) ∧
      find "foo" s1.function_counter = some 1 := by
  have h := recursive_entry sample_env S6_entry S6_state "foo-0" [] (some 0) (by decide)
    (by decide) (by decide) (by decide)
  obtain ⟨s1, hs1⟩ := h.2 0 (by decide)
  obtain ⟨c, hc, h1, h2, h3, h4, _⟩ := h.1 s1 hs1
  have hc0 : c = 0 := by
    have e : find S6_entry.curr_static_function S6_state.function_counter = some 0 := by decide
    exact (Option.some.inj (e.symm.trans hc)).symm
  subst hc0
  exact ⟨s1, hs1, h2.trans (by decide), h3.trans (by decide), h4.trans (by decide), h1⟩

/-! ## The Phi filter -/

/-- C9. When `curr_microop` is Phi and the `prev_bbid` of the record differs
from `prev_bblock`, `parse_parameter` returns the builder state it was given:
no member changes and no sink call is made (the call log is part of the
state).  Consequently the trace from which all such records are deleted is
processed to the same final state, in particular to the same edge tables,
from any state. -/
theorem phi_filter_noop (env : Env) (s : DDDG) (k : Int) (p : ParameterLine)
    (hphi : s.curr_microop = some env.LLVM_IR_PHI) (hbb : p.prev_bbid ≠ s.prev_bblock) :
    parse_parameter env k p s = some s ∧
    (∀ (s0 : DDDG) (t : List Record), run env s0 (drop_filtered env s0 t) = run env s0 t) := by
  refine ⟨?_, ?_⟩
  · unfold parse_parameter
    rw [if_pos ⟨hphi, fun h => hbb h.symm⟩]
  · intro s0 t
    induction t generalizing s0 with
    | nil => rfl
    | cons r rs ih =>
      unfold drop_filtered
      by_cases hf : is_filtered env s0 r = true
      · rw [if_pos hf, ih s0]
        cases r with
        | parameter k2 p2 =>
          simp only [is_filtered, decide_eq_true_eq] at hf
          simp only [run, dispatch]
          unfold parse_parameter
          rw [if_pos hf]
        | header h => simp [is_filtered] at hf
        | result x => simp [is_filtered] at hf
        | forward x => simp [is_filtered] at hf
      · rw [if_neg hf]
        cases hd : dispatch env s0 r with
        | none => rfl
        | some s1 =>
          simp only [run, hd]
          exact ih s1

/-- Scenario S3: the operand from `bbB` leaves the state as it is, and the
trace without it is processed to the same state. -/
theorem phi_filter_noop_witness :
    parse_parameter sample_env 2 S3_not_taken S3_state = some S3_state ∧
    drop_filtered sample_env S3_state [.parameter 2 S3_not_taken, .parameter 1 S3_taken] =
      [.parameter 1 S3_taken] ∧
    run sample_env S3_state [.parameter 1 S3_taken] =
      run sample_env S3_state [.parameter 2 S3_not_taken, .parameter 1 S3_taken] :=
  ⟨(phi_filter_noop sample_env S3_state 2 S3_not_taken (by decide) (by decide)).1,
    by decide,
    by
      have h := (phi_filter_noop sample_env S3_state 2 S3_not_taken (by decide) (by decide)).2
        S3_state [.parameter 2 S3_not_taken, .parameter 1 S3_taken]
      have e : drop_filtered sample_env S3_state
          [.parameter 2 S3_not_taken, .parameter 1 S3_taken] = [.parameter 1 S3_taken] := by
        decide
      rw [e] at h
      exact h⟩

/-! ## Phi predecessor selection -/

/-- What a record other than a header leaves alone. -/
theorem dispatch_keeps (env : Env) (s s1 : DDDG) (r : Record)
    (hr : ∀ h, r ≠ .header h) (hs : dispatch env s r = some s1) :
    s1.curr_microop = s.curr_microop ∧ s1.prev_bblock = s.prev_bblock ∧
    s1.curr_bblock = s.curr_bblock ∧ s1.curr_node = s.curr_node ∧
    s1.curr_dynamic_function = s.curr_dynamic_function ∧
    s1.function_counter = s.function_counter ∧ s1.active_method = s.active_method := by
  cases r with
  | header h => exact absurd rfl (hr h)
  | result r =>
    obtain ⟨c, t, n, a, hf⟩ := parse_result_frame env r s s1 hs
    rw [hf]
    exact ⟨rfl, rfl, rfl, rfl, rfl, rfl, rfl⟩
  | forward f =>
    obtain ⟨node, src, _, _, _, _, he⟩ := parse_forward_eq env f s s1 hs
    rw [he]
    exact ⟨rfl, rfl, rfl, rfl, rfl, rfl, rfl⟩
  | parameter k p =>
    simp only [dispatch] at hs
    unfold parse_parameter at hs
    split_ifs at hs
    · simp only [Option.some.injEq] at hs
      rw [← hs]
      exact ⟨rfl, rfl, rfl, rfl, rfl, rfl, rfl⟩
    · obtain ⟨np, cf, cdf, hl⟩ := parse_parameter_latch_frame env k p s
      obtain ⟨u, t, n, l, w, hr⟩ := parse_parameter_reg_frame env k p
        (parse_parameter_latch env k p s)
      obtain ⟨c, pv, ps, pl, t2, n2, a, hm⟩ := parse_parameter_mem_frame env k p _ s1 hs
      rw [hm, hr, hl]
      exact ⟨rfl, rfl, rfl, rfl, rfl, rfl, rfl⟩

theorem digitChar_ne_dash (k : Nat) (hk : k < 10) : Nat.digitChar k ≠ '-' := by
  interval_cases k <;> decide

theorem digitChar_value (k : Nat) (hk : k < 10) :
    (Nat.digitChar k).toNat - '0'.toNat = k := by
  interval_cases k <;> decide

theorem toDigitsCore_no_dash (fuel n : Nat) (ds : List Char) (h : ∀ c ∈ ds, c ≠ '-') :
    ∀ c ∈ Nat.toDigitsCore 10 fuel n ds, c ≠ '-' := by
  induction fuel generalizing n ds with
  | zero => simpa [Nat.toDigitsCore] using h
  | succ fuel ih =>
    have hd : ∀ c ∈ Nat.digitChar (n % 10) :: ds, c ≠ '-' := by
      intro c hc
      rcases List.mem_cons.1 hc with hc | hc
      · rw [hc]
        exact digitChar_ne_dash _ (Nat.mod_lt _ (by norm_num))
      · exact h c hc
    simp only [Nat.toDigitsCore]
    split_ifs
    · exact hd
    · exact ih _ _ hd

theorem repr_no_dash (n : Nat) : '-' ∉ (Nat.repr n).data := by
  intro h
  exact toDigitsCore_no_dash (n + 1) n [] (by simp) '-' h rfl

theorem toDigitsCore_value (fuel n : Nat) (ds : List Char) (h : n < fuel) :
    (Nat.toDigitsCore 10 fuel n ds).foldl (fun v c => 10 * v + (c.toNat - '0'.toNat)) 0 =
      ds.foldl (fun v c => 10 * v + (c.toNat - '0'.toNat)) n := by
  induction fuel generalizing n ds with
  | zero => omega
  | succ fuel ih =>
    simp only [Nat.toDigitsCore]
    split_ifs with h0
    · simp only [List.foldl_cons, Nat.mul_zero, Nat.zero_add]
      rw [digitChar_value _ (Nat.mod_lt _ (by norm_num))]
      congr 1
      omega
    · rw [ih (n / 10) _ (by omega)]
      simp only [List.foldl_cons]
      rw [digitChar_value _ (Nat.mod_lt _ (by norm_num))]
      congr 1
      omega

theorem digits_value_repr (n : Nat) : digits_value (Nat.repr n).data = n :=
  toDigitsCore_value (n + 1) n [] (Nat.lt_succ_self n)

theorem repr_injective (a b : Nat) (h : Nat.repr a = Nat.repr b) : a = b := by
  rw [← digits_value_repr a, ← digits_value_repr b, h]

theorem split_first_dash (a b a2 b2 : List Char) (ha : '-' ∉ a) (ha2 : '-' ∉ a2)
    (h : a ++ '-' :: b = a2 ++ '-' :: b2) : a = a2 ∧ b = b2 := by
  induction a generalizing a2 with
  | nil =>
    cases a2 with
    | nil => simpa using h
    | cons c l =>
      simp only [List.nil_append, List.cons_append, List.cons.injEq] at h
      exact absurd (List.mem_cons.2 (Or.inl h.1)) ha2
  | cons x a ih =>
    cases a2 with
    | nil =>
      simp only [List.nil_append, List.cons_append, List.cons.injEq] at h
      exact absurd (List.mem_cons.2 (Or.inl h.1.symm)) ha
    | cons y l =>
      simp only [List.cons_append, List.cons.injEq] at h
      obtain ⟨e1, e2⟩ := ih l (fun hm => ha (List.mem_cons_of_mem _ hm))
        (fun hm => ha2 (List.mem_cons_of_mem _ hm)) h.2
      exact ⟨by rw [h.1, e1], e2⟩

theorem dash_data : ("-" : String).data = ['-'] := rfl

/-- A scoped key determines the dynamic function id and the label it was
built from. -/
theorem scoped_key_injective (F G l r : String) (hF : is_dynamic_id F) (hG : is_dynamic_id G)
    (h : F ++ "-" ++ l = G ++ "-" ++ r) : F = G ∧ l = r := by
  obtain ⟨n1, c1, h1, rfl⟩ := hF
  obtain ⟨n2, c2, h2, rfl⟩ := hG
  have hd := congrArg String.data h
  simp only [String.data_append, dash_data, List.append_assoc, List.singleton_append] at hd
  obtain ⟨e1, e2⟩ := split_first_dash _ _ _ _ h1 h2 hd
  obtain ⟨e3, e4⟩ := split_first_dash _ _ _ _ (repr_no_dash c1) (repr_no_dash c2) e2
  refine ⟨?_, String.ext e4⟩
  rw [String.ext e1, String.ext e3]

/-- Distinct pairs of a static name without `-` and an invocation count give
distinct scoped keys for the same label. -/
theorem scoped_key_distinct (n1 n2 : String) (c1 c2 : Nat) (l : String)
    (h1 : '-' ∉ n1.data) (h2 : '-' ∉ n2.data) (hne : (n1, c1) ≠ (n2, c2)) :
    n1 ++ "-" ++ Nat.repr c1 ++ "-" ++ l ≠ n2 ++ "-" ++ Nat.repr c2 ++ "-" ++ l := by
  intro h
  obtain ⟨e, _⟩ := scoped_key_injective _ _ l l ⟨n1, c1, h1, rfl⟩ ⟨n2, c2, h2, rfl⟩ h
  have hd := congrArg String.data e
  simp only [String.data_append, dash_data, List.append_assoc, List.singleton_append] at hd
  obtain ⟨e1, e2⟩ := split_first_dash _ _ _ _ h1 h2 hd
  exact hne (by rw [String.ext e1, repr_injective c1 c2 (String.ext e2)])

/-! ## Scope disjointness -/

theorem resolve_active_ids (env : Env) (h : InstructionLine) (pm : Option Int) (s : DDDG)
    (r0 : Resolution) (hname : '-' ∉ h.curr_static_function.data)
    (hst : ∀ x ∈ s.active_method, is_dynamic_id x)
    (hr : resolve_active env h pm s = some r0) :
    (r0.curr_func_found = true → is_dynamic_id r0.curr_dynamic_function) ∧
    ∀ x ∈ r0.active_method, is_dynamic_id x := by
  unfold resolve_active at hr
  cases hs : s.active_method with
  | nil =>
    simp only [hs, Option.some.injEq] at hr
    subst hr
    simp
  | cons top rest =>
    rw [hs] at hst
    have htop : is_dynamic_id top := hst top (List.mem_cons_self _ _)
    have hrest : ∀ x ∈ rest, is_dynamic_id x := fun x hx => hst x (List.mem_cons_of_mem _ hx)
    have tail_ok : ∀ (r : Resolution),
        ((r.curr_func_found = true → is_dynamic_id r.curr_dynamic_function) ∧
          ∀ x ∈ r.active_method, is_dynamic_id x) →
        ((if h.microop = env.LLVM_IR_Ret then
            { r with active_method := r.active_method.tail } else r).curr_func_found = true →
          is_dynamic_id (if h.microop = env.LLVM_IR_Ret then
            { r with active_method := r.active_method.tail } else r).curr_dynamic_function) ∧
        ∀ x ∈ (if h.microop = env.LLVM_IR_Ret then
            { r with active_method := r.active_method.tail } else r).active_method,
          is_dynamic_id x := by
      intro r hr
      split_ifs
      · exact ⟨hr.1, fun x hx => hr.2 x (List.mem_of_mem_tail hx)⟩
      · exact hr
    simp only [hs] at hr
    split at hr
    · simp at hr
    · rename_i ps pc hsc
      obtain ⟨r1, hr1, hg⟩ := Option.map_eq_some'.1 hr
      rw [← hg]
      apply tail_ok
      split_ifs at hr1 with h1 h2
      · cases hf : find h.curr_static_function s.function_counter with
        | none => simp [hf] at hr1
        | some c =>
          simp only [hf, Option.some.injEq] at hr1
          rw [← hr1]
          refine ⟨fun _ => ⟨_, c + 1, hname, rfl⟩, ?_⟩
          intro x hx
          rcases List.mem_cons.1 hx with hx | hx
          · rw [hx]
            exact ⟨_, c + 1, hname, rfl⟩
          · exact hst x hx
      · cases pc with
        | none => simp at hr1
        | some c =>
          simp only [Option.some.injEq] at hr1
          rw [← hr1]
          exact ⟨fun _ => htop, hst⟩
      · simp only [Option.some.injEq] at hr1
        rw [← hr1]
        exact ⟨fun hc => absurd hc (by simp), hst⟩

theorem resolve_new_ids (h : InstructionLine) (r0 : Resolution)
    (hname : '-' ∉ h.curr_static_function.data)
    (hr : (r0.curr_func_found = true → is_dynamic_id r0.curr_dynamic_function) ∧
      ∀ x ∈ r0.active_method, is_dynamic_id x) :
    is_dynamic_id (resolve_new h r0).curr_dynamic_function ∧
    ∀ x ∈ (resolve_new h r0).active_method, is_dynamic_id x := by
  unfold resolve_new
  split_ifs with hf
  · exact ⟨hr.1 hf, hr.2⟩
  · refine ⟨⟨_, _, hname, rfl⟩, ?_⟩
    intro x hx
    rcases List.mem_cons.1 hx with hx | hx
    · rw [hx]
      exact ⟨_, _, hname, rfl⟩
    · exact hr.2 x hx

theorem ids_ok_parse_instruction_line (env : Env) (h : InstructionLine) (s s1 : DDDG)
    (hname : '-' ∉ h.curr_static_function.data) (hJ : ids_ok s)
    (hs : parse_instruction_line env h s = some s1) : ids_ok s1 := by
  obtain ⟨r0, hr0, he⟩ := parse_instruction_line_eq env h s s1 hs
  have := resolve_new_ids h r0 hname (resolve_active_ids env h _ s r0 hname hJ.2 hr0)
  rw [he]
  exact ⟨fun _ => this.1, this.2⟩

/-- The register table after a parameter: unchanged, or extended by the
self-definition of a Store pointer or Load address. -/
theorem parse_parameter_register_last_written (env : Env) (k : Int) (p : ParameterLine)
    (s s1 : DDDG) (h : parse_parameter env k p s = some s1) :
    s1.register_last_written = s.register_last_written ∨
    (p.is_reg ≠ 0 ∧
      ((s.curr_microop = some env.LLVM_IR_Store ∧ k = 2) ∨
        (s.curr_microop = some env.LLVM_IR_Load ∧ k = 1)) ∧
      s1.register_last_written =
        upsert (s.curr_dynamic_function ++ "-" ++ p.label) s.num_of_instructions
          s.register_last_written) := by
  unfold parse_parameter at h
  split_ifs at h
  · simp only [Option.some.injEq] at h
    rw [← h]
    exact Or.inl rfl
  · obtain ⟨np, cf, cdf, hl⟩ := parse_parameter_latch_frame env k p s
    obtain ⟨c, pv, ps, pl, t, n, a, hm⟩ := parse_parameter_mem_frame env k p _ s1 h
    by_cases hreg : p.is_reg = 0
    · left
      rw [hm]
      unfold parse_parameter_reg
      rw [if_pos hreg, hl]
    · cases hw : find (s.curr_dynamic_function ++ "-" ++ p.label) s.register_last_written with
      | some w =>
        left
        rw [hm, parse_parameter_reg_found env k p _ w hreg (by rw [hl]; exact hw), hl]
      | none =>
        rw [hm, parse_parameter_reg_missing env k p _ hreg (by rw [hl]; exact hw), hl]
        dsimp only
        split_ifs with hc
        · exact Or.inr ⟨hreg, hc, rfl⟩
        · exact Or.inl rfl

/-- The register edges after a parameter whose scoped register has no last
writer. -/
theorem parse_parameter_no_writer (env : Env) (k : Int) (p : ParameterLine)
    (s s1 : DDDG)
    (hw : find (s.curr_dynamic_function ++ "-" ++ p.label) s.register_last_written = none)
    (h : parse_parameter env k p s = some s1) :
    s1.register_edge_table = s.register_edge_table ∧
    s1.num_of_reg_dep = s.num_of_reg_dep := by
  unfold parse_parameter at h
  split_ifs at h
  · simp only [Option.some.injEq] at h
    rw [← h]
    exact ⟨rfl, rfl⟩
  · obtain ⟨np, cf, cdf, hl⟩ := parse_parameter_latch_frame env k p s
    obtain ⟨c, pv, ps, pl, t, n, a, hm⟩ := parse_parameter_mem_frame env k p _ s1 h
    by_cases hreg : p.is_reg = 0
    · rw [hm]
      unfold parse_parameter_reg
      rw [if_pos hreg, hl]
      exact ⟨rfl, rfl⟩
    · rw [hm, parse_parameter_reg_missing env k p _ hreg (by rw [hl]; exact hw), hl]
      exact ⟨rfl, rfl⟩

/-- While the premises hold along the trace, the key `G-r` gets no entry. -/
theorem run_no_entry (env : Env) (G r : String) (hG : is_dynamic_id G) (t : List Record)
    (s s1 : DDDG) (hI : Inv s) (hJ : ids_ok s)
    (hnone : find (G ++ "-" ++ r) s.register_last_written = none)
    (hdef : along env (defined_elsewhere G r) s t = true)
    (hself : along env (no_self_definition env G r) s t = true)
    (hrun : run env s t = some s1) :
    find (G ++ "-" ++ r) s1.register_last_written = none := by
  induction t generalizing s with
  | nil =>
    simp only [run, Option.some.injEq] at hrun
    rw [← hrun]
    exact hnone
  | cons x t ih =>
    simp only [run] at hrun
    cases hd : dispatch env s x with
    | none => simp [hd] at hrun
    | some s2 =>
      simp only [hd] at hrun
      simp only [along, hd, Bool.and_eq_true] at hdef hself
      have hI2 := Inv_dispatch env s s2 x hI hd
      refine ih s2 hI2 ?_ ?_ hdef.2 hself.2 hrun
      · -- the ids stay well formed
        cases x with
        | header h =>
          have hn := hdef.1
          simp only [defined_elsewhere, decide_eq_true_eq] at hn
          exact ids_ok_parse_instruction_line env h s s2 hn hJ hd
        | result y =>
          obtain ⟨_, _, _, h4, h5, _, h7⟩ := dispatch_keeps env s s2 _
            (fun _ hh => by cases hh) hd
          unfold ids_ok
          rw [h4, h5, h7]
          exact hJ
        | forward y =>
          obtain ⟨_, _, _, h4, h5, _, h7⟩ := dispatch_keeps env s s2 _
            (fun _ hh => by cases hh) hd
          unfold ids_ok
          rw [h4, h5, h7]
          exact hJ
        | parameter k y =>
          obtain ⟨_, _, _, h4, h5, _, h7⟩ := dispatch_keeps env s s2 _
            (fun _ hh => by cases hh) hd
          unfold ids_ok
          rw [h4, h5, h7]
          exact hJ
      · -- the key stays without entry
        cases x with
        | header h =>
          obtain ⟨r0, _, he⟩ := parse_instruction_line_eq env h s s2 hd
          rw [he]
          exact hnone
        | result y =>
          obtain ⟨node, c, hnode, _, _⟩ := parse_result_cases env y s s2 hd
          obtain ⟨c, t2, n, a, hf⟩ := parse_result_frame env y s s2 hd
          have hF := hJ.1 (by rw [hnode]; simp)
          have hp := hdef.1
          simp only [defined_elsewhere, decide_eq_true_eq] at hp
          rw [hf]
          dsimp only
          rw [find_upsert_other _ _ _ _ ?_]
          · exact hnone
          · intro e
            obtain ⟨e1, e2⟩ := scoped_key_injective _ _ _ _ hG hF e
            exact hp e1.symm e2.symm
        | forward y =>
          obtain ⟨node, src, _, _, _, _, he⟩ := parse_forward_eq env y s s2 hd
          have hp := hdef.1
          simp only [defined_elsewhere, decide_eq_true_eq] at hp
          rw [he]
          dsimp only
          rw [find_upsert_other _ _ _ _ (fun e => hp e.symm)]
          exact hnone
        | parameter k y =>
          simp only [dispatch] at hd
          rcases parse_parameter_register_last_written env k y s s2 hd with e | ⟨hreg, hc, e⟩
          · rw [e]
            exact hnone
          · have hnode : s.curr_node ≠ none := by
              have hd2 := hd
              unfold parse_parameter at hd2
              split_ifs at hd2 with hflt
              · intro hcn
                have := hI.1.2.1 hcn
                rw [this] at hc
                simp at hc
              · obtain ⟨np, cf, cdf, hl⟩ := parse_parameter_latch_frame env k y s
                obtain ⟨u, t2, n, l, w, hr⟩ := parse_parameter_reg_frame env k y
                  (parse_parameter_latch env k y s)
                have := parse_parameter_mem_node env k y _ s2
                  (by rw [hr, hl]; exact hI.1.2.1) hd2
                rw [hr, hl] at this
                exact this
            have hF := hJ.1 hnode
            have hp := hself.1
            simp only [no_self_definition, decide_eq_true_eq] at hp
            rw [e, find_upsert_other _ _ _ _ ?_]
            · exact hnone
            · intro e2
              obtain ⟨e3, e4⟩ := scoped_key_injective _ _ _ _ hG hF e2
              exact hp hc hreg e3.symm e4.symm

theorem ids_ok_init : ids_ok DDDG.init :=
  ⟨fun h => absurd rfl h, fun x hx => absurd hx (by simp [DDDG.init])⟩

/-- C8, as amended. For static function names without `-`, the scoped keys
`"<name>-<count>-<label>"` of distinct pairs `(name, count)` are distinct for
the same label.  So, in a trace whose headers name such functions, let `r` be
defined by result records only under dynamic function ids other than
`G = "<name>-<count>"`, let no forward record write `G-r`, and let no register
operand `r` stand in the pointer slot of a Store or the address slot of a
Load of `G`: then `G-r` has no last writer, and a parameter with label `r`
processed while `curr_dynamic_function = G` emits no register edge.  The last
premise is not in the claim and cannot be left out, as the trace
`scope_trace` shows. -/
theorem scope_disjointness (env : Env) (t : List Record) (s : DDDG) (name : String)
    (count : Nat) (r : String) (hname : '-' ∉ name.data)
    (hrun : run env DDDG.init t = some s)
    (hcur : s.curr_dynamic_function = name ++ "-" ++ Nat.repr count)
    (hdef : along env (defined_elsewhere (name ++ "-" ++ Nat.repr count) r) DDDG.init t = true)
    (hself : along env (no_self_definition env (name ++ "-" ++ Nat.repr count) r)
      DDDG.init t = true) :
    (∀ (n1 n2 : String) (c1 c2 : Nat) (l : String), '-' ∉ n1.data → '-' ∉ n2.data →
      (n1, c1) ≠ (n2, c2) →
      n1 ++ "-" ++ Nat.repr c1 ++ "-" ++ l ≠ n2 ++ "-" ++ Nat.repr c2 ++ "-" ++ l) ∧
    find (name ++ "-" ++ Nat.repr count ++ "-" ++ r) s.register_last_written = none ∧
    (∀ (k : Int) (p : ParameterLine) (s1 : DDDG), p.label = r →
      parse_parameter env k p s = some s1 →
      s1.register_edge_table = s.register_edge_table ∧
      s1.num_of_reg_dep = s.num_of_reg_dep) := by
  have hnone := run_no_entry env (name ++ "-" ++ Nat.repr count) r ⟨name, count, hname, rfl⟩ t
    DDDG.init s Inv_init ids_ok_init rfl hdef hself hrun
  refine ⟨?_, hnone, ?_⟩
  · intro n1 n2 c1 c2 l h1 h2 hne
    exact scoped_key_distinct n1 n2 c1 c2 l h1 h2 hne
  · intro k p s1 hl hp
    exact parse_parameter_no_writer env k p s s1 (by rw [hcur, hl]; exact hnone) hp

/-- In `scope_entry_trace` the register `r` is defined in `foo-0` only: its
use in `foo-1` finds no last writer and gets no register edge. -/
theorem scope_disjointness_witness :
    ∃ s s1, run sample_env DDDG.init scope_entry_trace = some s ∧
      s.curr_dynamic_function = "foo-1" ∧
      find "foo-0-r" s.register_last_written = some 0 ∧
      find "foo-1-r" s.register_last_written = none ∧
      parse_parameter sample_env 1 scope_use s = some s1 ∧
      s1.register_edge_table = [] := by
  have h := scope_disjointness sample_env scope_entry_trace
    ((run sample_env DDDG.init scope_entry_trace).getD DDDG.init) "foo" 1 "r"
    (by decide) (by decide) (by decide) (by decide) (by decide)
  refine ⟨_, (parse_parameter sample_env 1 scope_use
    ((run sample_env DDDG.init scope_entry_trace).getD DDDG.init)).getD DDDG.init,
    by decide, by decide, by decide, h.2.1, by decide, ?_⟩
  exact (h.2.2 1 scope_use _ rfl (by decide)).1.trans (by decide)

/-- C8 fails as stated. In `scope_trace` the headers name `foo`, the only
result record for `r` is processed under `foo-0`, and there is no forward
record; yet the register parameter `r` processed under `foo-1` gets the
register edge `(2 → 3, 1)`: node 2, a Load of `foo-1` whose address operand is
`r`, was recorded as the definition of `foo-1-r` by the synthesis of lines
273-278. -/
theorem scope_disjointness_counterexample :
    ∃ s s1, run sample_env DDDG.init scope_trace = some s ∧
      s.curr_dynamic_function = "foo-1" ∧
      along sample_env (defined_elsewhere "foo-1" "r") DDDG.init scope_trace = true ∧
      s.register_edge_table = [] ∧
      parse_parameter sample_env 1 scope_use s = some s1 ∧
      s1.register_edge_table = [(2, ⟨3, 1⟩)] :=
  ⟨(run sample_env DDDG.init scope_trace).getD DDDG.init,
    (parse_parameter sample_env 1 scope_use
      ((run sample_env DDDG.init scope_trace).getD DDDG.init)).getD DDDG.init,
    by decide, by decide, by decide, by decide, by decide, by decide⟩

/-! ## The node registry -/

theorem getNodeFromNodeId_append_found (c x : List SinkCall) (i : Int) (nd : Node)
    (h : getNodeFromNodeId c i = some nd) : getNodeFromNodeId (c ++ x) i = some nd := by
  unfold getNodeFromNodeId at h ⊢
  rw [List.findSome?_append, h]
  rfl

theorem getNodeFromNodeId_annotating (x : List SinkCall) (i : Int)
    (hx : ∀ c ∈ x, is_annotating c = true) : getNodeFromNodeId x i = none := by
  induction x with
  | nil => rfl
  | cons c l ih =>
    have hc := hx c (List.mem_cons_self _ _)
    have hl := ih fun y hy => hx y (List.mem_cons_of_mem _ hy)
    unfold getNodeFromNodeId at hl ⊢
    cases c <;> simp_all [is_annotating]

theorem getNodeFromNodeId_append_annotating (c x : List SinkCall) (i : Int)
    (hx : ∀ c ∈ x, is_annotating c = true) :
    getNodeFromNodeId (c ++ x) i = getNodeFromNodeId c i := by
  have h := getNodeFromNodeId_annotating x i hx
  unfold getNodeFromNodeId at h ⊢
  rw [List.findSome?_append, h]
  cases List.findSome? _ c <;> rfl

theorem getNodeFromNodeId_fresh (c : List SinkCall) (i : Int)
    (h : i ∉ inserted_ids c) : getNodeFromNodeId c i = none := by
  induction c with
  | nil => rfl
  | cons x l ih =>
    unfold getNodeFromNodeId at ih ⊢
    cases x with
    | insertNode j m =>
      have hj : j ≠ i := fun e => h (by simp [inserted_ids, e])
      have hl : i ∉ inserted_ids l := fun e => h (by simp [inserted_ids] at e ⊢; exact Or.inr e)
      simp only [List.findSome?_cons, if_neg hj]
      exact ih hl
    | _ =>
      simp only [List.findSome?_cons]
      exact ih (fun e => h (by simpa [inserted_ids] using e))

theorem Registry_init (env : Env) : Registry env DDDG.init := by
  refine ⟨?_, ?_, ?_, ?_⟩
  · intro i hi
    simp [DDDG.init, inserted_ids] at hi
  · intro node hnode
    simp [DDDG.init] at hnode
  · intro a v hv
    simp [DDDG.init, find] at hv
  · intro e he
    simp [DDDG.init] at he

theorem Registry_parse_instruction_line (env : Env) (h : InstructionLine) (s s1 : DDDG)
    (hR : Registry env s) (hs : parse_instruction_line env h s = some s1) :
    Registry env s1 := by
  obtain ⟨r0, _, he⟩ := parse_instruction_line_eq env h s s1 hs
  obtain ⟨h1, h2, h3, h4⟩ := hR
  have hfresh : getNodeFromNodeId s.calls (s.num_of_instructions + 1) = none :=
    getNodeFromNodeId_fresh _ _ fun hmem => by
      have := h1 _ hmem
      omega
  rw [he]
  refine ⟨?_, ?_, ?_, ?_⟩
  · intro i hi
    simp only [inserted_ids_append, List.mem_append] at hi
    rcases hi with hi | hi
    · have := h1 i hi
      show i ≤ s.num_of_instructions + 1
      omega
    · simp [inserted_ids] at hi
      show i ≤ s.num_of_instructions + 1
      omega
  · intro node hnode
    simp only [Option.some.injEq] at hnode
    subst hnode
    refine ⟨?_, rfl⟩
    show getNodeFromNodeId (s.calls ++ _) (s.num_of_instructions + 1) = _
    unfold getNodeFromNodeId at hfresh ⊢
    rw [List.findSome?_append, hfresh]
    simp
  · intro a v hv
    obtain ⟨node, hn, hw⟩ := h3 a v hv
    exact ⟨node, getNodeFromNodeId_append_found _ _ _ _ hn, hw⟩
  · intro e hmem
    obtain ⟨node, hn, hw⟩ := h4 e hmem
    exact ⟨node, getNodeFromNodeId_append_found _ _ _ _ hn, hw⟩

theorem dma_load_write_eq (addr : Addr) (s : DDDG) :
    dma_load_write addr s =
      { s with
        address_last_written :=
          upsert addr s.num_of_instructions s.address_last_written } := by
  unfold dma_load_write upsert
  cases find addr s.address_last_written <;> rfl

/-- After the loop of lines 380-390 every visited byte has the current node as
last writer and the other bytes keep theirs. -/
theorem foldl_dma_load_write_find (l : List Addr) (s : DDDG) (a : Addr) :
    find a (l.foldl (fun st addr => dma_load_write addr st) s).address_last_written =
      if a ∈ l then some s.num_of_instructions else find a s.address_last_written := by
  induction l generalizing s with
  | nil => simp
  | cons x l ih =>
    rw [List.foldl_cons, ih, dma_load_write_eq]
    by_cases hl : a ∈ l
    · simp [hl]
    · by_cases hx : a = x
      · subst hx
        simp [hl, find_upsert_self]
      · simp [hl, hx, find_upsert_other _ _ _ _ hx]

theorem handle_post_write_dependency_sources (addr : Addr) (s : DDDG) :
    ∀ e ∈ (handle_post_write_dependency addr s).memory_edge_table,
      e ∈ s.memory_edge_table ∨
        (find addr s.address_last_written = some e.1 ∧
          e.2 = ⟨s.num_of_instructions, -1⟩) := by
  intro e he
  unfold handle_post_write_dependency at he
  cases hf : find addr s.address_last_written with
  | none =>
    rw [hf] at he
    exact Or.inl he
  | some w =>
    rw [hf] at he
    dsimp only at he
    split_ifs at he
    · exact Or.inl he
    · rcases List.mem_append.1 he with he | he
      · exact Or.inl he
      · rw [List.mem_singleton] at he
        subst he
        exact Or.inr ⟨rfl, rfl⟩

theorem foldl_handle_post_write_dependency_sources (l : List Addr) (s : DDDG) :
    ∀ e ∈ (l.foldl (fun st addr => handle_post_write_dependency addr st) s).memory_edge_table,
      e ∈ s.memory_edge_table ∨
        ∃ a ∈ l, find a s.address_last_written = some e.1 ∧
          e.2 = ⟨s.num_of_instructions, -1⟩ := by
  induction l generalizing s with
  | nil =>
    intro e he
    exact Or.inl he
  | cons x l ih =>
    intro e he
    rw [List.foldl_cons] at he
    rcases ih _ e he with h | ⟨a, ha, hf, hs⟩
    · rcases handle_post_write_dependency_sources x s e h with h | ⟨hf, hs⟩
      · exact Or.inl h
      · exact Or.inr ⟨x, List.mem_cons_self _ _, hf, hs⟩
    · rw [handle_post_write_dependency_addr] at hf
      rw [handle_post_write_dependency_num] at hs
      exact Or.inr ⟨a, List.mem_cons_of_mem _ ha, hf, hs⟩

/-- What the memory branch of a parameter can do to the two memory tables: a
new last writer is the current node, which is then a Store, and a new edge
leads from a recorded last writer to the current node. -/
theorem parse_parameter_mem_body_step (env : Env) (k : Int) (p : ParameterLine)
    (s s1 : DDDG) (h : parse_parameter_mem_body env k p s = some s1) :
    (∀ a v, find a s1.address_last_written = some v →
      find a s.address_last_written = some v ∨
        (v = s.num_of_instructions ∧ s.curr_microop = some env.LLVM_IR_Store ∧
          s.curr_node ≠ none)) ∧
    (∀ e ∈ s1.memory_edge_table,
      e ∈ s.memory_edge_table ∨
        ∃ a, find a s.address_last_written = some e.1 ∧
          e.2 = ⟨s.num_of_instructions, -1⟩) := by
  unfold parse_parameter_mem_body at h
  simp only at h
  split_ifs at h with c1 c2
  · split at h
    · simp only [Option.some.injEq] at h
      subst h
      refine ⟨fun a v hv => Or.inl (by simpa using hv), fun e he => ?_⟩
      rcases handle_post_write_dependency_sources _ _ e he with h | h
      · exact Or.inl h
      · exact Or.inr ⟨_, h⟩
    · exact absurd h (by simp)
  · split at h
    · rename_i mem_address base_label node _ _ hnode
      have hnn : s.curr_node ≠ none := by
        intro e
        rw [e] at hnode
        exact absurd hnode (by simp)
      split at h
      · split at h
        · simp at h
        · split_ifs at h
          · simp only [Option.map_some', Option.some.injEq] at h
            subst h
            refine ⟨fun a v hv => ?_, fun e he => ?_⟩
            · simp only [handle_post_write_dependency_num,
                handle_post_write_dependency_addr] at hv
              rcases find_assign_cases _ _ _ _ _ hv with hv | hv
              · exact Or.inr ⟨hv, c2.2, hnn⟩
              · exact Or.inl hv
            · rcases handle_post_write_dependency_sources _ _ e he with h | h
              · exact Or.inl h
              · exact Or.inr ⟨_, h⟩
          · simp only [Option.map_some', Option.some.injEq] at h
            subst h
            refine ⟨fun a v hv => ?_, fun e he => Or.inl he⟩
            rcases find_assign_cases _ _ _ _ _ hv with hv | hv
            · exact Or.inr ⟨hv, c2.2, hnn⟩
            · exact Or.inl hv
      · simp only [Option.map_some', Option.some.injEq] at h
        subst h
        refine ⟨fun a v hv => ?_, fun e he => Or.inl he⟩
        rcases find_snoc_cases _ _ _ _ _ hv with hv | hv
        · exact Or.inr ⟨hv, c2.2, hnn⟩
        · exact Or.inl hv
    · exact absurd h (by simp)
  · split at h
    · split at h
      · simp at h
      · simp only [Option.some.injEq] at h
        subst h
        exact ⟨fun a v hv => Or.inl hv, fun e he => Or.inl he⟩
    · exact absurd h (by simp)
  · split at h
    · simp only [Option.some.injEq] at h
      subst h
      exact ⟨fun a v hv => Or.inl hv, fun e he => Or.inl he⟩
    · exact absurd h (by simp)
  · split at h
    · split_ifs at h
      · simp only [Option.some.injEq] at h
        subst h
        exact ⟨fun a v hv => Or.inl hv, fun e he => Or.inl he⟩
      · simp only [Option.some.injEq] at h
        subst h
        exact ⟨fun a v hv => Or.inl hv, fun e he => Or.inl he⟩
    · exact absurd h (by simp)
  · simp only [Option.some.injEq] at h
    subst h
    exact ⟨fun a v hv => Or.inl hv, fun e he => Or.inl he⟩

theorem parse_parameter_mem_step (env : Env) (k : Int) (p : ParameterLine)
    (s s1 : DDDG) (h : parse_parameter_mem env k p s = some s1) :
    (∀ a v, find a s1.address_last_written = some v →
      find a s.address_last_written = some v ∨
        (v = s.num_of_instructions ∧ s.curr_microop = some env.LLVM_IR_Store ∧
          s.curr_node ≠ none)) ∧
    (∀ e ∈ s1.memory_edge_table,
      e ∈ s.memory_edge_table ∨
        ∃ a, find a s.address_last_written = some e.1 ∧
          e.2 = ⟨s.num_of_instructions, -1⟩) := by
  unfold parse_parameter_mem at h
  split_ifs at h
  · exact parse_parameter_mem_body_step env k p s s1 h
  · split at h
    · simp at h
    · split_ifs at h
      · exact parse_parameter_mem_body_step env k p s s1 h
      · simp only [Option.some.injEq] at h
        subst h
        exact ⟨fun a v hv => Or.inl hv, fun e he => Or.inl he⟩

theorem parse_result_dma_step (env : Env) (node : Node) (s s1 : DDDG)
    (h : parse_result_dma env node s = some s1) :
    (∀ a v, find a s1.address_last_written = some v →
      find a s.address_last_written = some v ∨
        (v = s.num_of_instructions ∧ env.isReadyMode = false ∧
          s.curr_microop = some env.LLVM_IR_DMALoad)) ∧
    (∀ e ∈ s1.memory_edge_table,
      e ∈ s.memory_edge_table ∨
        ∃ a, find a s.address_last_written = some e.1 ∧
          e.2 = ⟨s.num_of_instructions, -1⟩) := by
  unfold parse_result_dma at h
  split at h
  · rename_i mem_address v2 v3 _ _
    dsimp only at h
    split_ifs at h with c1 c2
    · simp only [Option.some.injEq] at h
      subst h
      obtain ⟨al, hal⟩ := foldl_dma_load_write_frame
        (dma_range mem_address (v2 % 2 ^ 32) (v3 % 2 ^ 32))
        { s with calls := s.calls ++
            [.set_mem_access_dma node.id mem_address (v2 % 2 ^ 32) (v3 % 2 ^ 32)] }
      refine ⟨fun a v hv => ?_, fun e he => ?_⟩
      · rw [foldl_dma_load_write_find] at hv
        split_ifs at hv
        · refine Or.inr ⟨(Option.some.inj hv).symm, ?_, c1⟩
          simpa using c2
        · exact Or.inl hv
      · rw [hal] at he
        exact Or.inl he
    · simp only [Option.some.injEq] at h
      subst h
      exact ⟨fun a v hv => Or.inl hv, fun e he => Or.inl he⟩
    · simp only [Option.some.injEq] at h
      subst h
      obtain ⟨t, n, ht⟩ := foldl_handle_post_write_dependency_frame
        (dma_range mem_address (v2 % 2 ^ 32) (v3 % 2 ^ 32))
        { s with calls := s.calls ++
            [.set_mem_access_dma node.id mem_address (v2 % 2 ^ 32) (v3 % 2 ^ 32)] }
      refine ⟨fun a v hv => ?_, fun e he => ?_⟩
      · rw [ht] at hv
        exact Or.inl hv
      · rcases foldl_handle_post_write_dependency_sources _ _ e he with h | ⟨a, _, h⟩
        · exact Or.inl h
        · exact Or.inr ⟨a, h⟩
  · simp at h

/-- What a record other than a header can do to the two memory tables: a new
last writer is the current node, a Store or (outside ready mode) a DMALoad,
and a new memory edge leads from a recorded last writer to the current
node. -/
theorem dispatch_memory_step (env : Env) (s s1 : DDDG) (r : Record)
    (hr : ∀ h, r ≠ .header h) (hs : dispatch env s r = some s1) :
    (∀ a v, find a s1.address_last_written = some v →
      find a s.address_last_written = some v ∨
        (v = s.num_of_instructions ∧ s.curr_node ≠ none ∧
          (s.curr_microop = some env.LLVM_IR_Store ∨
            (env.isReadyMode = false ∧ s.curr_microop = some env.LLVM_IR_DMALoad)))) ∧
    (∀ e ∈ s1.memory_edge_table,
      e ∈ s.memory_edge_table ∨
        ∃ a, find a s.address_last_written = some e.1 ∧
          e.2 = ⟨s.num_of_instructions, -1⟩) := by
  cases r with
  | header h => exact absurd rfl (hr h)
  | result r =>
    obtain ⟨node, c, hnode, _, h1 | ⟨_, h1⟩⟩ := parse_result_cases env r s s1 hs
    · rw [h1]
      exact ⟨fun a v hv => Or.inl hv, fun e he => Or.inl he⟩
    · obtain ⟨ha, he⟩ := parse_result_dma_step env node _ s1 h1
      refine ⟨fun a v hv => ?_, he⟩
      rcases ha a v hv with h | ⟨h, h2, h3⟩
      · exact Or.inl h
      · exact Or.inr ⟨h, by rw [hnode]; simp, Or.inr ⟨h2, h3⟩⟩
  | forward f =>
    obtain ⟨node, src, _, _, _, _, he⟩ := parse_forward_eq env f s s1 hs
    rw [he]
    exact ⟨fun a v hv => Or.inl hv, fun e he => Or.inl he⟩
  | parameter k p =>
    simp only [dispatch] at hs
    unfold parse_parameter at hs
    split_ifs at hs
    · simp only [Option.some.injEq] at hs
      rw [← hs]
      exact ⟨fun a v hv => Or.inl hv, fun e he => Or.inl he⟩
    · obtain ⟨np, cf, cdf, hl⟩ := parse_parameter_latch_frame env k p s
      obtain ⟨u, t, n, l, w, hr⟩ := parse_parameter_reg_frame env k p
        (parse_parameter_latch env k p s)
      obtain ⟨ha, he⟩ := parse_parameter_mem_step env k p _ s1 hs
      rw [hr, hl] at ha he
      refine ⟨fun a v hv => ?_, he⟩
      rcases ha a v hv with h | ⟨h, h2, h3⟩
      · exact Or.inl h
      · exact Or.inr ⟨h, h3, Or.inl h2⟩

theorem Registry_dispatch (env : Env) (s s1 : DDDG) (r : Record)
    (hR : Registry env s) (hs : dispatch env s r = some s1) : Registry env s1 := by
  by_cases hr : ∀ h, r ≠ .header h
  · obtain ⟨extra, hc, hx⟩ := annotates_dispatch env s s1 r hr hs
    obtain ⟨hm, _, _, hnode, _⟩ := dispatch_keeps env s s1 r hr hs
    have hn := dispatch_num_of_instructions env s s1 r hr hs
    obtain ⟨ha, he⟩ := dispatch_memory_step env s s1 r hr hs
    obtain ⟨h1, h2, h3, h4⟩ := hR
    have hcur : s.curr_node ≠ none →
        (s.curr_microop = some env.LLVM_IR_Store ∨
          (env.isReadyMode = false ∧ s.curr_microop = some env.LLVM_IR_DMALoad)) →
        ∃ node, getNodeFromNodeId s.calls s.num_of_instructions = some node ∧
          is_writer env node.microop := by
      intro hnn hw
      cases hcn : s.curr_node with
      | none => exact absurd hcn hnn
      | some node =>
        obtain ⟨hf, hmo⟩ := h2 node hcn
        refine ⟨node, hf, ?_⟩
        rw [hmo] at hw
        rcases hw with hw | ⟨hw1, hw2⟩
        · exact Or.inl (Option.some.inj hw)
        · exact Or.inr ⟨hw1, Option.some.inj hw2⟩
    have hsrc : ∀ a v, find a s.address_last_written = some v →
        ∃ node, getNodeFromNodeId s1.calls v = some node ∧ is_writer env node.microop := by
      intro a v hv
      obtain ⟨node, hf, hw⟩ := h3 a v hv
      exact ⟨node, by rw [hc]; exact getNodeFromNodeId_append_found _ _ _ _ hf, hw⟩
    refine ⟨?_, ?_, ?_, ?_⟩
    · intro i hi
      rw [inserted_ids_annotates s s1 ⟨extra, hc, hx⟩] at hi
      rw [hn]
      exact h1 i hi
    · intro node hcn
      rw [hnode] at hcn
      obtain ⟨hf, hmo⟩ := h2 node hcn
      rw [hn, hm, hc]
      exact ⟨getNodeFromNodeId_append_found _ _ _ _ hf, hmo⟩
    · intro a v hv
      rcases ha a v hv with h | ⟨h, hnn, hw⟩
      · exact hsrc a v h
      · obtain ⟨node, hf, hwr⟩ := hcur hnn hw
        subst h
        exact ⟨node, by rw [hc]; exact getNodeFromNodeId_append_found _ _ _ _ hf, hwr⟩
    · intro e hmem
      rcases he e hmem with h | ⟨a, h, _⟩
      · obtain ⟨node, hf, hw⟩ := h4 e h
        exact ⟨node, by rw [hc]; exact getNodeFromNodeId_append_found _ _ _ _ hf, hw⟩
      · exact hsrc a e.1 h
  · push_neg at hr
    obtain ⟨h, rfl⟩ := hr
    exact Registry_parse_instruction_line env h s s1 hR hs

theorem Registry_run (env : Env) (t : List Record) (s s1 : DDDG)
    (hR : Registry env s) (hs : run env s t = some s1) : Registry env s1 := by
  induction t generalizing s with
  | nil =>
    simp only [run, Option.some.injEq] at hs
    rw [← hs]
    exact hR
  | cons r t ih =>
    simp only [run] at hs
    cases hd : dispatch env s r with
    | none => simp [hd] at hs
    | some s2 =>
      simp only [hd] at hs
      exact ih s2 (Registry_dispatch env s s2 r hR hd) hs

/-- Nodes stay registered: the datapath never forgets an inserted node. -/
theorem run_getNodeFromNodeId (env : Env) (t : List Record) (s s1 : DDDG) (i : Int)
    (nd : Node) (hs : run env s t = some s1)
    (h : getNodeFromNodeId s.calls i = some nd) :
    getNodeFromNodeId s1.calls i = some nd := by
  induction t generalizing s with
  | nil =>
    simp only [run, Option.some.injEq] at hs
    rw [← hs]
    exact h
  | cons r t ih =>
    simp only [run] at hs
    cases hd : dispatch env s r with
    | none => simp [hd] at hs
    | some s2 =>
      simp only [hd] at hs
      refine ih s2 hs ?_
      by_cases hr : ∀ h, r ≠ .header h
      · obtain ⟨extra, hc, _⟩ := annotates_dispatch env s s2 r hr hd
        rw [hc]
        exact getNodeFromNodeId_append_found _ _ _ _ h
      · push_neg at hr
        obtain ⟨hh, rfl⟩ := hr
        obtain ⟨r0, _, he⟩ := parse_instruction_line_eq env hh s s2 hd
        rw [he]
        exact getNodeFromNodeId_append_found _ _ _ _ h

/-! ## Ordinary stores and self-definitions -/

theorem Env.WellFormed.dmaload_ne_store {env : Env} (h : env.WellFormed) :
    env.LLVM_IR_DMALoad ≠ env.LLVM_IR_Store := fun e => by
  have := h.1
  simp [Env.opcodes, e] at this

theorem Env.WellFormed.dmaload_ne_load {env : Env} (h : env.WellFormed) :
    env.LLVM_IR_DMALoad ≠ env.LLVM_IR_Load := fun e => by
  have := h.1
  simp [Env.opcodes, e] at this

theorem Env.WellFormed.dmaload_ne_alloca {env : Env} (h : env.WellFormed) :
    env.LLVM_IR_DMALoad ≠ env.LLVM_IR_Alloca := fun e => by
  have := h.1
  simp [Env.opcodes, e] at this

/-- The pointer parameter (tag 2) of a Store, lines 293-313: the state it
yields, by the last writer of the address `parameter_value_per_inst[0]`. -/
theorem parse_parameter_mem_store_pointer (env : Env) (p : ParameterLine) (s : DDDG)
    (node : Node) (a : Addr)
    (hm : s.curr_microop = some env.LLVM_IR_Store) (hnode : s.curr_node = some node)
    (ha : (s.parameter_value_per_inst ++ [p.value.as_addr &&& env.ADDR_MASK]).head? =
      some a) :
    ∃ c,
      (find a s.address_last_written = none →
        parse_parameter_mem env 2 p s = some
          { s with
            parameter_value_per_inst :=
              s.parameter_value_per_inst ++ [p.value.as_addr &&& env.ADDR_MASK]
            parameter_size_per_inst :=
              s.parameter_size_per_inst ++ [(p.size % 2 ^ 32).toNat]
            parameter_label_per_inst := s.parameter_label_per_inst ++ [p.label]
            address_last_written := s.address_last_written ++ [(a, s.num_of_instructions)]
            calls := c }) ∧
      (∀ w writer, find a s.address_last_written = some w →
        getNodeFromNodeId s.calls w = some writer →
        parse_parameter_mem env 2 p s = some
          { (if env.is_dma_load writer.microop then
              handle_post_write_dependency a
                { s with
                  parameter_value_per_inst :=
                    s.parameter_value_per_inst ++ [p.value.as_addr &&& env.ADDR_MASK]
                  parameter_size_per_inst :=
                    s.parameter_size_per_inst ++ [(p.size % 2 ^ 32).toNat]
                  parameter_label_per_inst := s.parameter_label_per_inst ++ [p.label] }
            else
              { s with
                parameter_value_per_inst :=
                  s.parameter_value_per_inst ++ [p.value.as_addr &&& env.ADDR_MASK]
                parameter_size_per_inst :=
                  s.parameter_size_per_inst ++ [(p.size % 2 ^ 32).toNat]
                parameter_label_per_inst := s.parameter_label_per_inst ++ [p.label] }) with
            address_last_written :=
              assign a s.num_of_instructions s.address_last_written
            calls := c }) := by
  have hlab : ∃ l, (s.parameter_label_per_inst ++ [p.label]).head? = some l := by
    cases s.parameter_label_per_inst <;> simp
  obtain ⟨l, hl⟩ := hlab
  have h21 : ¬ ((2 : Int) = 1) := by decide
  refine ⟨s.calls ++ [.set_array_label node.id l, .addArrayBaseAddress l a], ?_, ?_⟩
  · intro hf
    unfold parse_parameter_mem
    simp only [hm, true_or, or_true, if_true]
    unfold parse_parameter_mem_body
    simp only [hm, ha, hl, hnode, hf, h21, false_and, if_false, and_true, if_true,
      Option.map_some']
  · intro w writer hf hg
    unfold parse_parameter_mem
    simp only [hm, true_or, or_true, if_true]
    unfold parse_parameter_mem_body
    simp only [hm, ha, hl, hnode, hf, hg, h21, false_and, if_false, and_true, if_true,
      Option.map_some']
    cases env.is_dma_load writer.microop with
    | true =>
      simp only [if_true, handle_post_write_dependency_num,
        handle_post_write_dependency_addr, handle_post_write_dependency_calls]
    | false => simp only [Bool.false_eq_true, if_false]

theorem Env.WellFormed.load_ne_store {env : Env} (h : env.WellFormed) :
    env.LLVM_IR_Load ≠ env.LLVM_IR_Store := fun e => by
  have := h.1
  simp [Env.opcodes, e] at this

/-- In a reachable state the pointer parameter of a Store is always
processed: the last writer of its address, if any, is a node the datapath
knows. -/
theorem parse_parameter_store_pointer_returns (env : Env) (p : ParameterLine) (s : DDDG)
    (node : Node) (hwf : env.WellFormed) (hR : Registry env s)
    (hm : s.curr_microop = some env.LLVM_IR_Store) (hnode : s.curr_node = some node) :
    ∃ s1, parse_parameter env 2 p s = some s1 := by
  unfold parse_parameter
  rw [if_neg (fun hc => hwf.store_ne_phi (Option.some.inj (hm.symm.trans hc.1)))]
  obtain ⟨np, cf, cdf, hl⟩ := parse_parameter_latch_frame env 2 p s
  obtain ⟨u, t, n, l, w, hr⟩ := parse_parameter_reg_frame env 2 p
    (parse_parameter_latch env 2 p s)
  have ha : ∃ a, (s.parameter_value_per_inst ++ [p.value.as_addr &&& env.ADDR_MASK]).head? =
      some a := by
    cases s.parameter_value_per_inst <;> simp
  obtain ⟨a, ha⟩ := ha
  obtain ⟨c, h1, h2⟩ := parse_parameter_mem_store_pointer env p
    (parse_parameter_reg env 2 p (parse_parameter_latch env 2 p s)) node a
    (by rw [hr, hl]; exact hm) (by rw [hr, hl]; exact hnode) (by rw [hr, hl]; exact ha)
  cases hf : find a s.address_last_written with
  | none =>
    rw [h1 (by rw [hr, hl]; exact hf)]
    exact ⟨_, rfl⟩
  | some v =>
    obtain ⟨writer, hg, _⟩ := hR.2.2.1 a v hf
    rw [h2 v writer (by rw [hr, hl]; exact hf) (by rw [hr, hl]; exact hg)]
    exact ⟨_, rfl⟩

/-- C18. When a Store node `n` (the current node of the state `s`) processes
its tag-2 parameter, `a` being `parameter_value_per_inst[0]` once the value of
the record has been pushed, and the last writer of `a` does not exist or is a
node that is not a DMA load, the record is processed, `memory_edge_table` and
`num_of_mem_dep` are unchanged, `n` becomes the last writer of `a`, and the
last writer of every other address is unchanged. -/
theorem ordinary_store_overwrite (env : Env) (s : DDDG) (node : Node) (p : ParameterLine)
    (a : Addr) (hwf : env.WellFormed)
    (hm : s.curr_microop = some env.LLVM_IR_Store) (hnode : s.curr_node = some node)
    (ha : (s.parameter_value_per_inst ++ [p.value.as_addr &&& env.ADDR_MASK]).head? =
      some a)
    (hlast : find a s.address_last_written = none ∨
      ∃ w writer, find a s.address_last_written = some w ∧
        getNodeFromNodeId s.calls w = some writer ∧
        env.is_dma_load writer.microop = false) :
    ∃ s1, parse_parameter env 2 p s = some s1 ∧
      s1.memory_edge_table = s.memory_edge_table ∧
      s1.num_of_mem_dep = s.num_of_mem_dep ∧
      find a s1.address_last_written = some s.num_of_instructions ∧
      ∀ b, b ≠ a → find b s1.address_last_written = find b s.address_last_written := by
  unfold parse_parameter
  rw [if_neg (fun hc => hwf.store_ne_phi (Option.some.inj (hm.symm.trans hc.1)))]
  obtain ⟨np, cf, cdf, hl⟩ := parse_parameter_latch_frame env 2 p s
  obtain ⟨u, t, n, l, w, hr⟩ := parse_parameter_reg_frame env 2 p
    (parse_parameter_latch env 2 p s)
  obtain ⟨c, h1, h2⟩ := parse_parameter_mem_store_pointer env p
    (parse_parameter_reg env 2 p (parse_parameter_latch env 2 p s)) node a
    (by rw [hr, hl]; exact hm) (by rw [hr, hl]; exact hnode) (by rw [hr, hl]; exact ha)
  rcases hlast with hf | ⟨v, writer, hf, hg, hd⟩
  · rw [h1 (by rw [hr, hl]; exact hf)]
    refine ⟨_, rfl, ?_, ?_, ?_, ?_⟩
    · rw [hr, hl]
    · rw [hr, hl]
    · rw [hr, hl]
      simp only [find_append, hf, find, if_true, Option.orElse]
    · intro b hb
      rw [hr, hl]
      have hab : ¬ a = b := fun e => hb e.symm
      cases hfb : find b s.address_last_written <;>
        simp [find_append, hfb, find, hab]
  · rw [h2 v writer (by rw [hr, hl]; exact hf) (by rw [hr, hl]; exact hg)]
    simp only [hd, Bool.false_eq_true, if_false]
    refine ⟨_, rfl, ?_, ?_, ?_, ?_⟩
    · rw [hr, hl]
    · rw [hr, hl]
    · rw [hr, hl]
      exact find_assign_self _ _ _ (by rw [hf]; simp)
    · intro b hb
      rw [hr, hl]
      exact find_assign_other _ _ _ _ hb

/-- The second Store to `0x2000` replaces the first as last writer and adds
no memory edge. -/
theorem ordinary_store_overwrite_witness :
    ∃ s1, parse_parameter sample_env 2 S7_pointer S7_state = some s1 ∧
      s1.memory_edge_table = S7_state.memory_edge_table ∧
      s1.num_of_mem_dep = S7_state.num_of_mem_dep ∧
      find 0x2000 s1.address_last_written = some S7_state.num_of_instructions ∧
      ∀ b, b ≠ 0x2000 →
        find b s1.address_last_written = find b S7_state.address_last_written :=
  ordinary_store_overwrite sample_env S7_state ⟨1, 28⟩ S7_pointer 0x2000 (by decide)
    (by decide) (by decide) (by decide) (Or.inr ⟨0, ⟨0, 28⟩, by decide, by decide, by decide⟩)

/-- C19. In a reachable state `s`, let a register parameter (non-zero
`is_reg`) have a scoped key `<curr_dynamic_function>-<label>` with no last
writer.  If the record is the tag-2 parameter of a Store or the tag-1
parameter of a Load, it is processed, the current node `n` becomes the last
writer of that key, the other keys keep their last writer, and
`register_edge_table` and `num_of_reg_dep` are unchanged.  For every other
combination of micro-op and tag, a processed record leaves
`register_last_written` and `register_edge_table` unchanged. -/
theorem self_definition_synthesis (env : Env) (t : List Record) (s : DDDG) (k : Int)
    (p : ParameterLine) (hwf : env.WellFormed)
    (hreach : run env DDDG.init t = some s) (hreg : p.is_reg ≠ 0)
    (hw : find (s.curr_dynamic_function ++ "-" ++ p.label) s.register_last_written = none) :
    ((s.curr_microop = some env.LLVM_IR_Store ∧ k = 2) ∨
        (s.curr_microop = some env.LLVM_IR_Load ∧ k = 1) →
      ∃ s1, parse_parameter env k p s = some s1 ∧
        find (s.curr_dynamic_function ++ "-" ++ p.label) s1.register_last_written =
          some s.num_of_instructions ∧
        (∀ key, key ≠ s.curr_dynamic_function ++ "-" ++ p.label →
          find key s1.register_last_written = find key s.register_last_written) ∧
        s1.register_edge_table = s.register_edge_table ∧
        s1.num_of_reg_dep = s.num_of_reg_dep) ∧
    (¬ ((s.curr_microop = some env.LLVM_IR_Store ∧ k = 2) ∨
        (s.curr_microop = some env.LLVM_IR_Load ∧ k = 1)) →
      ∀ s1, parse_parameter env k p s = some s1 →
        s1.register_last_written = s.register_last_written ∧
        s1.register_edge_table = s.register_edge_table) := by
  have hI : Inv s := Inv_run env t DDDG.init s Inv_init hreach
  have hR : Registry env s := Registry_run env t DDDG.init s (Registry_init env) hreach
  obtain ⟨np, cf, cdf, hl⟩ := parse_parameter_latch_frame env k p s
  have hmiss := parse_parameter_reg_missing env k p (parse_parameter_latch env k p s) hreg
    (by rw [hl]; exact hw)
  constructor
  · intro hc
    have hnode : ∃ node, s.curr_node = some node := by
      cases hn : s.curr_node with
      | some node => exact ⟨node, rfl⟩
      | none =>
        have := hI.1.2.1 hn
        rcases hc with hc | hc <;> rw [this] at hc <;> exact absurd hc.1 (by simp)
    obtain ⟨node, hnode⟩ := hnode
    have hret : ∃ s1, parse_parameter env k p s = some s1 := by
      rcases hc with ⟨hm, hk⟩ | ⟨hm, hk⟩
      · subst hk
        exact parse_parameter_store_pointer_returns env p s node hwf hR hm hnode
      · exact parse_parameter_returns env k p s node hnode
          (fun e => hwf.load_ne_store (Option.some.inj (hm.symm.trans e)))
    obtain ⟨s1, h1⟩ := hret
    refine ⟨s1, h1, ?_⟩
    have hphi : ¬ (s.curr_microop = some env.LLVM_IR_PHI ∧ s.prev_bblock ≠ p.prev_bbid) := by
      intro hf
      rcases hc with ⟨hm, _⟩ | ⟨hm, _⟩
      · exact hwf.store_ne_phi (Option.some.inj (hm.symm.trans hf.1))
      · exact hwf.load_ne_phi (Option.some.inj (hm.symm.trans hf.1))
    unfold parse_parameter at h1
    rw [if_neg hphi] at h1
    obtain ⟨c, pv, ps, pl, t2, n2, a, hm⟩ := parse_parameter_mem_frame env k p _ s1 h1
    rw [hm, hmiss, hl]
    dsimp only
    rw [if_pos hc]
    exact ⟨find_upsert_self _ _ _, fun key hk => find_upsert_other _ _ _ _ hk, rfl, rfl⟩
  · intro hc s1 h1
    unfold parse_parameter at h1
    split_ifs at h1
    · simp only [Option.some.injEq] at h1
      rw [← h1]
      exact ⟨rfl, rfl⟩
    · obtain ⟨c, pv, ps, pl, t2, n2, a, hm⟩ := parse_parameter_mem_frame env k p _ s1 h1
      rw [hm, hmiss, hl]
      dsimp only
      rw [if_neg hc]
      exact ⟨rfl, rfl⟩

/-- The pointer of the second Store names an undefined register: the Store
records itself as the definition of `f-0-q`. -/
theorem self_definition_synthesis_witness :
    ∃ s1, parse_parameter sample_env 2 S7_pointer S7_state = some s1 ∧
      find "f-0-q" s1.register_last_written = some 1 ∧
      s1.register_edge_table = [] := by
  obtain ⟨s1, h1, h2, _, h4, _⟩ :=
    (self_definition_synthesis sample_env S7_trace S7_state 2 S7_pointer (by decide) (by decide)
      (by decide) (by decide)).1 (Or.inl ⟨by decide, rfl⟩)
  exact ⟨s1, h1, h2, h4⟩

/-! ## The stack of active functions -/

/-- C13, as amended.  Let the stack be `top :: rest` and let `top` parse to
the function name `ps`.  A header of the function `ps` that is not a recursive
entry (the instruction before it was not a Call with `callee_function = ps`)
is processed when `top` carries a count, and removes `top` exactly when its
micro-op is Ret.  A recursive entry is processed when `ps` has a counter; it
pushes the id of the new invocation and, when its micro-op is Ret, pops that
id again at once, so that `top` stays in place.  A header of another function
that is not a Ret is processed and pushes an id on top of `top :: rest`. -/
theorem stack_pop_discipline (env : Env) (h : InstructionLine) (s : DDDG) (top : String)
    (rest : List String) (ps : String) (pc : Option Nat)
    (hstack : s.active_method = top :: rest) (htop : sscanf_top top = (some ps, pc)) :
    (h.curr_static_function = ps →
      ¬ (s.curr_microop = some env.LLVM_IR_Call ∧
          s.callee_function = h.curr_static_function) →
      ∀ c, pc = some c →
        ∃ s1, parse_instruction_line env h s = some s1 ∧
          s1.active_method = if h.microop = env.LLVM_IR_Ret then rest else top :: rest) ∧
    (h.curr_static_function = ps →
      (s.curr_microop = some env.LLVM_IR_Call ∧
          s.callee_function = h.curr_static_function) →
      ∀ c, find h.curr_static_function s.function_counter = some c →
        ∃ s1, parse_instruction_line env h s = some s1 ∧
          s1.active_method =
            if h.microop = env.LLVM_IR_Ret then top :: rest
            else (h.curr_static_function ++ "-" ++ Nat.repr (c + 1)) :: top :: rest) ∧
    (h.curr_static_function ≠ ps → h.microop ≠ env.LLVM_IR_Ret →
      ∃ s1, parse_instruction_line env h s = some s1 ∧
        ∃ id, s1.active_method = id :: top :: rest) := by
  refine ⟨?_, ?_, ?_⟩
  · intro hf hrec c hpc
    subst hpc
    unfold parse_instruction_line resolve_active
    simp only [hstack, htop, hf, if_true, if_neg (hf ▸ hrec), Option.map_some']
    refine ⟨_, rfl, ?_⟩
    by_cases hret : h.microop = env.LLVM_IR_Ret
    · simp [hret, resolve_new]
    · simp [hret, resolve_new]
  · intro hf hrec c hc
    have hr := resolve_active_recursive env h s top rest pc hstack (hf ▸ htop) hrec.1 hrec.2
    rw [hc, Option.map_some'] at hr
    unfold parse_instruction_line
    simp only [hr]
    refine ⟨_, rfl, ?_⟩
    by_cases hret : h.microop = env.LLVM_IR_Ret
    · simp [hret, resolve_new]
    · simp [hret, resolve_new]
  · intro hf hret
    unfold parse_instruction_line resolve_active
    simp only [hstack, htop, if_neg hf, Option.map_some', if_neg hret]
    refine ⟨_, rfl, ?_⟩
    simp [resolve_new]

/-- A Ret header of `foo` on the stack `["foo-0"]`, not a recursive entry,
removes `foo-0`. -/
theorem stack_pop_discipline_witness :
    ∃ s1, parse_instruction_line sample_env S8_entry
        { S6_state with curr_microop := some 8 } = some s1 ∧
      s1.active_method = [] := by
  obtain ⟨s1, h1, h2⟩ :=
    (stack_pop_discipline sample_env S8_entry { S6_state with curr_microop := some 8 }
      "foo-0" [] "foo" (some 0) (by decide) (by decide)).1 (by decide) (by decide) 0 rfl
  exact ⟨s1, h1, h2.trans (by decide)⟩

/-- C13 does not hold as stated: in scenario S6 the stack is `["foo-0"]`, the
header is a Ret and its function `foo` is the function of the top entry, yet
the stack is `["foo-0"]` afterwards: the header is a recursive entry, and what
its Ret pops is the id `foo-1` that it has just pushed. -/
theorem stack_pop_counterexample :
    S6_state.active_method = ["foo-0"] ∧
    sscanf_top "foo-0" = (some "foo", some 0) ∧
    S8_entry.microop = sample_env.LLVM_IR_Ret ∧
    S8_entry.curr_static_function = "foo" ∧
    ∃ s1, parse_instruction_line sample_env S8_entry S6_state = some s1 ∧
      s1.active_method = ["foo-0"] ∧ s1.curr_dynamic_function = "foo-1" := by
  refine ⟨by decide, by decide, by decide, by decide, ?_⟩
  exact ⟨(parse_instruction_line sample_env S8_entry S6_state).getD DDDG.init,
    by decide, by decide, by decide⟩

/-- C20.  The caller's scope is not restored when the callee consists of a
single Ret.  Before the call `A` runs as `A-0` with counter 0.  When `B` is
the one header `Ret`, that header finds `A-0` on top of the stack, pops it
(line 185 pops on every Ret) and pushes `B-0`; the next header of `A` then
meets `B-0` on top and is given the fresh invocation `A-1`, count 1, and
`function_counter[A]` becomes 1.  When `B` runs two headers, the Ret pops
`B-0` and the next header of `A` is `A-0` again, with the counter at 0. -/
theorem caller_scope_single_ret :
    (∃ s, run sample_env DDDG.init ((S9_trace S9_single).take 3) = some s ∧
      s.curr_dynamic_function = "A-0" ∧ s.active_method = ["A-0"] ∧
      find "A" s.function_counter = some 0) ∧
    (∃ s, run sample_env DDDG.init (S9_trace S9_single).dropLast = some s ∧
      s.active_method = ["B-0"]) ∧
    (∃ s, run sample_env DDDG.init (S9_trace S9_single) = some s ∧
      s.curr_dynamic_function = "A-1" ∧ s.active_method = ["A-1", "B-0"] ∧
      s.calls.getLast? = some (.set_dynamic_invocation 3 1) ∧
      find "A" s.function_counter = some 1) ∧
    (∃ s, run sample_env DDDG.init (S9_trace S9_pair) = some s ∧
      s.curr_dynamic_function = "A-0" ∧ s.active_method = ["A-0"] ∧
      s.calls.getLast? = some (.set_dynamic_invocation 4 0) ∧
      find "A" s.function_counter = some 0) := by
  refine ⟨⟨(run sample_env DDDG.init ((S9_trace S9_single).take 3)).getD DDDG.init,
      by decide, by decide, by decide, by decide⟩,
    ⟨(run sample_env DDDG.init (S9_trace S9_single).dropLast).getD DDDG.init,
      by decide, by decide⟩,
    ⟨(run sample_env DDDG.init (S9_trace S9_single)).getD DDDG.init,
      by decide, by decide, by decide, by decide, by decide⟩,
    ⟨(run sample_env DDDG.init (S9_trace S9_pair)).getD DDDG.init,
      by decide, by decide, by decide, by decide, by decide⟩⟩

/-! ## DMA transfers -/

/-- Without wrap-around the loops of lines 380-382 and 395-397 visit exactly
the bytes from `base + offset` up to `base + offset + size`. -/
theorem mem_dma_range (base off size a : Nat) (h : base + off + size < 2 ^ 64) :
    a ∈ dma_range base off size ↔ base + off ≤ a ∧ a < base + off + size := by
  unfold dma_range
  have h1 : (base + off) % 2 ^ 64 = base + off := Nat.mod_eq_of_lt (by omega)
  have h2 : (base + off + size) % 2 ^ 64 = base + off + size := Nat.mod_eq_of_lt h
  simp only [h1, h2, List.mem_range'_1]
  omega

/-- The result record of a DMA node that is neither an Alloca nor a Load runs
`parse_result_dma` once the register table has been updated. -/
theorem parse_result_dma_node (env : Env) (r : ResultLine) (s : DDDG) (node : Node)
    (hnode : s.curr_node = some node) (hreg : r.is_reg ≠ 0)
    (hdma : env.is_dma_op node.microop = true)
    (hA : s.curr_microop ≠ some env.LLVM_IR_Alloca)
    (hL : s.curr_microop ≠ some env.LLVM_IR_Load) :
    ∃ c, parse_result env r s =
      parse_result_dma env node
        { s with
          calls := c
          register_last_written :=
            upsert (s.curr_dynamic_function ++ "-" ++ r.label) s.num_of_instructions
              s.register_last_written } := by
  unfold parse_result
  split
  · rename_i h0
    rw [hnode] at h0
    exact absurd h0 (by simp)
  · rename_i node2 h0
    have hn2 : node2 = node := by
      rw [hnode] at h0
      exact (Option.some.inj h0).symm
    subst hn2
    dsimp only
    rw [if_neg hreg]
    by_cases hfp : env.is_fp_op node2.microop = true ∧ r.size = 64
    · simp only [hfp, and_self, if_true, hA, hL, if_false, hdma]
      refine ⟨s.calls ++ [.set_double_precision node2.id true], ?_⟩
      unfold upsert
      cases find (s.curr_dynamic_function ++ "-" ++ r.label) s.register_last_written <;> rfl
    · simp only [hfp, if_false, hA, hL, hdma, if_true]
      refine ⟨s.calls, ?_⟩
      unfold upsert
      cases find (s.curr_dynamic_function ++ "-" ++ r.label) s.register_last_written <;> rfl

theorem parse_result_dma_load (env : Env) (node : Node) (s : DDDG) (x0 base v2 v3 : Nat)
    (rest : List Nat) (hpv : s.parameter_value_per_inst = x0 :: base :: v2 :: v3 :: rest)
    (hm : s.curr_microop = some env.LLVM_IR_DMALoad) (hready : env.isReadyMode = false) :
    parse_result_dma env node s =
      some ((dma_range base (v2 % 2 ^ 32) (v3 % 2 ^ 32)).foldl
        (fun st addr => dma_load_write addr st)
        { s with
          calls := s.calls ++
            [.set_mem_access_dma node.id base (v2 % 2 ^ 32) (v3 % 2 ^ 32)] }) := by
  unfold parse_result_dma
  simp only [hpv]
  rw [if_pos hm]
  simp only [hready, Bool.not_false, if_true]

/-- The address parameter of a Load whose address has last writer `w`: the
record is processed and appends the one edge `(w → l, -1)`. -/
theorem load_address_edge (env : Env) (hwf : env.WellFormed) (s5 s2 : DDDG)
    (hL : InstructionLine) (pL : ParameterLine) (w : Int) (hI5 : Inv s5)
    (hload : hL.microop = env.LLVM_IR_Load)
    (hd : parse_instruction_line env hL s5 = some s2)
    (hlast : find (pL.value.as_addr &&& env.ADDR_MASK) s2.address_last_written = some w) :
    ∃ s3, parse_parameter env 1 pL s2 = some s3 ∧
      s3.memory_edge_table = s2.memory_edge_table ++ [(w, ⟨s2.num_of_instructions, -1⟩)] ∧
      s3.num_of_mem_dep = s2.num_of_mem_dep + 1 ∧
      s3.memory_edge_table.countP (fun e =>
        decide (e.1 = w ∧ e.2.sink_node = s2.num_of_instructions)) = 1 := by
  obtain ⟨r0, _, he⟩ := parse_instruction_line_eq env hL s5 s2 hd
  have hm : s2.curr_microop = some env.LLVM_IR_Load := by
    rw [he, hload, hwf.byte env.LLVM_IR_Load (by simp [Env.opcodes])]
  have hnode : s2.curr_node = some ⟨s5.num_of_instructions + 1, hL.microop⟩ := by rw [he]
  have hn : s2.num_of_instructions = s5.num_of_instructions + 1 := by rw [he]
  have hmet : s2.memory_edge_table = s5.memory_edge_table := by rw [he]
  have hsink : ∀ e ∈ s2.memory_edge_table, e.2.sink_node ≠ s2.num_of_instructions := by
    intro e hmem
    rw [hmet] at hmem
    have := (hI5.2.2.2.1 e hmem).2.2.1
    omega
  unfold parse_parameter
  rw [if_neg (fun hc => hwf.load_ne_phi (Option.some.inj (hm.symm.trans hc.1)))]
  obtain ⟨np, cf, cdf, hl⟩ := parse_parameter_latch_frame env 1 pL s2
  obtain ⟨u, t, n, l, w2, hr⟩ := parse_parameter_reg_frame env 1 pL
    (parse_parameter_latch env 1 pL s2)
  rw [parse_parameter_mem_load env pL _ _ (by rw [hr, hl]; exact hm)
    (by rw [hr, hl]; exact hnode)]
  rw [hr, hl]
  rw [handle_post_write_dependency_new _ _ w (by exact hlast)
    (by intro e hmem _; exact hsink e hmem)]
  refine ⟨_, rfl, rfl, rfl, ?_⟩
  dsimp only
  rw [List.countP_append, List.countP_eq_zero.2, List.countP_cons_of_pos]
  · rfl
  · simp
  · intro e hmem
    simp only [decide_eq_true_eq, not_and]
    intro _
    exact hsink e hmem

/-- In ready mode a DMALoad node is not a writer, so no memory edge leaves
it. -/
theorem no_edge_from_dma_load (env : Env) (s : DDDG) (d : Int) (nd : Node)
    (hwf : env.WellFormed) (hready : env.isReadyMode = true) (hR : Registry env s)
    (hnd : getNodeFromNodeId s.calls d = some nd)
    (hm : nd.microop % 256 = env.LLVM_IR_DMALoad) :
    ∀ e ∈ s.memory_edge_table, e.1 ≠ d := by
  intro e he hd
  obtain ⟨node, hf, hw⟩ := hR.2.2.2 e he
  rw [hd, hnd] at hf
  have : nd = node := Option.some.inj hf
  subst this
  rcases hw with hw | ⟨hw, _⟩
  · exact hwf.dmaload_ne_store (hm.symm.trans hw)
  · rw [hready] at hw
    exact absurd hw (by simp)

/-- In ready mode the result record of a DMALoad leaves
`address_last_written` as it is. -/
theorem parse_result_ready (env : Env) (r : ResultLine) (s s1 : DDDG)
    (hready : env.isReadyMode = true) (hm : s.curr_microop = some env.LLVM_IR_DMALoad)
    (h : parse_result env r s = some s1) :
    s1.address_last_written = s.address_last_written ∧
      s1.memory_edge_table = s.memory_edge_table := by
  obtain ⟨node, c, _, _, h1 | ⟨_, h1⟩⟩ := parse_result_cases env r s s1 h
  · rw [h1]
    exact ⟨rfl, rfl⟩
  · unfold parse_result_dma at h1
    split at h1
    · dsimp only at h1
      rw [if_pos hm] at h1
      simp only [hready, Bool.not_true, Bool.false_eq_true, if_false, Option.some.injEq] at h1
      rw [← h1]
      exact ⟨rfl, rfl⟩
    · simp at h1

/-! ## The loop over the lines of the trace -/

theorem labelmap_scan_keeps (sc : Scanner) (b : BuildState) (l : String) :
    (labelmap_scan sc b l).1.first_function_returned = b.first_function_returned ∧
    (labelmap_scan sc b l).1.seen_first_line = b.seen_first_line ∧
    (labelmap_scan sc b l).1.first_function = b.first_function ∧
    (labelmap_scan sc b l).1.dddg = { b.dddg with labelmap := (labelmap_scan sc b l).1.dddg.labelmap } := by
  unfold labelmap_scan parse_labelmap_line
  split_ifs <;> exact ⟨rfl, rfl, rfl, rfl⟩

/-- A line without a comma, read before the first function has returned,
changes nothing but what the scan for the label map changes, and the loop goes
on. -/
theorem build_line_no_comma (env : Env) (sc : Scanner) (b : BuildState) (l : String)
    (hc : ',' ∉ l.data) (hr : b.first_function_returned = false) :
    build_line env sc b l = some ((labelmap_scan sc b l).1, false) := by
  unfold build_line
  dsimp only
  by_cases h2 : (labelmap_scan sc b l).2 = true
  · rw [if_pos h2]
  · rw [if_neg h2, if_pos hc, (labelmap_scan_keeps sc b l).1, hr]
    rfl

theorem build_loop_parsed (env : Env) (sc : Scanner) (b : BuildState) (trace : List String)
    (h : ∀ l ∈ trace, ',' ∉ l.data) (hr : b.first_function_returned = false)
    (hp : b.labelmap_parsed_or_not_present = true) :
    build_loop env sc b trace = some b := by
  induction trace with
  | nil => rfl
  | cons l trace ih =>
    simp only [build_loop]
    rw [build_line_no_comma env sc b l (h l (List.mem_cons_self _ _)) hr]
    have : labelmap_scan sc b l = (b, false) := by
      unfold labelmap_scan
      simp [hp]
    rw [this]
    exact ih fun x hx => h x (List.mem_cons_of_mem _ hx)

theorem build_loop_in_section (env : Env) (sc : Scanner) (b : BuildState)
    (trace : List String) (h : ∀ l ∈ trace, ',' ∉ l.data)
    (hr : b.first_function_returned = false)
    (hp : b.labelmap_parsed_or_not_present = false) (hi : b.in_labelmap_section = true) :
    ∃ b1, build_loop env sc b trace = some b1 ∧
      b1.dddg = { b.dddg with
        labelmap := b.dddg.labelmap ++
          (trace.takeWhile fun l => !contains_text l LABEL_MAP_END).map sc.scan_labelmap } := by
  induction trace generalizing b with
  | nil => exact ⟨b, rfl, by simp⟩
  | cons l trace ih =>
    simp only [build_loop]
    rw [build_line_no_comma env sc b l (h l (List.mem_cons_self _ _)) hr]
    by_cases hend : contains_text l LABEL_MAP_END = true
    · have : labelmap_scan sc b l =
          ({ b with labelmap_parsed_or_not_present := true, in_labelmap_section := false },
            true) := by
        unfold labelmap_scan
        simp [hp, hi, hend]
      rw [this]
      refine ⟨_, build_loop_parsed env sc _ trace
        (fun x hx => h x (List.mem_cons_of_mem _ hx)) hr rfl, ?_⟩
      simp [List.takeWhile, hend]
    · have : labelmap_scan sc b l =
          ({ b with dddg := parse_labelmap_line sc l b.dddg }, false) := by
        unfold labelmap_scan
        simp [hp, hi, hend]
      rw [this]
      obtain ⟨b1, h1, h2⟩ := ih { b with dddg := parse_labelmap_line sc l b.dddg }
        (fun x hx => h x (List.mem_cons_of_mem _ hx)) hr hp hi
      refine ⟨b1, h1, ?_⟩
      rw [h2]
      simp [parse_labelmap_line, List.takeWhile, hend]

theorem build_loop_before_section (env : Env) (sc : Scanner) (b : BuildState)
    (trace : List String) (h : ∀ l ∈ trace, ',' ∉ l.data)
    (hr : b.first_function_returned = false)
    (hp : b.labelmap_parsed_or_not_present = false) (hi : b.in_labelmap_section = false) :
    ∃ b1, build_loop env sc b trace = some b1 ∧
      b1.dddg = { b.dddg with
        labelmap := b.dddg.labelmap ++ (label_map_section trace).map sc.scan_labelmap } := by
  induction trace generalizing b with
  | nil => exact ⟨b, rfl, by simp [label_map_section]⟩
  | cons l trace ih =>
    simp only [build_loop]
    rw [build_line_no_comma env sc b l (h l (List.mem_cons_self _ _)) hr]
    by_cases hstart : contains_text l LABEL_MAP_START = true
    · have : labelmap_scan sc b l = ({ b with in_labelmap_section := true }, true) := by
        unfold labelmap_scan
        simp [hp, hi, hstart]
      rw [this]
      obtain ⟨b1, h1, h2⟩ := build_loop_in_section env sc { b with in_labelmap_section := true }
        trace (fun x hx => h x (List.mem_cons_of_mem _ hx)) hr hp rfl
      refine ⟨b1, h1, ?_⟩
      rw [h2]
      simp [label_map_section, List.dropWhile, hstart]
    · have : labelmap_scan sc b l = (b, false) := by
        unfold labelmap_scan
        simp [hp, hi, hstart]
      rw [this]
      obtain ⟨b1, h1, h2⟩ := ih b (fun x hx => h x (List.mem_cons_of_mem _ hx)) hr hp hi
      refine ⟨b1, h1, ?_⟩
      rw [h2]
      simp [label_map_section, List.dropWhile, hstart]

/-- C16. For a trace none of whose lines contains a comma,
`build_initial_dddg` finishes with `num_nodes() = 0` and `num_edges() = 0`,
makes none of the calls on the datapath that `SinkCall` lists (so no
`insertNode` and no `addDddgEdge` call), and has passed to
`parse_labelmap_line`, in order, exactly the lines
after the first line with the START marker up to the next line with the END
marker. -/
theorem header_free_trace (env : Env) (sc : Scanner) (trace : List String)
    (h : ∀ l ∈ trace, ',' ∉ l.data) :
    ∃ s, build_initial_dddg env sc DDDG.init trace = some s ∧
      s.num_nodes = 0 ∧ s.num_edges = 0 ∧ s.calls = [] ∧
      s.labelmap = (label_map_section trace).map sc.scan_labelmap := by
  obtain ⟨b1, h1, h2⟩ := build_loop_before_section env sc (BuildState.start DDDG.init) trace h
    rfl rfl rfl
  unfold build_initial_dddg
  rw [h1]
  refine ⟨output_dddg b1.dddg, rfl, ?_, ?_, ?_, ?_⟩
  · rw [h2]
    rfl
  · rw [h2]
    rfl
  · rw [h2]
    rfl
  · rw [h2]
    simp [output_dddg, BuildState.start, DDDG.init]

/-- A trace that holds only a label map: no node, no edge, no call, and the
two lines of the map are recorded. -/
theorem header_free_trace_witness :
    ∃ s, build_initial_dddg sample_env sample_scanner DDDG.init S10_labelmap = some s ∧
      s.num_nodes = 0 ∧ s.num_edges = 0 ∧ s.calls = [] ∧
      s.labelmap = [(12, "kernel", "loop"), (20, "kernel", "exit")] := by
  obtain ⟨s, h1, h2, h3, h4, h5⟩ :=
    header_free_trace sample_env sample_scanner S10_labelmap (by decide)
  exact ⟨s, h1, h2, h3, h4, h5.trans (by decide)⟩

theorem classify_not_header (sc : Scanner) (tag line_left : String) (h : tag ≠ "0") :
    ∀ hd, classify sc tag line_left ≠ Record.header hd := by
  intro hd
  unfold classify
  rw [if_neg h]
  split_ifs <;> simp

/-- Once the first function has returned, a line with a comma that is not a
header is dispatched and the loop goes on; the number of nodes stays. -/
theorem build_line_returned (env : Env) (sc : Scanner) (b : BuildState) (l : String)
    (hp : b.labelmap_parsed_or_not_present = true) (hc : ',' ∈ l.data)
    (ht : tag_of l ≠ "0") :
    build_line env sc b l =
      (dispatch env b.dddg (classify sc (tag_of l) (line_left_of l))).map fun d =>
        ({ b with dddg := d }, false) := by
  have hs : labelmap_scan sc b l = (b, false) := by
    unfold labelmap_scan
    simp [hp]
  unfold build_line
  simp only [hs, Bool.false_eq_true, if_false, hc, not_true_eq_false, ht]
  cases b
  simp only at hp
  subst hp
  rfl

theorem build_loop_returned (env : Env) (sc : Scanner) (b : BuildState)
    (mid post : List String) (blank : String)
    (hp : b.labelmap_parsed_or_not_present = true)
    (hr : b.first_function_returned = true)
    (hmid : ∀ l ∈ mid, ',' ∈ l.data ∧ tag_of l ≠ "0") (hblank : ',' ∉ blank.data) :
    build_loop env sc b (mid ++ blank :: post) = build_loop env sc b (mid ++ [blank]) ∧
    ∀ b1, build_loop env sc b (mid ++ blank :: post) = some b1 →
      b1.dddg.num_of_instructions = b.dddg.num_of_instructions := by
  induction mid generalizing b with
  | nil =>
    have hs : labelmap_scan sc b blank = (b, false) := by
      unfold labelmap_scan
      simp [hp]
    have hl : build_line env sc b blank = some (b, true) := by
      unfold build_line
      simp only [hs, Bool.false_eq_true, if_false, hblank, not_false_eq_true, if_true, hr]
    simp only [List.nil_append, build_loop, hl]
    refine ⟨trivial, ?_⟩
    intro b1 h1
    rw [← Option.some.inj h1]
  | cons l mid ih =>
    obtain ⟨hc, ht⟩ := hmid l (List.mem_cons_self _ _)
    simp only [List.cons_append, build_loop, build_line_returned env sc b l hp hc ht]
    cases hd : dispatch env b.dddg (classify sc (tag_of l) (line_left_of l)) with
    | none => simp
    | some d =>
      simp only [Option.map_some']
      have hn := dispatch_num_of_instructions env b.dddg d _
        (classify_not_header sc (tag_of l) (line_left_of l) ht) hd
      obtain ⟨i1, i2⟩ := ih { b with dddg := d } hp hr
        (fun x hx => hmid x (List.mem_cons_of_mem _ hx))
      refine ⟨i1, ?_⟩
      intro b1 h1
      rw [i2 b1 h1]
      exact hn

/-- C14, as amended.  Let a line be read that the scan for the label map does
not take, that is a header (tag `0`), and that is a Ret of `first_function`
(the function of the first header, which may be this very line).  If the lines
`mid` that follow all have a comma and none is a header, and the line `blank`
after them has no comma, then the build stops at `blank`: the lines `post`
after it have no influence on the result, and when the build finishes, the
last node is the one of that Ret, `mid` having been dispatched without
creating a node. -/
theorem first_function_termination (env : Env) (sc : Scanner) (b0 : BuildState)
    (line blank : String) (mid post : List String)
    (hscan : (labelmap_scan sc b0 line).2 = false)
    (hcomma : ',' ∈ line.data) (htag : tag_of line = "0")
    (hret : is_function_returned env sc (line_left_of line)
      (if b0.seen_first_line then b0.first_function
        else parse_function_name sc (line_left_of line)) = true)
    (hmid : ∀ l ∈ mid, ',' ∈ l.data ∧ tag_of l ≠ "0") (hblank : ',' ∉ blank.data) :
    build_loop env sc b0 (line :: mid ++ blank :: post) =
      build_loop env sc b0 (line :: mid ++ [blank]) ∧
    ∀ b1, build_loop env sc b0 (line :: mid ++ blank :: post) = some b1 →
      b1.dddg.num_of_instructions = b0.dddg.num_of_instructions + 1 := by
  obtain ⟨k1, k2, k3, k4⟩ := labelmap_scan_keeps sc b0 line
  have hl : ∃ f, build_line env sc b0 line =
      (parse_instruction_line env (sc.scan_instruction (line_left_of line))
        (labelmap_scan sc b0 line).1.dddg).map fun d =>
        ({ (labelmap_scan sc b0 line).1 with
            labelmap_parsed_or_not_present := true
            seen_first_line := true
            first_function := f
            first_function_returned := true
            dddg := d }, false) := by
    unfold build_line
    simp only [hscan, Bool.false_eq_true, if_false, hcomma, not_true_eq_false, htag, if_true,
      classify, dispatch, k2, k3]
    cases hseen : b0.seen_first_line with
    | true =>
      rw [hseen] at hret
      simp only [if_true] at hret
      simp only [Bool.not_true, Bool.false_eq_true, if_false, k3, hret]
      exact ⟨b0.first_function, rfl⟩
    | false =>
      rw [hseen] at hret
      simp only [Bool.false_eq_true, if_false] at hret
      simp only [Bool.not_false, if_true, hret]
      exact ⟨_, rfl⟩
  obtain ⟨f, hl⟩ := hl
  simp only [List.cons_append, build_loop, hl]
  cases hd : parse_instruction_line env (sc.scan_instruction (line_left_of line))
      (labelmap_scan sc b0 line).1.dddg with
  | none => simp
  | some d =>
    simp only [Option.map_some']
    obtain ⟨r0, _, he⟩ := parse_instruction_line_eq env _ _ d hd
    have hn : d.num_of_instructions = b0.dddg.num_of_instructions + 1 := by
      rw [he, k4]
    obtain ⟨i1, i2⟩ := build_loop_returned env sc
      { (labelmap_scan sc b0 line).1 with
        labelmap_parsed_or_not_present := true
        seen_first_line := true
        first_function := f
        first_function_returned := true
        dddg := d } mid post blank rfl rfl hmid hblank
    refine ⟨i1, ?_⟩
    intro b1 h1
    rw [i2 b1 h1]
    exact hn

/-- The build of `S10_return` stops at the empty line: the operand of the Ret
is still processed (it latches `num_of_parameters`), and the header of `g`
after the empty line creates no node. -/
theorem first_function_termination_witness :
    ∃ b1, build_loop sample_env sample_scanner (BuildState.start DDDG.init) S10_return =
        some b1 ∧ b1.dddg.num_of_parameters = some 1 ∧ b1.dddg.num_nodes = 1 := by
  have h := first_function_termination sample_env sample_scanner (BuildState.start DDDG.init)
    "0,2,f,bb0,i2,1,0\n" "\n" ["1,32,0,0,v,\n"] ["0,3,g,bb0,i3,8,1\n"] (by decide) (by decide)
    (by decide) (by decide) (by decide) (by decide)
  have hb : build_loop sample_env sample_scanner (BuildState.start DDDG.init) S10_return =
      some ((build_loop sample_env sample_scanner (BuildState.start DDDG.init)
        S10_return).getD (BuildState.start DDDG.init)) := by decide
  refine ⟨_, hb, by decide, ?_⟩
  unfold DDDG.num_nodes
  rw [h.2 _ hb]
  decide

/-- C14 does not hold as stated: in `S10_headers` the second line is a Ret of
the first function `f`, and the header of `g` after it is still processed: the
build ends with three nodes, not two. -/
theorem first_function_termination_counterexample :
    parse_function_name sample_scanner (line_left_of "0,1,f,bb0,i1,8,0\n") = "f" ∧
    is_function_returned sample_env sample_scanner (line_left_of "0,2,f,bb0,i2,1,1\n") "f"
      = true ∧
    ∃ s, build_initial_dddg sample_env sample_scanner DDDG.init S10_headers = some s ∧
      s.num_nodes = 3 := by
  refine ⟨by decide, by decide, ?_⟩
  exact ⟨(build_initial_dddg sample_env sample_scanner DDDG.init S10_headers).getD DDDG.init,
    by decide, by decide⟩

/-! ## The operand-slot bound -/

theorem find_none_of_keys {κ ν : Type} [DecidableEq κ] (k : κ) (m : List (κ × ν))
    (h : ∀ x ∈ m, x.1 ≠ k) : find k m = none := by
  induction m with
  | nil => rfl
  | cons a m ih =>
    obtain ⟨k', v'⟩ := a
    have hk : ¬ k' = k := h (k', v') (List.mem_cons_self _ _)
    simp only [find, if_neg hk]
    exact ih fun x hx => h x (List.mem_cons_of_mem _ hx)

theorem find_append_some {κ ν : Type} [DecidableEq κ] (k : κ) (v : ν) (m m2 : List (κ × ν))
    (h : find k m = some v) : find k (m ++ m2) = some v := by
  rw [find_append, h]
  rfl

/-- A parameter record that passes the Phi filter: what it latches and the
register edge it may append. -/
theorem parse_parameter_slots (env : Env) (k : Int) (p : ParameterLine) (s s1 : DDDG)
    (hf : ¬ (s.curr_microop = some env.LLVM_IR_PHI ∧ s.prev_bblock ≠ p.prev_bbid))
    (h : parse_parameter env k p s = some s1) :
    s1.last_parameter = true ∧
    s1.num_of_parameters =
      (if s.last_parameter = true then s.num_of_parameters else some k) ∧
    s1.num_of_instructions = s.num_of_instructions ∧
    (s1.register_edge_table = s.register_edge_table ∨
      ∃ w, s1.register_edge_table =
        s.register_edge_table ++ [(w, ⟨s.num_of_instructions, k⟩)]) := by
  unfold parse_parameter at h
  rw [if_neg hf] at h
  obtain ⟨c, pv, ps, pl, t2, n2, a, hm⟩ := parse_parameter_mem_frame env k p _ s1 h
  have hlatch : ∃ cf cdf, parse_parameter_latch env k p s =
      { s with
        num_of_parameters := if s.last_parameter = true then s.num_of_parameters else some k
        callee_function := cf
        callee_dynamic_function := cdf
        last_parameter := true
        last_call_source := some (-1) } := by
    unfold parse_parameter_latch
    by_cases hlp : s.last_parameter = true
    · simp only [hlp, if_true]
      exact ⟨s.callee_function, s.callee_dynamic_function, rfl⟩
    · simp only [hlp, if_false]
      exact ⟨_, _, rfl⟩
  obtain ⟨cf, cdf, hl⟩ := hlatch
  by_cases hreg : p.is_reg = 0
  · have hr : parse_parameter_reg env k p (parse_parameter_latch env k p s) =
        parse_parameter_latch env k p s := by
      unfold parse_parameter_reg
      rw [if_pos hreg]
    rw [hm, hr, hl]
    exact ⟨rfl, rfl, rfl, Or.inl rfl⟩
  · cases hw : find (s.curr_dynamic_function ++ "-" ++ p.label) s.register_last_written with
    | some w =>
      rw [hm, parse_parameter_reg_found env k p _ w hreg (by rw [hl]; exact hw), hl]
      exact ⟨rfl, rfl, rfl, Or.inr ⟨w, rfl⟩⟩
    | none =>
      rw [hm, parse_parameter_reg_missing env k p _ hreg (by rw [hl]; exact hw), hl]
      exact ⟨rfl, rfl, rfl, Or.inl rfl⟩

theorem SlotsOK_dispatch (env : Env) (s s1 : DDDG) (r : Record) (L : List (Int × Int))
    (hJ : SlotsOK s L) (hd : dispatch env s r = some s1)
    (ht : tags_descend env s r = true) : SlotsOK s1 (L ++ latch_of env s r) := by
  obtain ⟨j1, j2, j3, j4⟩ := hJ
  cases r with
  | header h =>
    obtain ⟨r0, _, he⟩ := parse_instruction_line_eq env h s s1 hd
    simp only [latch_of, List.append_nil]
    rw [he]
    refine ⟨j1, ?_, ?_, ?_⟩
    · intro x hx
      have := j2 x hx
      show x.1 ≤ s.num_of_instructions + 1
      omega
    · intro hlp
      exact absurd hlp (by simp)
    · intro _
      refine find_none_of_keys _ _ fun x hx e => ?_
      have := j2 x hx
      rw [e] at this
      have h2 : s.num_of_instructions + 1 ≤ s.num_of_instructions := this
      omega
  | result r =>
    obtain ⟨c, t, n, a, hf⟩ := parse_result_frame env r s s1 hd
    simp only [latch_of, List.append_nil]
    rw [hf]
    exact ⟨j1, j2, j3, j4⟩
  | forward f =>
    obtain ⟨node, src, _, _, _, _, he⟩ := parse_forward_eq env f s s1 hd
    simp only [latch_of, List.append_nil]
    rw [he]
    exact ⟨j1, j2, j3, j4⟩
  | parameter k p =>
    by_cases hf : s.curr_microop = some env.LLVM_IR_PHI ∧ s.prev_bblock ≠ p.prev_bbid
    · simp only [dispatch] at hd
      unfold parse_parameter at hd
      rw [if_pos hf] at hd
      have hfl : is_filtered env s (.parameter k p) = true := by
        simp only [is_filtered, decide_eq_true_eq]
        exact hf
      simp only [latch_of, hfl, Bool.true_eq_false, false_and, if_false, List.append_nil]
      rw [← Option.some.inj hd]
      exact ⟨j1, j2, j3, j4⟩
    · have hfl : is_filtered env s (.parameter k p) = false := by
        simp only [is_filtered, decide_eq_false_iff_not]
        exact hf
      obtain ⟨q1, q2, q3, q4⟩ := parse_parameter_slots env k p s s1 hf hd
      simp only [tags_descend, hfl, Bool.false_or, Bool.and_eq_true, decide_eq_true_eq,
        Bool.or_eq_true, Bool.not_eq_true'] at ht
      obtain ⟨hpos, hle⟩ := ht
      by_cases hlp : s.last_parameter = true
      · -- a later parameter of the instruction
        obtain ⟨m, hm1, hm2⟩ := j3 hlp
        have hk : k ≤ m := by
          rcases hle with hle | hle
          · rw [hlp] at hle
            exact absurd hle (by simp)
          · rw [hm1] at hle
            simpa using hle
        have hL : latch_of env s (.parameter k p) = [] := by
          simp [latch_of, hlp]
        rw [hL, List.append_nil]
        refine ⟨?_, ?_, ?_, ?_⟩
        · intro e he
          rcases q4 with q4 | ⟨w, q4⟩
          · rw [q4] at he
            exact j1 e he
          · rw [q4] at he
            rcases List.mem_append.1 he with he | he
            · exact j1 e he
            · rw [List.mem_singleton] at he
              subst he
              exact ⟨hpos, m, hm2, hk⟩
        · intro x hx
          rw [q3]
          exact j2 x hx
        · intro _
          rw [q2, if_pos hlp, q3]
          exact ⟨m, hm1, hm2⟩
        · intro h0
          rw [q1] at h0
          exact absurd h0 (by simp)
      · -- the first parameter of the instruction
        have hlp2 : s.last_parameter = false := by simpa using hlp
        have hnone := j4 hlp2
        have hL : latch_of env s (.parameter k p) = [(s.num_of_instructions, k)] := by
          simp [latch_of, hfl, hlp2]
        have hnew : find s.num_of_instructions (L ++ [(s.num_of_instructions, k)]) =
            some k := by
          rw [find_append, hnone]
          simp [find]
        rw [hL]
        refine ⟨?_, ?_, ?_, ?_⟩
        · intro e he
          have hold : ∀ e ∈ s.register_edge_table, 0 < e.2.par_id ∧
              ∃ m, find e.2.sink_node (L ++ [(s.num_of_instructions, k)]) = some m ∧
                e.2.par_id ≤ m := by
            intro e he
            obtain ⟨h1, m, h2, h3⟩ := j1 e he
            exact ⟨h1, m, find_append_some _ _ _ _ h2, h3⟩
          rcases q4 with q4 | ⟨w, q4⟩
          · rw [q4] at he
            exact hold e he
          · rw [q4] at he
            rcases List.mem_append.1 he with he | he
            · exact hold e he
            · rw [List.mem_singleton] at he
              subst he
              exact ⟨hpos, k, hnew, le_refl _⟩
        · intro x hx
          rw [q3]
          rcases List.mem_append.1 hx with hx | hx
          · exact j2 x hx
          · rw [List.mem_singleton] at hx
            subst hx
            exact le_refl _
        · intro _
          rw [q2, if_neg hlp, q3]
          exact ⟨k, rfl, hnew⟩
        · intro h0
          rw [q1] at h0
          exact absurd h0 (by simp)

theorem SlotsOK_run (env : Env) (t : List Record) (s s1 : DDDG) (L : List (Int × Int))
    (hJ : SlotsOK s L) (hrun : run env s t = some s1)
    (ht : along env (tags_descend env) s t = true) :
    SlotsOK s1 (L ++ latched_counts env s t) := by
  induction t generalizing s L with
  | nil =>
    simp only [run, Option.some.injEq] at hrun
    rw [← hrun]
    simpa [latched_counts] using hJ
  | cons r t ih =>
    simp only [run] at hrun
    cases hd : dispatch env s r with
    | none => simp [hd] at hrun
    | some s2 =>
      simp only [hd] at hrun
      simp only [along, hd, Bool.and_eq_true] at ht
      have := ih s2 (L ++ latch_of env s r) (SlotsOK_dispatch env s s2 r L hJ hd ht.1) hrun ht.2
      simp only [latched_counts, hd]
      rw [← List.append_assoc]
      exact this

/-- C15, as amended.  Let a trace be processed from the initial state, every
parameter record that passes the Phi filter having a positive tag (the value
`atoi` gives) that, unless the record is the first of its instruction, does not
exceed `num_of_parameters`.  Then for every register edge `(s, t, par_id)` in
`register_edge_table`, `par_id` is positive and at most the operand count
latched for instruction `t`, the tag of the first processed parameter of
`t`. -/
theorem operand_slot_bound (env : Env) (t : List Record) (s : DDDG)
    (hrun : run env DDDG.init t = some s)
    (htags : along env (tags_descend env) DDDG.init t = true) :
    ∀ e ∈ s.register_edge_table,
      0 < e.2.par_id ∧
        ∃ m, find e.2.sink_node (latched_counts env DDDG.init t) = some m ∧
          e.2.par_id ≤ m := by
  have h0 : SlotsOK DDDG.init [] := by
    refine ⟨?_, ?_, ?_, ?_⟩
    · intro e he
      simp [DDDG.init] at he
    · intro x hx
      simp at hx
    · intro h
      simp [DDDG.init] at h
    · intro _
      rfl
  have := SlotsOK_run env t DDDG.init s [] h0 hrun htags
  rw [List.nil_append] at this
  exact this.1

/-- In `S11_trace` the second instruction latches the operand count 2 and its
two register edges carry the slots 2 and 1. -/
theorem operand_slot_bound_witness :
    latched_counts sample_env DDDG.init S11_trace = [(1, 2)] ∧
    ∃ s, run sample_env DDDG.init S11_trace = some s ∧
      s.register_edge_table = [(0, ⟨1, 2⟩), (0, ⟨1, 1⟩)] ∧
      ∀ e ∈ s.register_edge_table,
        0 < e.2.par_id ∧
          ∃ m, find e.2.sink_node (latched_counts sample_env DDDG.init S11_trace) = some m ∧
            e.2.par_id ≤ m := by
  refine ⟨by decide, (run sample_env DDDG.init S11_trace).getD DDDG.init, by decide,
    by decide, ?_⟩
  exact operand_slot_bound sample_env S11_trace _ (by decide) (by decide)

/-- C15 does not hold as stated: in `S11_lines` the second instruction reads
`x` three times, under the tags `1`, `2` and `x`.  The first one latches the
operand count 1; the second one gives a register edge with `par_id = 2`, above
that count; the third one, whose tag `atoi` turns into 0, gives a register
edge with `par_id = 0`. -/
theorem operand_slot_counterexample :
    atoi "x" = 0 ∧
    ∃ s, build_initial_dddg sample_env sample_scanner DDDG.init S11_lines = some s ∧
      s.num_of_parameters = some 1 ∧
      s.register_edge_table = [(0, ⟨1, 1⟩), (0, ⟨1, 2⟩), (0, ⟨1, 0⟩)] := by
  refine ⟨by decide, ?_⟩
  exact ⟨(build_initial_dddg sample_env sample_scanner DDDG.init S11_lines).getD DDDG.init,
    by decide, by decide, by decide⟩

/-! ## Callee ids -/

theorem takeWhile_dash (a b : List Char) (ha : '-' ∉ a) :
    (a ++ '-' :: b).takeWhile (fun c => c != '-') = a ∧
    (a ++ '-' :: b).dropWhile (fun c => c != '-') = '-' :: b := by
  induction a with
  | nil => simp [List.takeWhile, List.dropWhile]
  | cons c a ih =>
    have hc : c ≠ '-' := fun e => ha (by simp [e])
    have ha2 : '-' ∉ a := fun e => ha (List.mem_cons_of_mem _ e)
    obtain ⟨i1, i2⟩ := ih ha2
    have hb : (c != '-') = true := by simp [hc]
    simp only [List.cons_append, List.takeWhile_cons, List.dropWhile_cons, hb, if_true, i1, i2,
      and_self]

/-- What `sscanf` reads from a dynamic function id whose function name is not
empty and has no `-`: the name, and the number after the `-`. -/
theorem sscanf_top_id (A x : String) (hA : '-' ∉ A.data) (hne : A ≠ "") :
    sscanf_top (A ++ "-" ++ x) = (some A, scan_unsigned x.data) := by
  have hd : A.data ≠ [] := by
    intro e
    apply hne
    exact String.ext e
  obtain ⟨t1, t2⟩ := takeWhile_dash A.data x.data hA
  unfold sscanf_top
  simp only [String.data_append, dash_data, List.append_assoc, List.singleton_append, t1, t2,
    hd, if_false]

/-- The name read from an id formed with a name without `-` is that name. -/
theorem sscanf_top_name (A x name : String) (pc : Option Nat) (hA : '-' ∉ A.data)
    (h : sscanf_top (A ++ "-" ++ x) = (some name, pc)) : name = A := by
  by_cases hne : A = ""
  · subst hne
    have : sscanf_top ("" ++ "-" ++ x) = (none, none) := by
      unfold sscanf_top
      simp [List.takeWhile]
    rw [this] at h
    exact absurd (congrArg Prod.fst h) (by simp)
  · rw [sscanf_top_id A x hA hne] at h
    exact (Option.some.inj (congrArg Prod.fst h)).symm

theorem find_assign_ne_none {κ ν : Type} [DecidableEq κ] (k k2 : κ) (v : ν)
    (m : List (κ × ν)) (h : find k2 m ≠ none) : find k2 (assign k v m) ≠ none := by
  by_cases hk : k2 = k
  · subst hk
    rw [find_assign_self k2 v m h]
    simp
  · rw [find_assign_other k k2 v m hk]
    exact h

theorem find_append_ne_none {κ ν : Type} [DecidableEq κ] (k : κ) (m m2 : List (κ × ν))
    (h : find k m ≠ none) : find k (m ++ m2) ≠ none := by
  cases hf : find k m with
  | none => exact absurd hf h
  | some v =>
    rw [find_append_some k v m m2 hf]
    simp

theorem CountersOK_init : CountersOK DDDG.init := by
  intro x hx
  simp [DDDG.init] at hx

theorem CountersOK_parse_instruction_line (env : Env) (h : InstructionLine) (s s1 : DDDG)
    (hname : '-' ∉ h.curr_static_function.data) (hC : CountersOK s)
    (hs : parse_instruction_line env h s = some s1) : CountersOK s1 := by
  obtain ⟨r0, hr0, he⟩ := parse_instruction_line_eq env h s s1 hs
  -- the resolution against the top of the stack
  have h0 : ∀ x ∈ r0.active_method, ∀ name pc, sscanf_top x = (some name, pc) →
      find name r0.function_counter ≠ none := by
    unfold resolve_active at hr0
    cases hst : s.active_method with
    | nil =>
      simp only [hst, Option.some.injEq] at hr0
      subst hr0
      intro x hx
      simp at hx
    | cons top rest =>
      simp only [hst] at hr0
      split at hr0
      · simp at hr0
      · rename_i ps pc0 hsc
        obtain ⟨r1, hr1, hg⟩ := Option.map_eq_some'.1 hr0
        have h1 : ∀ x ∈ r1.active_method, ∀ name pc, sscanf_top x = (some name, pc) →
            find name r1.function_counter ≠ none := by
          split_ifs at hr1 with c1 c2
          · cases hf : find h.curr_static_function s.function_counter with
            | none => simp [hf] at hr1
            | some c =>
              simp only [hf, Option.some.injEq] at hr1
              rw [← hr1]
              intro x hx name pc hp
              rcases List.mem_cons.1 hx with hx | hx
              · rw [hx] at hp
                have := sscanf_top_name _ _ _ _ hname hp
                rw [this]
                exact find_assign_ne_none _ _ _ _ (by rw [hf]; simp)
              · exact find_assign_ne_none _ _ _ _ (hC x (by rw [hst]; exact hx) name pc hp)
          · cases pc0 with
            | none => simp at hr1
            | some c =>
              simp only [Option.some.injEq] at hr1
              rw [← hr1]
              intro x hx name pc hp
              exact hC x (by rw [hst]; exact hx) name pc hp
          · simp only [Option.some.injEq] at hr1
            rw [← hr1]
            intro x hx name pc hp
            exact hC x (by rw [hst]; exact hx) name pc hp
        rw [← hg]
        split_ifs
        · intro x hx name pc hp
          exact h1 x (List.mem_of_mem_tail hx) name pc hp
        · exact h1
  -- a fresh invocation
  have hn : ∀ x ∈ (resolve_new h r0).active_method, ∀ name pc,
      sscanf_top x = (some name, pc) →
      find name (resolve_new h r0).function_counter ≠ none := by
    unfold resolve_new
    split_ifs
    · exact h0
    · intro x hx name pc hp
      dsimp only at hx ⊢
      cases hf : find h.curr_static_function r0.function_counter with
      | none =>
        simp only [hf] at hx ⊢
        rcases List.mem_cons.1 hx with hx | hx
        · rw [hx] at hp
          have := sscanf_top_name _ _ _ _ hname hp
          rw [this, find_append, hf]
          simp [find]
        · exact find_append_ne_none _ _ _ (h0 x hx name pc hp)
      | some c =>
        simp only [hf] at hx ⊢
        rcases List.mem_cons.1 hx with hx | hx
        · rw [hx] at hp
          have := sscanf_top_name _ _ _ _ hname hp
          rw [this]
          exact find_assign_ne_none _ _ _ _ (by rw [hf]; simp)
        · exact find_assign_ne_none _ _ _ _ (h0 x hx name pc hp)
  rw [he]
  exact hn

theorem CountersOK_run (env : Env) (t : List Record) (s s1 : DDDG)
    (hnames : ∀ hd, Record.header hd ∈ t → '-' ∉ hd.curr_static_function.data)
    (hC : CountersOK s) (hs : run env s t = some s1) : CountersOK s1 := by
  induction t generalizing s with
  | nil =>
    simp only [run, Option.some.injEq] at hs
    rw [← hs]
    exact hC
  | cons r t ih =>
    simp only [run] at hs
    cases hd : dispatch env s r with
    | none => simp [hd] at hs
    | some s2 =>
      simp only [hd] at hs
      refine ih s2 (fun x hx => hnames x (List.mem_cons_of_mem _ hx)) ?_ hs
      by_cases hr : ∀ h, r ≠ .header h
      · obtain ⟨_, _, _, _, _, hfc, hst⟩ := dispatch_keeps env s s2 r hr hd
        intro x hx name pc hp
        rw [hfc]
        exact hC x (by rw [← hst]; exact hx) name pc hp
      · push_neg at hr
        obtain ⟨hh, rfl⟩ := hr
        exact CountersOK_parse_instruction_line env hh s s2
          (hnames hh (List.mem_cons_self _ _)) hC hd

/-- After a header that is not a Ret the top of the stack is an id of the
function of that header. -/
theorem parse_instruction_line_top (env : Env) (h : InstructionLine) (s s1 : DDDG)
    (hname : '-' ∉ h.curr_static_function.data) (hne : h.curr_static_function ≠ "")
    (hret : h.microop ≠ env.LLVM_IR_Ret)
    (hs : parse_instruction_line env h s = some s1) :
    ∃ top rest pc, s1.active_method = top :: rest ∧
      sscanf_top top = (some h.curr_static_function, pc) := by
  obtain ⟨r0, hr0, he⟩ := parse_instruction_line_eq env h s s1 hs
  have hact : s1.active_method = (resolve_new h r0).active_method := by rw [he]
  rw [hact]
  have hnew : r0.curr_func_found = false →
      ∃ top rest pc, (resolve_new h r0).active_method = top :: rest ∧
        sscanf_top top = (some h.curr_static_function, pc) := by
    intro hf
    unfold resolve_new
    simp only [hf, Bool.false_eq_true, if_false]
    exact ⟨_, _, _, rfl, sscanf_top_id _ _ hname hne⟩
  have hold : r0.curr_func_found = true →
      (∃ top rest pc, r0.active_method = top :: rest ∧
        sscanf_top top = (some h.curr_static_function, pc)) →
      ∃ top rest pc, (resolve_new h r0).active_method = top :: rest ∧
        sscanf_top top = (some h.curr_static_function, pc) := by
    intro hf hx
    unfold resolve_new
    simp only [hf, if_true]
    exact hx
  unfold resolve_active at hr0
  cases hst : s.active_method with
  | nil =>
    simp only [hst, Option.some.injEq] at hr0
    exact hnew (by rw [← hr0])
  | cons top rest =>
    simp only [hst] at hr0
    split at hr0
    · simp at hr0
    · rename_i ps pc0 hsc
      obtain ⟨r1, hr1, hg⟩ := Option.map_eq_some'.1 hr0
      rw [if_neg hret] at hg
      subst hg
      split_ifs at hr1 with c1 c2
      · cases hf : find h.curr_static_function s.function_counter with
        | none => simp [hf] at hr1
        | some c =>
          simp only [hf, Option.some.injEq] at hr1
          refine hold (by rw [← hr1]) ?_
          rw [← hr1]
          exact ⟨_, _, _, rfl, sscanf_top_id _ _ hname hne⟩
      · cases pc0 with
        | none => simp at hr1
        | some c =>
          simp only [Option.some.injEq] at hr1
          refine hold (by rw [← hr1]) ?_
          rw [← hr1]
          exact ⟨top, rest, some c, rfl, by rw [hsc, c1]⟩
      · simp only [Option.some.injEq] at hr1
        exact hnew (by rw [← hr1])

/-- The first parameter of a Call latches the callee and predicts its dynamic
id (lines 241-252). -/
theorem parse_parameter_call_latch (env : Env) (k : Int) (p : ParameterLine) (s s1 : DDDG)
    (hwf : env.WellFormed) (hm : s.curr_microop = some env.LLVM_IR_Call)
    (hlp : s.last_parameter = false) (h : parse_parameter env k p s = some s1) :
    s1.callee_function = p.label ∧
    s1.callee_dynamic_function =
      (match find p.label s.function_counter with
        | some c => p.label ++ "-" ++ Nat.repr (c + 1)
        | none => p.label ++ "-0") ∧
    s1.last_parameter = true := by
  unfold parse_parameter at h
  rw [if_neg (fun hc => hwf.call_ne_phi (Option.some.inj (hm.symm.trans hc.1)))] at h
  obtain ⟨u, t, n, l, w, hr⟩ := parse_parameter_reg_frame env k p
    (parse_parameter_latch env k p s)
  obtain ⟨c, pv, ps, pl, t2, n2, a, hmf⟩ := parse_parameter_mem_frame env k p _ s1 h
  have hl : parse_parameter_latch env k p s =
      { s with
        num_of_parameters := some k
        callee_function := p.label
        callee_dynamic_function :=
          match find p.label s.function_counter with
          | some c => p.label ++ "-" ++ Nat.repr (c + 1)
          | none => p.label ++ "-0"
        last_parameter := true
        last_call_source := some (-1) } := by
    unfold parse_parameter_latch
    simp only [hlp, Bool.false_eq_true, if_false, if_pos hm]
  rw [hmf, hr, hl]
  exact ⟨rfl, rfl, rfl⟩

theorem dispatch_keeps_callee (env : Env) (s s1 : DDDG) (r : Record)
    (hr : ∀ h, r ≠ .header h) (hlp : s.last_parameter = true)
    (hs : dispatch env s r = some s1) :
    s1.last_parameter = true ∧ s1.callee_function = s.callee_function ∧
    s1.callee_dynamic_function = s.callee_dynamic_function := by
  cases r with
  | header h => exact absurd rfl (hr h)
  | result r =>
    obtain ⟨c, t, n, a, hf⟩ := parse_result_frame env r s s1 hs
    rw [hf]
    exact ⟨hlp, rfl, rfl⟩
  | forward f =>
    obtain ⟨node, src, _, _, _, _, he⟩ := parse_forward_eq env f s s1 hs
    rw [he]
    exact ⟨hlp, rfl, rfl⟩
  | parameter k p =>
    simp only [dispatch] at hs
    unfold parse_parameter at hs
    split_ifs at hs
    · simp only [Option.some.injEq] at hs
      rw [← hs]
      exact ⟨hlp, rfl, rfl⟩
    · obtain ⟨u, t, n, l, w, hrf⟩ := parse_parameter_reg_frame env k p
        (parse_parameter_latch env k p s)
      obtain ⟨c, pv, ps, pl, t2, n2, a, hmf⟩ := parse_parameter_mem_frame env k p _ s1 hs
      have hl : parse_parameter_latch env k p s =
          { s with last_parameter := true, last_call_source := some (-1) } := by
        unfold parse_parameter_latch
        simp only [hlp, if_true]
      rw [hmf, hrf, hl]
      exact ⟨rfl, rfl, rfl⟩

theorem run_keeps_callee (env : Env) (t : List Record) (s s1 : DDDG)
    (hno : ∀ hd, Record.header hd ∉ t) (hlp : s.last_parameter = true)
    (hs : run env s t = some s1) :
    s1.callee_function = s.callee_function ∧
    s1.callee_dynamic_function = s.callee_dynamic_function ∧
    s1.curr_microop = s.curr_microop ∧ s1.function_counter = s.function_counter ∧
    s1.active_method = s.active_method := by
  induction t generalizing s with
  | nil =>
    simp only [run, Option.some.injEq] at hs
    rw [← hs]
    exact ⟨rfl, rfl, rfl, rfl, rfl⟩
  | cons r t ih =>
    simp only [run] at hs
    cases hd : dispatch env s r with
    | none => simp [hd] at hs
    | some s2 =>
      simp only [hd] at hs
      have hr : ∀ h, r ≠ .header h := fun h e => hno h (by rw [e]; exact List.mem_cons_self _ _)
      obtain ⟨k1, k2, k3⟩ := dispatch_keeps_callee env s s2 r hr hlp hd
      obtain ⟨hm, _, _, _, _, hfc, hst⟩ := dispatch_keeps env s s2 r hr hd
      obtain ⟨i1, i2, i3, i4, i5⟩ := ih s2 (fun x hx => hno x (List.mem_cons_of_mem _ hx)) k1 hs
      exact ⟨i1.trans k2, i2.trans k3, i3.trans hm, i4.trans hfc, i5.trans hst⟩

/-- The first header of the callee: the id it is given, by the counter of the
callee, whether the callee is the function on top of the stack or not. -/
theorem parse_instruction_line_callee (env : Env) (h : InstructionLine) (s : DDDG)
    (top : String) (rest : List String) (A : String) (pc : Option Nat)
    (hstack : s.active_method = top :: rest) (htop : sscanf_top top = (some A, pc))
    (hprev : s.curr_microop = some env.LLVM_IR_Call)
    (hcallee : s.callee_function = h.curr_static_function)
    (hcount : find A s.function_counter ≠ none) :
    ∃ s1, parse_instruction_line env h s = some s1 ∧
      s1.curr_dynamic_function =
        (match find h.curr_static_function s.function_counter with
          | some c => h.curr_static_function ++ "-" ++ Nat.repr (c + 1)
          | none => h.curr_static_function ++ "-0") := by
  by_cases hA : h.curr_static_function = A
  · subst hA
    cases hf : find h.curr_static_function s.function_counter with
    | none => exact absurd hf hcount
    | some c =>
      have hr := resolve_active_recursive env h s top rest pc hstack htop hprev hcallee
      rw [hf, Option.map_some'] at hr
      unfold parse_instruction_line
      simp only [hr]
      refine ⟨_, rfl, ?_⟩
      simp [resolve_new]
  · unfold parse_instruction_line resolve_active
    simp only [hstack, htop, if_neg hA, Option.map_some']
    refine ⟨_, rfl, ?_⟩
    have h0 : h.curr_static_function ++ "-" ++ Nat.repr 0 = h.curr_static_function ++ "-0" := by
      rw [String.append_assoc]
      rfl
    by_cases hret : h.microop = env.LLVM_IR_Ret
    · cases hf : find h.curr_static_function s.function_counter with
      | none => simp [hret, resolve_new, hf, h0]
      | some c => simp [hret, resolve_new, hf]
    · cases hf : find h.curr_static_function s.function_counter with
      | none => simp [hret, resolve_new, hf, h0]
      | some c => simp [hret, resolve_new, hf]

/-- C21. Let a Call header of a function whose name is not empty and has no
`-` be processed in a state reached by a trace whose headers name functions
without `-`, and let its first parameter record carry the label `g`.  The
record sets `callee_function` to `g` and `callee_dynamic_function` to
`"g-<counter+1>"`, or to `"g-0"` when `g` has no counter.  When, after further
records that are not headers, the next header names the function `g`, it is
processed and the `curr_dynamic_function` it assigns is that string, whether
`g` is another function or the caller itself. -/
theorem callee_id_prediction (env : Env) (pre mid : List Record) (hC h : InstructionLine)
    (k : Int) (p : ParameterLine) (s0 s1 s2 : DDDG) (hwf : env.WellFormed)
    (hnames : ∀ hd, Record.header hd ∈ pre → '-' ∉ hd.curr_static_function.data)
    (hA : '-' ∉ hC.curr_static_function.data) (hAne : hC.curr_static_function ≠ "")
    (hcall : hC.microop % 256 = env.LLVM_IR_Call)
    (hg : h.curr_static_function = p.label)
    (hpre : run env DDDG.init pre = some s0)
    (h1 : run env s0 [.header hC, .parameter k p] = some s1)
    (hmid : ∀ hd, Record.header hd ∉ mid)
    (h2 : run env s1 mid = some s2) :
    s1.callee_function = p.label ∧
    s1.callee_dynamic_function =
      (match find p.label s1.function_counter with
        | some c => p.label ++ "-" ++ Nat.repr (c + 1)
        | none => p.label ++ "-0") ∧
    ∃ s3, parse_instruction_line env h s2 = some s3 ∧
      s3.curr_dynamic_function = s1.callee_dynamic_function := by
  have hC0 : CountersOK s0 := CountersOK_run env pre DDDG.init s0 hnames CountersOK_init hpre
  simp only [run] at h1
  cases hd : dispatch env s0 (.header hC) with
  | none => simp [hd] at h1
  | some sH =>
    simp only [hd] at h1
    cases hp : dispatch env sH (.parameter k p) with
    | none => simp [hp] at h1
    | some s1b =>
      simp only [hp, Option.some.injEq] at h1
      subst h1
      have hCH : CountersOK sH := CountersOK_parse_instruction_line env hC s0 sH hA hC0 hd
      have hret : hC.microop ≠ env.LLVM_IR_Ret := by
        intro e
        have hb := hwf.byte env.LLVM_IR_Ret (by simp [Env.opcodes])
        rw [e, hb] at hcall
        have := hwf.1
        simp [Env.opcodes, hcall] at this
      obtain ⟨top, rest, pc, hst, htop⟩ := parse_instruction_line_top env hC s0 sH hA hAne hret hd
      obtain ⟨r0, _, he⟩ := parse_instruction_line_eq env hC s0 sH hd
      have hmH : sH.curr_microop = some env.LLVM_IR_Call := by rw [he, hcall]
      have hlpH : sH.last_parameter = false := by rw [he]
      obtain ⟨q1, q2, q3⟩ := parse_parameter_call_latch env k p sH s1b hwf hmH hlpH hp
      obtain ⟨km, _, _, _, _, kfc, kst⟩ := dispatch_keeps env sH s1b (.parameter k p)
        (fun _ e => by simp at e) hp
      obtain ⟨m1, m2, m3, m4, m5⟩ := run_keeps_callee env mid s1b s2 hmid q3 h2
      have hcount : find hC.curr_static_function s2.function_counter ≠ none := by
        rw [m4, kfc]
        exact hCH top (by rw [hst]; exact List.mem_cons_self _ _) _ pc htop
      obtain ⟨s3, h3, h4⟩ := parse_instruction_line_callee env h s2 top rest
        hC.curr_static_function pc (by rw [m5, kst, hst]) htop (by rw [m3, km, hmH])
        (by rw [m1, q1, hg]) hcount
      refine ⟨q1, by rw [q2, kfc], s3, h3, ?_⟩
      rw [h4, q2, hg, m4, kfc]

/-- In scenario S6 the callee `foo` of the Call in `foo` is predicted and
entered as `foo-1`; in `S9_trace` the callee `B` of the Call in `A` is
predicted and entered as `B-0`. -/
theorem callee_id_prediction_witness :
    (∃ s3, parse_instruction_line sample_env S6_entry S6_state = some s3 ∧
      S6_state.callee_dynamic_function = "foo-1" ∧ s3.curr_dynamic_function = "foo-1") ∧
    (∃ s1 s3, run sample_env DDDG.init ((S9_trace S9_pair).take 3) = some s1 ∧
      parse_instruction_line sample_env ⟨7, "B", "bb0", "i1", 8, 2⟩ s1 = some s3 ∧
      s1.callee_dynamic_function = "B-0" ∧ s3.curr_dynamic_function = "B-0") := by
  constructor
  · obtain ⟨_, _, s3, h3, h4⟩ :=
      callee_id_prediction sample_env [.header ⟨30, "foo", "bb0", "i1", 8, 0⟩] []
        ⟨31, "foo", "bb0", "i2", 49, 1⟩ S6_entry 1 ⟨64, int_value 0, 1, "foo", ""⟩
        ((run sample_env DDDG.init [.header ⟨30, "foo", "bb0", "i1", 8, 0⟩]).getD DDDG.init)
        S6_state S6_state (by decide)
        (by
          intro hd hmem
          simp only [List.mem_singleton, Record.header.injEq] at hmem
          subst hmem
          decide)
        (by decide) (by decide) (by decide) (by decide) (by decide) (by decide)
        (by intro hd hmem; simp at hmem) (by decide)
    exact ⟨s3, h3, by decide, h4.trans (by decide)⟩
  · obtain ⟨_, _, s3, h3, h4⟩ :=
      callee_id_prediction sample_env [.header ⟨1, "A", "bb0", "i1", 8, 0⟩] []
        ⟨2, "A", "bb0", "i2", 49, 1⟩ ⟨7, "B", "bb0", "i1", 8, 2⟩ 1
        ⟨64, int_value 0, 0, "B", ""⟩
        ((run sample_env DDDG.init [.header ⟨1, "A", "bb0", "i1", 8, 0⟩]).getD DDDG.init)
        ((run sample_env DDDG.init ((S9_trace S9_pair).take 3)).getD DDDG.init)
        ((run sample_env DDDG.init ((S9_trace S9_pair).take 3)).getD DDDG.init) (by decide)
        (by
          intro hd hmem
          simp only [List.mem_singleton, Record.header.injEq] at hmem
          subst hmem
          decide)
        (by decide) (by decide) (by decide) (by decide) (by decide) (by decide)
        (by intro hd hmem; simp at hmem) (by decide)
    exact ⟨_, s3, by decide, h3, by decide, h4.trans (by decide)⟩

/-! ## Strictly forward memory edges -/

theorem parse_parameter_mem_body_reader (env : Env) (k : Int) (p : ParameterLine)
    (s s1 : DDDG) (h : parse_parameter_mem_body env k p s = some s1) :
    ∀ e ∈ s1.memory_edge_table, e ∈ s.memory_edge_table ∨ reads_writer env s e.1 := by
  unfold parse_parameter_mem_body at h
  simp only at h
  split_ifs at h with c1 c2
  · split at h
    · simp only [Option.some.injEq] at h
      subst h
      intro e he
      rcases handle_post_write_dependency_sources _ _ e he with h | _
      · exact Or.inl h
      · exact Or.inr (Or.inl c1.2)
    · exact absurd h (by simp)
  · split at h
    · rename_i mem_address base_label node _ _ hnode
      split at h
      · rename_i last hlast
        split at h
        · simp at h
        · rename_i writer hwriter
          split_ifs at h with hd
          · simp only [Option.map_some', Option.some.injEq] at h
            subst h
            intro e he
            rcases handle_post_write_dependency_sources _ _ e he with h | ⟨hf, _⟩
            · exact Or.inl h
            · have he1 : last = e.1 := Option.some.inj (hlast.symm.trans hf)
              rw [he1] at hwriter
              exact Or.inr (Or.inr (Or.inl ⟨c2.2, writer, hwriter, hd⟩))
          · simp only [Option.map_some', Option.some.injEq] at h
            subst h
            exact fun e he => Or.inl he
      · simp only [Option.map_some', Option.some.injEq] at h
        subst h
        exact fun e he => Or.inl he
    · exact absurd h (by simp)
  · split at h
    · split at h
      · simp at h
      · simp only [Option.some.injEq] at h
        subst h
        exact fun e he => Or.inl he
    · exact absurd h (by simp)
  · split at h
    · simp only [Option.some.injEq] at h
      subst h
      exact fun e he => Or.inl he
    · exact absurd h (by simp)
  · split at h
    · split_ifs at h
      · simp only [Option.some.injEq] at h
        subst h
        exact fun e he => Or.inl he
      · simp only [Option.some.injEq] at h
        subst h
        exact fun e he => Or.inl he
    · exact absurd h (by simp)
  · simp only [Option.some.injEq] at h
    subst h
    exact fun e he => Or.inl he

theorem parse_parameter_mem_reader (env : Env) (k : Int) (p : ParameterLine)
    (s s1 : DDDG) (h : parse_parameter_mem env k p s = some s1) :
    ∀ e ∈ s1.memory_edge_table, e ∈ s.memory_edge_table ∨ reads_writer env s e.1 := by
  unfold parse_parameter_mem at h
  split_ifs at h
  · exact parse_parameter_mem_body_reader env k p s s1 h
  · split at h
    · simp at h
    · split_ifs at h
      · exact parse_parameter_mem_body_reader env k p s s1 h
      · simp only [Option.some.injEq] at h
        subst h
        exact fun e he => Or.inl he

theorem parse_result_dma_reader (env : Env) (node : Node) (s s1 : DDDG)
    (h : parse_result_dma env node s = some s1) :
    ∀ e ∈ s1.memory_edge_table,
      e ∈ s.memory_edge_table ∨ s.curr_microop ≠ some env.LLVM_IR_DMALoad := by
  unfold parse_result_dma at h
  split at h
  · rename_i mem_address v2 v3 _ _
    dsimp only at h
    split_ifs at h with c1 c2
    · simp only [Option.some.injEq] at h
      subst h
      obtain ⟨al, hal⟩ := foldl_dma_load_write_frame
        (dma_range mem_address (v2 % 2 ^ 32) (v3 % 2 ^ 32))
        { s with calls := s.calls ++
            [.set_mem_access_dma node.id mem_address (v2 % 2 ^ 32) (v3 % 2 ^ 32)] }
      intro e he
      rw [hal] at he
      exact Or.inl he
    · simp only [Option.some.injEq] at h
      subst h
      exact fun e he => Or.inl he
    · exact fun e _ => Or.inr c1
  · simp at h

/-- A memory edge that a record appends was asked for by one of the three
callers of `handle_post_write_dependency`. -/
theorem dispatch_reader (env : Env) (s s1 : DDDG) (r : Record)
    (hr : ∀ h, r ≠ .header h) (hs : dispatch env s r = some s1) :
    ∀ e ∈ s1.memory_edge_table, e ∈ s.memory_edge_table ∨ reads_writer env s e.1 := by
  cases r with
  | header h => exact absurd rfl (hr h)
  | result r =>
    obtain ⟨node, c, hnode, _, h1 | ⟨hdma, h1⟩⟩ := parse_result_cases env r s s1 hs
    · rw [h1]
      exact fun e he => Or.inl he
    · intro e he
      rcases parse_result_dma_reader env node _ s1 h1 e he with h | h
      · exact Or.inl h
      · exact Or.inr (Or.inr (Or.inr ⟨node, hnode, hdma, h⟩))
  | forward f =>
    obtain ⟨node, src, _, _, _, _, he⟩ := parse_forward_eq env f s s1 hs
    rw [he]
    exact fun e he => Or.inl he
  | parameter k p =>
    simp only [dispatch] at hs
    unfold parse_parameter at hs
    split_ifs at hs
    · simp only [Option.some.injEq] at hs
      rw [← hs]
      exact fun e he => Or.inl he
    · obtain ⟨np, cf, cdf, hl⟩ := parse_parameter_latch_frame env k p s
      obtain ⟨u, t, n, l, w, hrf⟩ := parse_parameter_reg_frame env k p
        (parse_parameter_latch env k p s)
      have := parse_parameter_mem_reader env k p _ s1 hs
      rw [hrf, hl] at this
      exact this

theorem StrictOK_init (env : Env) : StrictOK env DDDG.init := by
  refine ⟨?_, ?_⟩
  · intro e he
    simp [DDDG.init] at he
  · intro a ha
    simp [DDDG.init, find] at ha

theorem StrictOK_dispatch (env : Env) (s s1 : DDDG) (r : Record) (hwf : env.WellFormed)
    (hdma : env.dma_by_microop) (hI : Inv s) (hR : Registry env s) (hS : StrictOK env s)
    (hd : dispatch env s r = some s1) : StrictOK env s1 := by
  by_cases hr : ∀ h, r ≠ .header h
  · obtain ⟨hm, _, _, hnode, _⟩ := dispatch_keeps env s s1 r hr hd
    have hn := dispatch_num_of_instructions env s s1 r hr hd
    obtain ⟨ha, he⟩ := dispatch_memory_step env s s1 r hr hd
    have hrd := dispatch_reader env s s1 r hr hd
    refine ⟨?_, ?_⟩
    · intro e hmem
      rcases he e hmem with hold | ⟨a, hf, hsink⟩
      · exact hS.1 e hold
      · have hle : e.1 ≤ s.num_of_instructions := (hI.2.2.1 a e.1 hf).2
        have hne : e.1 ≠ s.num_of_instructions := by
          intro heq
          rw [heq] at hf
          have hkind := hS.2 a hf
          have hcur : ∃ node, s.curr_node = some node := by
            cases hcn : s.curr_node with
            | some node => exact ⟨node, rfl⟩
            | none =>
              have := hI.1.2.1 hcn
              rcases hkind with hk | hk <;> rw [this] at hk <;> exact absurd hk (by simp)
          obtain ⟨node, hcn⟩ := hcur
          obtain ⟨hlook, hmo⟩ := hR.2.1 node hcn
          rcases hrd e hmem with hold | hread
          · have := hS.1 e hold
            have h2 := (hI.2.2.2.1 e hold).2.2.1
            omega
          · rcases hread with hl | ⟨hst, writer, hw, hisl⟩ | ⟨node2, hcn2, hop, hnd⟩
            · rcases hkind with hk | hk
              · exact hwf.load_ne_store (Option.some.inj (hl.symm.trans hk))
              · exact hwf.dmaload_ne_load (Option.some.inj (hk.symm.trans hl))
            · rw [heq, hlook] at hw
              have hwn : node = writer := Option.some.inj hw
              subst hwn
              have h1 := hdma.1 _ hisl
              rw [hmo] at hst
              have h2 : node.microop % 256 = env.LLVM_IR_Store := Option.some.inj hst
              exact hwf.dmaload_ne_store (h1.symm.trans h2)
            · rw [hcn] at hcn2
              have hnn : node = node2 := Option.some.inj hcn2
              subst hnn
              rcases hkind with hk | hk
              · rw [hmo] at hk
                exact hdma.2 _ hop (Option.some.inj hk)
              · exact hnd hk
        rw [hsink]
        show e.1 < s.num_of_instructions
        omega
    · intro a hf
      rw [hn] at hf
      rw [hm]
      rcases ha a _ hf with hold | ⟨_, _, hk⟩
      · exact hS.2 a hold
      · rcases hk with hk | ⟨_, hk⟩
        · exact Or.inl hk
        · exact Or.inr hk
  · push_neg at hr
    obtain ⟨h, rfl⟩ := hr
    obtain ⟨r0, _, he⟩ := parse_instruction_line_eq env h s s1 hd
    rw [he]
    refine ⟨hS.1, ?_⟩
    intro a hf
    have hle : s.num_of_instructions + 1 ≤ s.num_of_instructions := (hI.2.2.1 a _ hf).2
    omega

theorem StrictOK_run (env : Env) (t : List Record) (s s1 : DDDG) (hwf : env.WellFormed)
    (hdma : env.dma_by_microop) (hI : Inv s) (hR : Registry env s) (hS : StrictOK env s)
    (hs : run env s t = some s1) : StrictOK env s1 := by
  induction t generalizing s with
  | nil =>
    simp only [run, Option.some.injEq] at hs
    rw [← hs]
    exact hS
  | cons r t ih =>
    simp only [run] at hs
    cases hd : dispatch env s r with
    | none => simp [hd] at hs
    | some s2 =>
      simp only [hd] at hs
      exact ih s2 (Inv_dispatch env s s2 r hI hd) (Registry_dispatch env s s2 r hR hd)
        (StrictOK_dispatch env s s2 r hwf hdma hI hR hS hd) hs

/-- C22. Let the opcode macros be distinct byte values and let the DMA
predicates of a node follow its micro-op.  In every state reached from the
initial state (a trace is processed only if each record that is not a header
follows a header), every entry `(s, t, par_id)` of `memory_edge_table` has
`0 <= s < t` and `par_id = -1`: the node that calls
`handle_post_write_dependency`, a Load, a Store whose prior writer is a DMA
load, or a DMA node that is not a DMALoad, is never the recorded last writer
of the address it asks for. -/
theorem memory_edges_strict (env : Env) (t : List Record) (s : DDDG) (hwf : env.WellFormed)
    (hdma : env.dma_by_microop) (hrun : run env DDDG.init t = some s) :
    (∀ e ∈ s.memory_edge_table, 0 ≤ e.1 ∧ e.1 < e.2.sink_node ∧ e.2.par_id = -1) ∧
    ∀ a w, find a s.address_last_written = some w → reads_writer env s w →
      w < s.num_of_instructions := by
  have hI : Inv s := Inv_run env t DDDG.init s Inv_init hrun
  have hR : Registry env s := Registry_run env t DDDG.init s (Registry_init env) hrun
  have hS : StrictOK env s :=
    StrictOK_run env t DDDG.init s hwf hdma Inv_init (Registry_init env) (StrictOK_init env) hrun
  refine ⟨fun e he => ⟨(hI.2.2.2.1 e he).1, hS.1 e he, (hI.2.2.2.1 e he).2.2.2⟩, ?_⟩
  intro a w hf hread
  have hle : w ≤ s.num_of_instructions := (hI.2.2.1 a w hf).2
  have hne : w ≠ s.num_of_instructions := by
    intro heq
    rw [heq] at hf
    have hkind := hS.2 a hf
    have hcur : ∃ node, s.curr_node = some node := by
      cases hcn : s.curr_node with
      | some node => exact ⟨node, rfl⟩
      | none =>
        have := hI.1.2.1 hcn
        rcases hkind with hk | hk <;> rw [this] at hk <;> exact absurd hk (by simp)
    obtain ⟨node, hcn⟩ := hcur
    obtain ⟨hlook, hmo⟩ := hR.2.1 node hcn
    rcases hread with hl | ⟨hst, writer, hw, hisl⟩ | ⟨node2, hcn2, hop, hnd⟩
    · rcases hkind with hk | hk
      · exact hwf.load_ne_store (Option.some.inj (hl.symm.trans hk))
      · exact hwf.dmaload_ne_load (Option.some.inj (hk.symm.trans hl))
    · rw [heq, hlook] at hw
      have hwn : node = writer := Option.some.inj hw
      subst hwn
      have h1 := hdma.1 _ hisl
      rw [hmo] at hst
      have h2 : node.microop % 256 = env.LLVM_IR_Store := Option.some.inj hst
      exact hwf.dmaload_ne_store (h1.symm.trans h2)
    · rw [hcn] at hcn2
      have hnn : node = node2 := Option.some.inj hcn2
      subst hnn
      rcases hkind with hk | hk
      · rw [hmo] at hk
        exact hdma.2 _ hop (Option.some.inj hk)
      · exact hnd hk
  omega

theorem sample_env_dma_by_microop : sample_env.dma_by_microop := by
  refine ⟨?_, ?_⟩
  · intro m hm
    simp only [sample_env, decide_eq_true_eq] at hm
    subst hm
    decide
  · intro m hm
    simp only [sample_env, Bool.or_eq_true, decide_eq_true_eq] at hm
    rcases hm with hm | hm <;> subst hm <;> decide

/-- Scenario S5: the one memory edge leads from the DMALoad (node 0) to the
Load (node 1). -/
theorem memory_edges_strict_witness :
    ∃ s, run sample_env DDDG.init S5_trace = some s ∧
      s.memory_edge_table = [(0, ⟨1, -1⟩)] ∧
      ∀ e ∈ s.memory_edge_table, 0 ≤ e.1 ∧ e.1 < e.2.sink_node ∧ e.2.par_id = -1 := by
  refine ⟨(run sample_env DDDG.init S5_trace).getD DDDG.init, by decide, by decide, ?_⟩
  exact (memory_edges_strict sample_env S5_trace _ (by decide) sample_env_dma_by_microop
    (by decide)).1

/-! ## Last writers persist -/

theorem parse_parameter_mem_body_keeps (env : Env) (k : Int) (p : ParameterLine)
    (s s1 : DDDG) (a : Addr)
    (hq : ¬ (k = 2 ∧ s.curr_microop = some env.LLVM_IR_Store ∧
      (s.parameter_value_per_inst ++ [p.value.as_addr &&& env.ADDR_MASK]).head? = some a))
    (h : parse_parameter_mem_body env k p s = some s1) :
    find a s1.address_last_written = find a s.address_last_written := by
  unfold parse_parameter_mem_body at h
  simp only at h
  split_ifs at h with c1 c2
  · split at h
    · simp only [Option.some.injEq] at h
      subst h
      simp
    · exact absurd h (by simp)
  · split at h
    · rename_i mem_address base_label node hhead _ _
      have hne : a ≠ mem_address := by
        intro e
        apply hq
        refine ⟨c2.1, c2.2, ?_⟩
        rw [e]
        exact hhead
      split at h
      · split at h
        · simp at h
        · split_ifs at h
          · simp only [Option.map_some', Option.some.injEq] at h
            subst h
            simp only [handle_post_write_dependency_num, handle_post_write_dependency_addr]
            exact find_assign_other _ _ _ _ hne
          · simp only [Option.map_some', Option.some.injEq] at h
            subst h
            exact find_assign_other _ _ _ _ hne
      · simp only [Option.map_some', Option.some.injEq] at h
        subst h
        have hne2 : ¬ mem_address = a := fun e => hne e.symm
        show find a (s.address_last_written ++ [(mem_address, s.num_of_instructions)]) = _
        rw [find_append]
        cases find a s.address_last_written <;> simp [find, hne2]
    · exact absurd h (by simp)
  · split at h
    · split at h
      · simp at h
      · simp only [Option.some.injEq] at h
        subst h
        rfl
    · exact absurd h (by simp)
  · split at h
    · simp only [Option.some.injEq] at h
      subst h
      rfl
    · exact absurd h (by simp)
  · split at h
    · split_ifs at h
      · simp only [Option.some.injEq] at h
        subst h
        rfl
      · simp only [Option.some.injEq] at h
        subst h
        rfl
    · exact absurd h (by simp)
  · simp only [Option.some.injEq] at h
    subst h
    rfl

theorem parse_parameter_mem_keeps (env : Env) (k : Int) (p : ParameterLine)
    (s s1 : DDDG) (a : Addr)
    (hq : ¬ (k = 2 ∧ s.curr_microop = some env.LLVM_IR_Store ∧
      (s.parameter_value_per_inst ++ [p.value.as_addr &&& env.ADDR_MASK]).head? = some a))
    (h : parse_parameter_mem env k p s = some s1) :
    find a s1.address_last_written = find a s.address_last_written := by
  unfold parse_parameter_mem at h
  split_ifs at h
  · exact parse_parameter_mem_body_keeps env k p s s1 a hq h
  · split at h
    · simp at h
    · split_ifs at h
      · exact parse_parameter_mem_body_keeps env k p s s1 a hq h
      · simp only [Option.some.injEq] at h
        subst h
        rfl

theorem parse_result_dma_keeps (env : Env) (node : Node) (s s1 : DDDG) (a : Addr)
    (hq : ¬ (s.curr_microop = some env.LLVM_IR_DMALoad ∧ env.isReadyMode = false ∧
      ∃ x0 base v2 v3 rest, s.parameter_value_per_inst = x0 :: base :: v2 :: v3 :: rest ∧
        a ∈ dma_range base (v2 % 2 ^ 32) (v3 % 2 ^ 32)))
    (h : parse_result_dma env node s = some s1) :
    find a s1.address_last_written = find a s.address_last_written := by
  unfold parse_result_dma at h
  split at h
  · rename_i x0 mem_address v2 v3 rest hpv
    dsimp only at h
    split_ifs at h with c1 c2
    · simp only [Option.some.injEq] at h
      subst h
      rw [foldl_dma_load_write_find, if_neg]
      intro hin
      exact hq ⟨c1, by simpa using c2, x0, mem_address, v2, v3, rest, hpv, hin⟩
    · simp only [Option.some.injEq] at h
      subst h
      rfl
    · simp only [Option.some.injEq] at h
      subst h
      obtain ⟨t, n, ht⟩ := foldl_handle_post_write_dependency_frame
        (dma_range mem_address (v2 % 2 ^ 32) (v3 % 2 ^ 32))
        { s with calls := s.calls ++
            [.set_mem_access_dma node.id mem_address (v2 % 2 ^ 32) (v3 % 2 ^ 32)] }
      rw [ht]
  · simp at h

/-- A record that is no write to the address `a` leaves the last writer of
`a` as it is. -/
theorem dispatch_no_write (env : Env) (s s1 : DDDG) (r : Record) (a : Addr)
    (hq : no_write env a s r = true) (hs : dispatch env s r = some s1) :
    find a s1.address_last_written = find a s.address_last_written := by
  cases r with
  | header h =>
    obtain ⟨r0, _, he⟩ := parse_instruction_line_eq env h s s1 hs
    rw [he]
  | result r =>
    obtain ⟨node, c, hnode, _, h1 | ⟨hdma, h1⟩⟩ := parse_result_cases env r s s1 hs
    · rw [h1]
    · refine (parse_result_dma_keeps env node _ s1 a ?_ h1).trans rfl
      rintro ⟨hm, hready, x0, base, v2, v3, rest, hpv, hin⟩
      have hpv2 : s.parameter_value_per_inst = x0 :: base :: v2 :: v3 :: rest := hpv
      have hm2 : s.curr_microop = some env.LLVM_IR_DMALoad := hm
      simp [no_write, writes_address, hm2, hready, hnode, hdma, hpv2] at hq
      exact hq (by simpa using hin)
  | forward f =>
    obtain ⟨node, src, _, _, _, _, he⟩ := parse_forward_eq env f s s1 hs
    rw [he]
  | parameter k p =>
    simp only [dispatch] at hs
    unfold parse_parameter at hs
    split_ifs at hs
    · simp only [Option.some.injEq] at hs
      rw [← hs]
    · obtain ⟨np, cf, cdf, hl⟩ := parse_parameter_latch_frame env k p s
      obtain ⟨u, t, n, l, w, hrf⟩ := parse_parameter_reg_frame env k p
        (parse_parameter_latch env k p s)
      have hq2 : ¬ (k = 2 ∧ s.curr_microop = some env.LLVM_IR_Store ∧
          (s.parameter_value_per_inst ++ [p.value.as_addr &&& env.ADDR_MASK]).head? =
            some a) := by
        intro hc
        simp [no_write, writes_address, hc.1, hc.2.1, hc.2.2] at hq
      have := parse_parameter_mem_keeps env k p _ s1 a (by rw [hrf, hl]; exact hq2) hs
      rw [hrf, hl] at this
      exact this

/-- Along a trace none of whose records writes the address `a`, the last
writer of `a` stays. -/
theorem run_no_write (env : Env) (t : List Record) (s s1 : DDDG) (a : Addr)
    (hq : along env (no_write env a) s t = true) (hs : run env s t = some s1) :
    find a s1.address_last_written = find a s.address_last_written := by
  induction t generalizing s with
  | nil =>
    simp only [run, Option.some.injEq] at hs
    rw [← hs]
  | cons r t ih =>
    simp only [run] at hs
    cases hd : dispatch env s r with
    | none => simp [hd] at hs
    | some s2 =>
      simp only [hd] at hs
      simp only [along, hd, Bool.and_eq_true] at hq
      exact (ih s2 hq.2 hs).trans (dispatch_no_write env s s2 r a hq.1 hd)

theorem run_keeps_node (env : Env) (t : List Record) (s s1 : DDDG)
    (hno : ∀ hd, Record.header hd ∉ t) (hs : run env s t = some s1) :
    s1.curr_microop = s.curr_microop ∧ s1.curr_node = s.curr_node ∧
    s1.num_of_instructions = s.num_of_instructions := by
  induction t generalizing s with
  | nil =>
    simp only [run, Option.some.injEq] at hs
    rw [← hs]
    exact ⟨rfl, rfl, rfl⟩
  | cons r t ih =>
    simp only [run] at hs
    cases hd : dispatch env s r with
    | none => simp [hd] at hs
    | some s2 =>
      simp only [hd] at hs
      have hr : ∀ h, r ≠ .header h := fun h e => hno h (by rw [e]; exact List.mem_cons_self _ _)
      obtain ⟨hm, _, _, hnode, _⟩ := dispatch_keeps env s s2 r hr hd
      have hn := dispatch_num_of_instructions env s s2 r hr hd
      obtain ⟨i1, i2, i3⟩ := ih s2 (fun x hx => hno x (List.mem_cons_of_mem _ hx)) hs
      exact ⟨i1.trans hm, i2.trans hnode, i3.trans hn⟩

/-- After a stretch `mid` none of whose records writes the address `a`, and
the header of the next node, the last writer of `a` is the one before. -/
theorem quiet_then_header (env : Env) (a : Addr) (mid : List Record) (h : InstructionLine)
    (s1 s2 : DDDG) (hquiet : along env (no_write env a) s1 mid = true)
    (h2 : run env s1 (mid ++ [.header h]) = some s2) :
    ∃ s5, run env s1 mid = some s5 ∧ parse_instruction_line env h s5 = some s2 ∧
      find a s2.address_last_written = find a s1.address_last_written := by
  obtain ⟨s5, h5, hL2⟩ := run_append_some env _ _ s1 s2 h2
  have hd := run_singleton env _ s5 s2 hL2
  refine ⟨s5, h5, hd, ?_⟩
  obtain ⟨r0, _, he⟩ := parse_instruction_line_eq env h s5 s2 hd
  rw [he]
  exact run_no_write env mid s1 s5 a hquiet h5

/-- The pointer operand of a Store, arriving first, makes the Store the last
writer of its address. -/
theorem store_pointer_last_writer (env : Env) (hwf : env.WellFormed) (hS : InstructionLine)
    (pS : ParameterLine) (s0 s1 : DDDG) (hstore : hS.microop = env.LLVM_IR_Store)
    (h1 : run env s0 [.header hS, .parameter 2 pS] = some s1) :
    find (pS.value.as_addr &&& env.ADDR_MASK) s1.address_last_written =
      some (s0.num_of_instructions + 1) := by
  have hSP : env.LLVM_IR_Store ≠ env.LLVM_IR_PHI := hwf.store_ne_phi
  simp only [run] at h1
  cases hd : dispatch env s0 (.header hS) with
  | none => simp [hd] at h1
  | some sH =>
    simp only [hd] at h1
    cases hp : dispatch env sH (.parameter 2 pS) with
    | none => simp [hp] at h1
    | some s1b =>
      simp only [hp, Option.some.injEq] at h1
      subst h1
      obtain ⟨r0, _, he⟩ := parse_instruction_line_eq env hS s0 sH hd
      have hm : sH.curr_microop = some env.LLVM_IR_Store := by
        rw [he, hstore, hwf.byte env.LLVM_IR_Store (by simp [Env.opcodes])]
      have hpv : sH.parameter_value_per_inst = [] := by rw [he]
      have hn : sH.num_of_instructions = s0.num_of_instructions + 1 := by rw [he]
      simp only [dispatch] at hp
      unfold parse_parameter at hp
      rw [if_neg (fun hc => hSP (Option.some.inj (hm.symm.trans hc.1)))] at hp
      obtain ⟨np, cf, cdf, hl⟩ := parse_parameter_latch_frame env 2 pS sH
      obtain ⟨u, t, n, l, w, hr⟩ := parse_parameter_reg_frame env 2 pS
        (parse_parameter_latch env 2 pS sH)
      have := parse_parameter_mem_store env pS _ s1b (by rw [hr, hl]; exact hm)
        (by rw [hr, hl]; exact hpv) hp
      rw [this, hr, hl]
      exact congrArg some hn

/-- Outside ready mode the result record of a DMALoad node is processed and
makes the node the last writer of the bytes of its range, and of no other
byte. -/
theorem dma_load_result_covers (env : Env) (hwf : env.WellFormed) (sB : DDDG) (node : Node)
    (r : ResultLine) (x0 base v2 v3 : Nat) (rest : List Nat)
    (hready : env.isReadyMode = false)
    (hnode : sB.curr_node = some node) (hdma : env.is_dma_op node.microop = true)
    (hm : sB.curr_microop = some env.LLVM_IR_DMALoad)
    (hpv : sB.parameter_value_per_inst = x0 :: base :: v2 :: v3 :: rest)
    (hreg : r.is_reg ≠ 0) :
    ∃ s1, parse_result env r sB = some s1 ∧
      ∀ a : Nat, find a s1.address_last_written =
        if a ∈ dma_range base (v2 % 2 ^ 32) (v3 % 2 ^ 32) then some sB.num_of_instructions
        else find a sB.address_last_written := by
  obtain ⟨c, hres⟩ := parse_result_dma_node env r sB node hnode hreg hdma
    (by rw [hm]; exact fun e => hwf.dmaload_ne_alloca (Option.some.inj e))
    (by rw [hm]; exact fun e => hwf.dmaload_ne_load (Option.some.inj e))
  have hres2 := parse_result_dma_load env node
    { sB with
      calls := c
      register_last_written :=
        upsert (sB.curr_dynamic_function ++ "-" ++ r.label) sB.num_of_instructions
          sB.register_last_written } x0 base v2 v3 rest hpv hm hready
  rw [hres2] at hres
  refine ⟨_, hres, ?_⟩
  intro a
  rw [foldl_dma_load_write_find]

/-- The tag-2 parameter of a Store makes the Store the last writer of
`parameter_value_per_inst[0]`. -/
theorem parse_parameter_mem_writes (env : Env) (p : ParameterLine) (s s1 : DDDG) (a : Addr)
    (hm : s.curr_microop = some env.LLVM_IR_Store)
    (hh : (s.parameter_value_per_inst ++ [p.value.as_addr &&& env.ADDR_MASK]).head? = some a)
    (h : parse_parameter_mem env 2 p s = some s1) :
    find a s1.address_last_written = some s.num_of_instructions := by
  unfold parse_parameter_mem at h
  simp only [hm, true_or, or_true, if_true] at h
  unfold parse_parameter_mem_body at h
  have h21 : ¬ ((2 : Int) = 1) := by decide
  simp only [hm, hh, and_true, if_true, h21, false_and, if_false] at h
  split at h
  · rename_i mem_address base_label node hv hl hn
    simp only [Option.some.injEq] at hv
    subst hv
    split at h
    · rename_i w hw
      split at h
      · simp at h
      · split_ifs at h
        · simp only [Option.map_some', Option.some.injEq] at h
          subst h
          simp only [handle_post_write_dependency_num, handle_post_write_dependency_addr]
          exact find_assign_self _ _ _ (by rw [hw]; simp)
        · simp only [Option.map_some', Option.some.injEq] at h
          subst h
          exact find_assign_self _ _ _ (by rw [hw]; simp)
    · rename_i hw
      simp only [Option.map_some', Option.some.injEq] at h
      subst h
      simp only [find_append, hw, find, if_true, Option.orElse]
  · simp at h

/-- A record that writes the address `a` makes the current node the last
writer of `a`, the opcode macros being distinct byte values. -/
theorem dispatch_writes_address (env : Env) (hwf : env.WellFormed) (s s1 : DDDG)
    (r : Record) (a : Addr) (hw : writes_address env a s r = true)
    (hs : dispatch env s r = some s1) :
    find a s1.address_last_written = some s.num_of_instructions := by
  cases r with
  | header h => simp [writes_address] at hw
  | forward f => simp [writes_address] at hw
  | result r =>
    simp only [writes_address, Bool.and_eq_true, decide_eq_true_eq] at hw
    obtain ⟨⟨⟨hm, hready⟩, hn⟩, hr⟩ := hw
    obtain ⟨_, _, _, hreg, _⟩ := parse_result_cases env r s s1 hs
    cases hnode : s.curr_node with
    | none => simp [hnode] at hn
    | some node =>
      simp only [hnode] at hn
      cases hpv : s.parameter_value_per_inst with
      | nil => simp [hpv] at hr
      | cons x0 l0 =>
        cases l0 with
        | nil => simp [hpv] at hr
        | cons base l1 =>
          cases l1 with
          | nil => simp [hpv] at hr
          | cons v2 l2 =>
            cases l2 with
            | nil => simp [hpv] at hr
            | cons v3 rest =>
              simp only [hpv, decide_eq_true_eq] at hr
              obtain ⟨s1b, hres1, hfind⟩ := dma_load_result_covers env hwf s node r x0 base v2
                v3 rest hready hnode hn hm hpv hreg
              have e1 : s1b = s1 := Option.some.inj (hres1.symm.trans hs)
              subst e1
              rw [hfind, if_pos hr]
  | parameter k p =>
    simp only [writes_address, decide_eq_true_eq] at hw
    obtain ⟨hk, hm, hh⟩ := hw
    subst hk
    simp only [dispatch] at hs
    unfold parse_parameter at hs
    rw [if_neg (fun hc => hwf.store_ne_phi (Option.some.inj (hm.symm.trans hc.1)))] at hs
    obtain ⟨np, cf, cdf, hl⟩ := parse_parameter_latch_frame env 2 p s
    obtain ⟨u, t, n, l, w, hrf⟩ := parse_parameter_reg_frame env 2 p
      (parse_parameter_latch env 2 p s)
    have := parse_parameter_mem_writes env p _ s1 a (by rw [hrf, hl]; exact hm)
      (by rw [hrf, hl]; exact hh) hs
    rw [this, hrf, hl]

/-- C2. A Store node `s`, issued after the trace `pre`, whose first parameter
record is its tag-2 pointer operand, with address `a`, becomes the last writer
of `a`.  Let `mid` be the records between that parameter and the header of a
later Load node `l`, none of them a write to `a`: no tag-2 parameter of a
Store whose `parameter_value_per_inst[0]` is `a`, and outside ready mode no
result of a DMALoad whose bytes contain `a` (`no_write` along `mid`).  Then
the tag-1 parameter of `l` with address `a` is processed and appends exactly
the memory edge `(s → l, -1)` to `memory_edge_table`: it is then the only
entry that joins `s` and `l`, and `num_of_mem_dep` has grown by one.  The
opcode macros are distinct byte values. -/
theorem store_then_load_raw (env : Env) (pre mid : List Record) (hS hL : InstructionLine)
    (pS pL : ParameterLine) (s0 s1 s2 : DDDG) (hwf : env.WellFormed)
    (hstore : hS.microop = env.LLVM_IR_Store) (hload : hL.microop = env.LLVM_IR_Load)
    (haddr : pL.value.as_addr = pS.value.as_addr)
    (hpre : run env DDDG.init pre = some s0)
    (h1 : run env s0 [.header hS, .parameter 2 pS] = some s1)
    (hquiet : along env (no_write env (pS.value.as_addr &&& env.ADDR_MASK)) s1 mid = true)
    (h2 : run env s1 (mid ++ [.header hL]) = some s2) :
    find (pS.value.as_addr &&& env.ADDR_MASK) s1.address_last_written =
      some (s0.num_of_instructions + 1) ∧
    ∃ s3, parse_parameter env 1 pL s2 = some s3 ∧
      s3.memory_edge_table =
        s2.memory_edge_table ++ [(s0.num_of_instructions + 1, ⟨s2.num_of_instructions, -1⟩)] ∧
      s3.num_of_mem_dep = s2.num_of_mem_dep + 1 ∧
      s3.memory_edge_table.countP (fun e =>
        decide (e.1 = s0.num_of_instructions + 1 ∧ e.2.sink_node = s2.num_of_instructions))
        = 1 := by
  have hw := store_pointer_last_writer env hwf hS pS s0 s1 hstore h1
  refine ⟨hw, ?_⟩
  have hI0 : Inv s0 := Inv_run env pre DDDG.init s0 Inv_init hpre
  have hI1 : Inv s1 := Inv_run env _ s0 s1 hI0 h1
  obtain ⟨s5, h5, hd, hk⟩ := quiet_then_header env _ mid hL s1 s2 hquiet h2
  have hI5 : Inv s5 := Inv_run env _ s1 s5 hI1 h5
  exact load_address_edge env hwf s5 s2 hL pL _ hI5 hload hd
    (by rw [haddr]; exact hk.trans hw)

/-- Scenario S2: the value operand of the Store lies between the pointer
operand and the Load; the Load of `0x2000` gets the memory edge
`(0 → 1, -1)`. -/
theorem store_then_load_raw_witness :
    ∃ s3, parse_parameter sample_env 1 S2_load_address S2_state = some s3 ∧
      s3.memory_edge_table = [(0, ⟨1, -1⟩)] ∧ s3.num_of_mem_dep = 1 := by
  obtain ⟨s3, h1, h2, h3, _⟩ :=
    (store_then_load_raw sample_env [] [.parameter 1 S2_store_value] S2_store S2_load
      S2_store_pointer S2_load_address DDDG.init S2_stored S2_state (by decide) rfl rfl rfl rfl
      (by decide) (by decide) (by decide)).2
  exact ⟨s3, h1, h2, h3⟩

/-- C11. Outside ready mode, let the result record of a DMALoad node `d` (the
current node of a reachable state, `is_dma_op` holding of it) arrive when
`parameter_value_per_inst` holds the base in `[1]` and, as `unsigned` values,
the offset `v2 % 2^32` in `[2]` and the size `v3 % 2^32` in `[3]`, with
`base + offset + size` not wrapping.  The record is processed; afterwards `d`
is the last writer of every byte from `base + offset` up to
`base + offset + size`, and the other bytes keep their last writer.  Let then
a Load node `l` be issued later, its tag-1 address `a` in that range, and let
none of the records `mid` between the result of `d` and the header of `l` be
a write to `a`: no tag-2 parameter of a Store whose
`parameter_value_per_inst[0]` is `a`, no result of a DMALoad whose bytes
contain `a` (`no_write` along `mid`).  Then the tag-1 parameter of `l` is
processed and appends exactly the memory edge `(d → l, -1)`, the only entry
that joins `d` and `l`. -/
theorem dma_load_then_load (env : Env) (pre : List Record) (sB : DDDG) (node : Node)
    (r : ResultLine) (x0 base v2 v3 : Nat) (rest : List Nat) (hwf : env.WellFormed)
    (hready : env.isReadyMode = false)
    (hreach : run env DDDG.init pre = some sB)
    (hnode : sB.curr_node = some node) (hdma : env.is_dma_op node.microop = true)
    (hm : sB.curr_microop = some env.LLVM_IR_DMALoad)
    (hpv : sB.parameter_value_per_inst = x0 :: base :: v2 :: v3 :: rest)
    (hreg : r.is_reg ≠ 0)
    (hnowrap : base + v2 % 2 ^ 32 + v3 % 2 ^ 32 < 2 ^ 64) :
    ∃ s1, parse_result env r sB = some s1 ∧
      (∀ a : Nat, base + v2 % 2 ^ 32 ≤ a → a < base + v2 % 2 ^ 32 + v3 % 2 ^ 32 →
        find a s1.address_last_written = some sB.num_of_instructions) ∧
      (∀ a : Nat, ¬ (base + v2 % 2 ^ 32 ≤ a ∧ a < base + v2 % 2 ^ 32 + v3 % 2 ^ 32) →
        find a s1.address_last_written = find a sB.address_last_written) ∧
      ∀ (mid : List Record) (hL : InstructionLine) (pL : ParameterLine) (s2 : DDDG),
        hL.microop = env.LLVM_IR_Load →
        run env s1 (mid ++ [.header hL]) = some s2 →
        base + v2 % 2 ^ 32 ≤ pL.value.as_addr &&& env.ADDR_MASK →
        pL.value.as_addr &&& env.ADDR_MASK < base + v2 % 2 ^ 32 + v3 % 2 ^ 32 →
        along env (no_write env (pL.value.as_addr &&& env.ADDR_MASK)) s1 mid = true →
        ∃ s3, parse_parameter env 1 pL s2 = some s3 ∧
          s3.memory_edge_table =
            s2.memory_edge_table ++ [(sB.num_of_instructions, ⟨s2.num_of_instructions, -1⟩)] ∧
          s3.num_of_mem_dep = s2.num_of_mem_dep + 1 ∧
          s3.memory_edge_table.countP (fun e =>
            decide (e.1 = sB.num_of_instructions ∧ e.2.sink_node = s2.num_of_instructions))
            = 1 := by
  have hIB : Inv sB := Inv_run env pre DDDG.init sB Inv_init hreach
  obtain ⟨s1, hres, hfind⟩ := dma_load_result_covers env hwf sB node r x0 base v2 v3 rest
    hready hnode hdma hm hpv hreg
  refine ⟨s1, hres, ?_, ?_, ?_⟩
  · intro a h1 h2
    rw [hfind, if_pos ((mem_dma_range _ _ _ a hnowrap).2 ⟨h1, h2⟩)]
  · intro a ha
    rw [hfind, if_neg (fun hin => ha ((mem_dma_range _ _ _ a hnowrap).1 hin))]
  · intro mid hL pL s2 hload hrun hlo hhi hquiet
    obtain ⟨s5, h5, hd, hk⟩ := quiet_then_header env _ mid hL s1 s2 hquiet hrun
    have hI1 : Inv s1 := Inv_dispatch env sB s1 (.result r) hIB hres
    have hI5 : Inv s5 := Inv_run env mid s1 s5 hI1 h5
    refine load_address_edge env hwf s5 s2 hL pL _ hI5 hload hd (hk.trans ?_)
    rw [hfind, if_pos ((mem_dma_range _ _ _ _ hnowrap).2 ⟨hlo, hhi⟩)]

/-- Scenario S5: a DMALoad covers the bytes `0x1000` to `0x100f`; a Store to
`0x3000` follows, then the Load at `0x1004`, which gets the memory edge
`(0 → 2, -1)`. -/
theorem dma_load_then_load_witness :
    ∃ s3, parse_parameter sample_env 1 S5_load_address S5_loading_later = some s3 ∧
      s3.memory_edge_table = [(0, ⟨2, -1⟩)] ∧ s3.num_of_mem_dep = 1 := by
  obtain ⟨s1, h1, _, _, h4⟩ :=
    dma_load_then_load sample_env S5_dma_load.dropLast S5_issued ⟨0, 99⟩ S5_dma_result
      0 0x1000 0 16 [] (by decide) (by decide) (by decide) (by decide) (by decide)
      (by decide) (by decide) (by decide) (by norm_num)
  have hs1 : s1 = S5_loaded := by
    have e : parse_result sample_env S5_dma_result S5_issued = some S5_loaded := by decide
    exact Option.some.inj (h1.symm.trans e)
  subst hs1
  obtain ⟨s3, h5, h6, h7, _⟩ := h4 S5_other_store S5_load S5_load_address S5_loading_later
    (by decide) (by decide) (by decide) (by decide) (by decide)
  exact ⟨s3, h5, h6.trans (by decide), h7.trans (by decide)⟩

/-- C12. Let `d` be a DMALoad node (its micro-op is DMALoad as a byte,
`is_dma_load` and `is_dma_op` hold of it), issued after the trace `pre`; let
its result record arrive after the parameter records `body`, when
`parameter_value_per_inst` holds the base in `[1]`, the offset in `[2]` and
the size in `[3]`, and let the address `a` lie in the range from
`base + offset` up to `base + offset + size`, which does not wrap.  Let none
of the records `mid` between the result of `d` and the header of an ordinary
Store node `s` be a write to `a`: no tag-2 parameter of a Store whose
`parameter_value_per_inst[0]` is `a`, no result of a DMALoad whose bytes
contain `a` (`no_write` along `mid`); let the first parameter record of `s` be
its tag-2 pointer with address `a`.  The pointer record is processed, and
afterwards the memory edge `(d → s, -1)` is in `memory_edge_table` if and only
if `isReadyMode()` is false; outside ready mode it is the one entry the record
appends.  In ready mode the result record of a DMALoad leaves
`address_last_written` unchanged, and no state reached afterwards has a memory
edge with source `d`. -/
theorem dma_load_then_store (env : Env) (pre body mid : List Record)
    (hD hS : InstructionLine) (rD : ResultLine) (pS : ParameterLine) (s0 sB s1 s2 : DDDG)
    (x0 base v2 v3 : Nat) (rest : List Nat) (hwf : env.WellFormed)
    (hdl : hD.microop % 256 = env.LLVM_IR_DMALoad)
    (hisl : env.is_dma_load hD.microop = true)
    (hisd : env.is_dma_op hD.microop = true)
    (hstore : hS.microop = env.LLVM_IR_Store)
    (hpre : run env DDDG.init pre = some s0)
    (hbody : ∀ h, Record.header h ∉ body)
    (hB : run env s0 (.header hD :: body) = some sB)
    (hpv : sB.parameter_value_per_inst = x0 :: base :: v2 :: v3 :: rest)
    (hnowrap : base + v2 % 2 ^ 32 + v3 % 2 ^ 32 < 2 ^ 64)
    (hlo : base + v2 % 2 ^ 32 ≤ pS.value.as_addr &&& env.ADDR_MASK)
    (hhi : pS.value.as_addr &&& env.ADDR_MASK < base + v2 % 2 ^ 32 + v3 % 2 ^ 32)
    (hres : parse_result env rD sB = some s1)
    (hquiet : along env (no_write env (pS.value.as_addr &&& env.ADDR_MASK)) s1 mid = true)
    (h2 : run env s1 (mid ++ [.header hS]) = some s2) :
    ∃ s3, parse_parameter env 2 pS s2 = some s3 ∧
      ((s0.num_of_instructions + 1, (⟨s2.num_of_instructions, -1⟩ : edge_node_info)) ∈
          s3.memory_edge_table ↔ env.isReadyMode = false) ∧
      (env.isReadyMode = false →
        s3.memory_edge_table =
          s2.memory_edge_table ++
            [(s0.num_of_instructions + 1, ⟨s2.num_of_instructions, -1⟩)]) ∧
      (env.isReadyMode = true →
        (∀ (r : ResultLine) (sB s1 : DDDG), sB.curr_microop = some env.LLVM_IR_DMALoad →
          parse_result env r sB = some s1 →
          s1.address_last_written = sB.address_last_written) ∧
        ∀ (t : List Record) (s4 : DDDG), run env s3 t = some s4 →
          ∀ e ∈ s4.memory_edge_table, e.1 ≠ s0.num_of_instructions + 1) := by
  have hI0 : Inv s0 := Inv_run env pre DDDG.init s0 Inv_init hpre
  have hR0 : Registry env s0 := Registry_run env pre DDDG.init s0 (Registry_init env) hpre
  have hIB : Inv sB := Inv_run env _ s0 sB hI0 hB
  have hRB : Registry env sB := Registry_run env _ s0 sB hR0 hB
  have hI1 : Inv s1 := Inv_dispatch env sB s1 (.result rD) hIB hres
  have hR1 : Registry env s1 := Registry_dispatch env sB s1 (.result rD) hRB hres
  have hR2 : Registry env s2 := Registry_run env _ s1 s2 hR1 h2
  have hr1 : run env sB [.result rD] = some s1 := by
    simp only [run]
    rw [show dispatch env sB (.result rD) = some s1 from hres]
  -- the node `d` when its result arrives
  have hd : sB.curr_microop = some env.LLVM_IR_DMALoad ∧
      sB.curr_node = some ⟨s0.num_of_instructions + 1, hD.microop⟩ ∧
      sB.num_of_instructions = s0.num_of_instructions + 1 ∧
      getNodeFromNodeId sB.calls (s0.num_of_instructions + 1) =
        some ⟨s0.num_of_instructions + 1, hD.microop⟩ := by
    simp only [run] at hB
    cases hdD : dispatch env s0 (.header hD) with
    | none => simp [hdD] at hB
    | some sD =>
      simp only [hdD] at hB
      have hRD : Registry env sD := Registry_dispatch env s0 sD _ hR0 hdD
      obtain ⟨r0, _, he⟩ := parse_instruction_line_eq env hD s0 sD hdD
      have hn : sD.num_of_instructions = s0.num_of_instructions + 1 := by rw [he]
      have hc : sD.curr_node = some ⟨s0.num_of_instructions + 1, hD.microop⟩ := by rw [he]
      have hmD : sD.curr_microop = some (hD.microop % 256) := by rw [he]
      have hg := (hRD.2.1 _ hc).1
      rw [hn] at hg
      obtain ⟨k1, k2, k3⟩ := run_keeps_node env body sD sB hbody hB
      exact ⟨by rw [k1, hmD, hdl], k2.trans hc, k3.trans hn,
        run_getNodeFromNodeId env _ sD sB _ _ hB hg⟩
  obtain ⟨hmB, hcB, hnB, hndB⟩ := hd
  have hnd1 := run_getNodeFromNodeId env _ sB s1 _ _ hr1 hndB
  have hnd2 := run_getNodeFromNodeId env _ s1 s2 _ _ h2 hnd1
  -- the Store header
  obtain ⟨s5, h5, hdS, hk⟩ := quiet_then_header env _ mid hS s1 s2 hquiet h2
  have hI5 : Inv s5 := Inv_run env _ s1 s5 hI1 h5
  obtain ⟨r0, _, he⟩ := parse_instruction_line_eq env hS s5 s2 hdS
  have hm : s2.curr_microop = some env.LLVM_IR_Store := by
    rw [he, hstore, hwf.byte env.LLVM_IR_Store (by simp [Env.opcodes])]
  have hnode : s2.curr_node = some ⟨s5.num_of_instructions + 1, hS.microop⟩ := by rw [he]
  have hn : s2.num_of_instructions = s5.num_of_instructions + 1 := by rw [he]
  have hmet : s2.memory_edge_table = s5.memory_edge_table := by rw [he]
  have hpv2 : s2.parameter_value_per_inst = [] := by rw [he]
  have hsink : ∀ e ∈ s2.memory_edge_table, e.2.sink_node ≠ s2.num_of_instructions := by
    intro e hmem
    rw [hmet] at hmem
    have := (hI5.2.2.2.1 e hmem).2.2.1
    omega
  obtain ⟨s3, h3⟩ := parse_parameter_store_pointer_returns env pS s2 _ hwf hR2 hm hnode
  have hR3 : Registry env s3 := Registry_dispatch env s2 s3 (.parameter 2 pS) hR2 h3
  have hnd3 : getNodeFromNodeId s3.calls (s0.num_of_instructions + 1) =
      some ⟨s0.num_of_instructions + 1, hD.microop⟩ :=
    run_getNodeFromNodeId env [.parameter 2 pS] s2 s3 _ _ (by simp only [run]; rw [show
      dispatch env s2 (.parameter 2 pS) = some s3 from h3]) hnd2
  have hnr : env.isReadyMode = false →
      s3.memory_edge_table =
        s2.memory_edge_table ++
          [(s0.num_of_instructions + 1, ⟨s2.num_of_instructions, -1⟩)] := by
    intro hready
    have hlast : find (pS.value.as_addr &&& env.ADDR_MASK) s2.address_last_written =
        some (s0.num_of_instructions + 1) := by
      obtain ⟨_, _, _, hreg, _⟩ := parse_result_cases env rD sB s1 hres
      obtain ⟨s1b, hres1, hfind⟩ := dma_load_result_covers env hwf sB _ rD x0 base v2 v3 rest
        hready hcB hisd hmB hpv hreg
      have e1 : s1b = s1 := Option.some.inj (hres1.symm.trans hres)
      subst e1
      rw [hk, hfind, if_pos ((mem_dma_range _ _ _ _ hnowrap).2 ⟨hlo, hhi⟩), hnB]
    unfold parse_parameter at h3
    rw [if_neg (fun hc => hwf.store_ne_phi (Option.some.inj (hm.symm.trans hc.1)))] at h3
    obtain ⟨np, cf, cdf, hl⟩ := parse_parameter_latch_frame env 2 pS s2
    obtain ⟨u, t, n, l, w, hr⟩ := parse_parameter_reg_frame env 2 pS
      (parse_parameter_latch env 2 pS s2)
    obtain ⟨c, _, h2b⟩ := parse_parameter_mem_store_pointer env pS
      (parse_parameter_reg env 2 pS (parse_parameter_latch env 2 pS s2)) _
      (pS.value.as_addr &&& env.ADDR_MASK)
      (by rw [hr, hl]; exact hm) (by rw [hr, hl]; exact hnode)
      (by rw [hr, hl]; simp only [hpv2, List.nil_append, List.head?_cons])
    rw [h2b _ _ (by rw [hr, hl]; exact hlast) (by rw [hr, hl]; exact hnd2)] at h3
    simp only [hisl, if_true, Option.some.injEq] at h3
    rw [← h3, hr, hl]
    dsimp only
    rw [handle_post_write_dependency_new _ _ (s0.num_of_instructions + 1) (by exact hlast)
      (by intro e hmem _; exact hsink e hmem)]
  refine ⟨s3, h3, ⟨?_, ?_⟩, hnr, ?_⟩
  · intro hmem
    cases hready : env.isReadyMode with
    | false => rfl
    | true =>
      exact absurd rfl (no_edge_from_dma_load env s3 _ _ hwf hready hR3 hnd3 hdl _ hmem)
  · intro hready
    rw [hnr hready]
    simp
  · intro hready
    refine ⟨fun r sB s1 hmB hres => (parse_result_ready env r sB s1 hready hmB hres).1, ?_⟩
    intro t s4 h4
    exact no_edge_from_dma_load env s4 _ _ hwf hready
      (Registry_run env t s3 s4 hR3 h4) (run_getNodeFromNodeId env t s3 s4 _ _ h4 hnd3) hdl

/-- Scenario S5 with a Store to `0x1004` after the DMALoad: outside ready mode
the Store gets the memory edge `(0 → 1, -1)`, in ready mode it does not. -/
theorem dma_load_then_store_witness :
    (∃ s3, parse_parameter sample_env 2 S5_load_address (S5_stored sample_env) = some s3 ∧
      s3.memory_edge_table = [(0, ⟨1, -1⟩)]) ∧
    (∃ s3, parse_parameter ready_env 2 S5_load_address (S5_stored ready_env) = some s3 ∧
      (0, (⟨1, -1⟩ : edge_node_info)) ∉ s3.memory_edge_table) := by
  constructor
  · obtain ⟨s3, h1, _, h3, _⟩ :=
      dma_load_then_store sample_env [] S5_dma_load.tail.dropLast [] S5_dma_header S5_store
        S5_dma_result S5_load_address DDDG.init (S5_issued_in sample_env)
        (S5_loaded_in sample_env) (S5_stored sample_env) 0 0x1000 0 16 []
        (by decide) (by decide) (by decide) (by decide) (by decide) (by decide)
        (by intro h hmem; simp [S5_dma_load] at hmem)
        (by decide) (by decide) (by norm_num) (by decide) (by decide) (by decide) (by decide)
        (by decide)
    exact ⟨s3, h1, (h3 (by decide)).trans (by decide)⟩
  · obtain ⟨s3, h1, h2, _⟩ :=
      dma_load_then_store ready_env [] S5_dma_load.tail.dropLast [] S5_dma_header S5_store
        S5_dma_result S5_load_address DDDG.init (S5_issued_in ready_env)
        (S5_loaded_in ready_env) (S5_stored ready_env) 0 0x1000 0 16 []
        (by decide) (by decide) (by decide) (by decide) (by decide) (by decide)
        (by intro h hmem; simp [S5_dma_load] at hmem)
        (by decide) (by decide) (by norm_num) (by decide) (by decide) (by decide) (by decide)
        (by decide)
    refine ⟨s3, h1, fun hmem => ?_⟩
    have h4 : ready_env.isReadyMode = false := h2.1 hmem
    exact absurd h4 (by decide)

end ALADDIN
